import Mathlib

/-! # rQuake: the UDP driver (`net_sdl.c`) and the audio callback (`snd_sdl.c`)

A shallow embedding of the functions of `src/src/net_sdl.c` (address codec, partial
addresses, sockets, broadcast, initialisation, registry) and of the ring-buffer
callback of `src/src/snd_sdl.c`.

Conventions of the embedding

* A C string is a `List Char`; reading past its end yields the terminating NUL.
* A C `int` is an `Int`; where the C code can leave the 32-bit range the result is
  wrapped with `toInt32` (two's complement), conversions to `unsigned` go through
  `toUInt32` / `toUInt16`.
* `x >> n` on an `int` is the arithmetic shift `x / 2^n` (floor), `x & 0xff` is
  `x % 256`; `|` and `&` on 32-bit patterns are the bitwise operations of `Nat`.
* The host is little-endian (the x86/ARM targets of the port), so `htonl`/`htons`
  swap bytes; `s_addr` and `sin_port` hold the raw stored words.
-/

namespace RQuake

/-! ## Machine integers -/

/-- Wrap an integer to the range of a 32-bit two's complement `int`. -/
def toInt32 (x : Int) : Int := (x + 2147483648) % 4294967296 - 2147483648

/-- Conversion of an `int` to `unsigned int` / `uint32_t`: the 32-bit pattern. -/
def toUInt32 (x : Int) : Nat := (x % 4294967296).toNat

/-- Conversion `(unsigned short)x` (also the effect of `(short)x` followed by the
implicit conversion to `uint16_t`): the low 16 bits. -/
def toUInt16 (x : Int) : Nat := (x % 65536).toNat

/-- `x << n` on a 32-bit `int` (wrapping). -/
def shl32 (x : Int) (n : Nat) : Int := toInt32 (x * 2 ^ n)

/-- `x | y` on 32-bit `int`s. -/
def or32 (x y : Int) : Int := toInt32 ((toUInt32 x ||| toUInt32 y : Nat) : Int)

/-- Byte swap of a 32-bit word. -/
def bswap32 (x : Nat) : Nat :=
  (x % 256) * 16777216 + (x / 256 % 256) * 65536 + (x / 65536 % 256) * 256
    + (x / 16777216 % 256)

/-- Byte swap of a 16-bit word. -/
def bswap16 (x : Nat) : Nat := (x % 256) * 256 + (x / 256 % 256)

/-- `htonl` on a little-endian host. -/
def htonl (x : Nat) : Nat := bswap32 x

/-- `ntohl` on a little-endian host. -/
def ntohl (x : Nat) : Nat := bswap32 x

/-- `htons` on a little-endian host. -/
def htons (x : Nat) : Nat := bswap16 x

/-- `ntohs` on a little-endian host. -/
def ntohs (x : Nat) : Nat := bswap16 x

/-! ## Characters and C strings -/

/-- `*b`: the character under the pointer, NUL at the end of the string. -/
def peek (b : List Char) : Char := b.headD (Char.ofNat 0)

/-- The test `!(c < '0' || c > '9')`. -/
def isDigitC (c : Char) : Bool := !(decide (c.toNat < 48) || decide (c.toNat > 57))

/-- `strlen`: the number of characters before the first NUL. -/
def strlen (s : List Char) : Nat := (s.takeWhile (fun c => c.toNat != 0)).length

/-- The `isspace` of the C locale. -/
def isSpaceC (c : Char) : Bool :=
  c.toNat == 32 || (decide (9 ≤ c.toNat) && decide (c.toNat ≤ 13))

/-! ## The address value -/

/-- The constant `AF_INET`. -/
def AF_INET : Int := 2

/-- A `struct qsockaddr` viewed as a `struct sockaddr_in`: the family, the port and
the host as stored (network byte order), and the eight padding bytes `sin_zero`. -/
structure qsockaddr where
  sa_family : Int
  sin_port : Nat
  s_addr : Nat
  sin_zero : List Nat
  deriving DecidableEq, Repr

/-! ## Decimal output and input (`%d`) -/

/-- The character of a decimal digit. -/
def digitChar (d : Nat) : Char := Char.ofNat (48 + d)

/-- Decimal digits of a natural number, most significant first. -/
def toDecimalAux : Nat → Nat → List Char → List Char
  | 0, _, acc => acc
  | fuel + 1, n, acc =>
    if n / 10 = 0 then digitChar (n % 10) :: acc
    else toDecimalAux fuel (n / 10) (digitChar (n % 10) :: acc)

/-- Decimal numeral of a natural number. -/
def toDecimal (n : Nat) : List Char := toDecimalAux (n + 1) n []

/-- The output of a `%d` conversion of `printf`. -/
def fmt_d (x : Int) : List Char :=
  if x < 0 then '-' :: toDecimal x.natAbs else toDecimal x.toNat

/-- Accumulate the leading decimal digits of `s` onto `acc`; returns the value and
the unread rest. -/
def scanDigits : List Char → Nat → Nat × List Char
  | [], acc => (acc, [])
  | c :: cs, acc =>
    if isDigitC c then scanDigits cs (acc * 10 + (c.toNat - 48)) else (acc, c :: cs)

/-- Skip leading white space. -/
def skipSpace : List Char → List Char
  | [] => []
  | c :: cs => if isSpaceC c then skipSpace cs else c :: cs

/-- One `%d` directive of `scanf`: skip white space, read an optional sign and a
non-empty run of digits.  `none` is a matching failure.  The value is stored into an
`int`, hence wrapped. -/
def scan_d (s : List Char) : Option (Int × List Char) :=
  let s := skipSpace s
  let (neg, s) :=
    match s with
    | c :: cs => if c = '-' then (true, cs) else if c = '+' then (false, cs) else (false, s)
    | [] => (false, s)
  if isDigitC (peek s) then
    let r := scanDigits s 0
    some (toInt32 (if neg then -(r.1 : Int) else (r.1 : Int)), r.2)
  else none

/-- A literal character of a `scanf` format: it must be the next character. -/
def scan_lit (c : Char) (s : List Char) : Option (List Char) :=
  match s with
  | d :: ds => if d = c then some ds else none
  | [] => none

/-- The five `int` locals `ha1, ha2, ha3, ha4, hp` of `UDP_StringToAddr`. -/
structure ScanVars where
  ha1 : Int
  ha2 : Int
  ha3 : Int
  ha4 : Int
  hp : Int
  deriving DecidableEq, Repr

/-- The call `sscanf(string, "%d.%d.%d.%d:%d", &ha1, &ha2, &ha3, &ha4, &hp)`: the
directives are processed in order and the scan stops at the first failure; a
variable whose directive was not reached keeps its previous (indeterminate)
content `v`. -/
def sscanf_addr (string : List Char) (v : ScanVars) : ScanVars :=
  match scan_d string with
  | none => v
  | some (a1, s) =>
    let v := { v with ha1 := a1 }
    match (scan_lit '.' s).bind scan_d with
    | none => v
    | some (a2, s) =>
      let v := { v with ha2 := a2 }
      match (scan_lit '.' s).bind scan_d with
      | none => v
      | some (a3, s) =>
        let v := { v with ha3 := a3 }
        match (scan_lit '.' s).bind scan_d with
        | none => v
        | some (a4, s) =>
          let v := { v with ha4 := a4 }
          match (scan_lit ':' s).bind scan_d with
          | none => v
          | some (p, _) => { v with hp := p }

/-! ## Address codec (`net_sdl.c`, lines 352-381) -/

/-- `UDP_AddrToString`: the text written into the static buffer. -/
def UDP_AddrToString (addr : qsockaddr) : List Char :=
  let haddr : Int := toInt32 (ntohl addr.s_addr)
  fmt_d ((haddr / 2 ^ 24) % 256) ++ '.' ::
  fmt_d ((haddr / 2 ^ 16) % 256) ++ '.' ::
  fmt_d ((haddr / 2 ^ 8) % 256) ++ '.' ::
  fmt_d (haddr % 256) ++ ':' ::
  fmt_d (ntohs addr.sin_port)

/-- `UDP_StringToAddr`: returns the result code and the address written through
`addr`.  `v` is the indeterminate initial content of the uninitialised locals. -/
def UDP_StringToAddr (v : ScanVars) (string : List Char) (addr : qsockaddr) :
    Int × qsockaddr :=
  let v := sscanf_addr string v
  let ipaddr : Int := or32 (or32 (or32 (shl32 v.ha1 24) (shl32 v.ha2 16)) (shl32 v.ha3 8)) v.ha4
  let addr := { addr with sa_family := AF_INET }
  let addr := { addr with s_addr := htonl (toUInt32 ipaddr) }
  let addr := { addr with sin_port := htons (toUInt16 v.hp) }
  (0, addr)

/-! ## Comparison and port access (`net_sdl.c`, lines 432-457) -/

/-- `UDP_AddrCompare`. -/
def UDP_AddrCompare (addr1 addr2 : qsockaddr) : Int :=
  if addr1.sa_family ≠ addr2.sa_family then -1
  else if addr1.s_addr ≠ addr2.s_addr then -1
  else if addr1.sin_port ≠ addr2.sin_port then 1
  else 0

/-- `UDP_GetSocketPort`. -/
def UDP_GetSocketPort (addr : qsockaddr) : Int := (ntohs addr.sin_port : Nat)

/-- `UDP_SetSocketPort`: the result code and the address after the call. -/
def UDP_SetSocketPort (addr : qsockaddr) (port : Int) : Int × qsockaddr :=
  (0, { addr with sin_port := htons (toUInt16 port) })

/-! ## The partial address resolver (`net_sdl.c`, lines 81-127) -/

/-- The content of a C string: the characters before the first NUL. -/
def cstr (s : List Char) : List Char := s.takeWhile (fun c => c.toNat != 0)

/-- The inner loop `while (!(*b < '0' || *b > '9'))` of `PartialIPAddress`, entered
with the current `num` and `run`.  `none` is the `return -1` taken when a run has
more than three digits; otherwise the value of `num` and the pointer `b` at which
the loop stopped. -/
def scanRun : List Char → Int → Int → Option (Int × List Char)
  | [], num, _ => some (num, [])
  | c :: cs, num, run =>
    if isDigitC c then
      let num := num * 10 + c.toNat - 48
      if run + 1 > 3 then none else scanRun cs num (run + 1)
    else some (num, c :: cs)

/-- How the loop `while (*b == '.')` of `PartialIPAddress` ends. -/
inductive Scan where
  /-- The function returned `-1` from inside the loop. -/
  | fail : Scan
  /-- The loop was left with these values of `addr`, `mask` and `b`. -/
  | done : Int → Int → List Char → Scan
  /-- The iteration budget of the embedding ran out. -/
  | fuel : Scan
  deriving DecidableEq, Repr

/-- The loop `while (*b == '.')` of `PartialIPAddress`, with an iteration budget;
every iteration consumes at least the dot, so the length of the buffer plus one is
enough budget. -/
def scanRuns : Nat → List Char → Int → Int → Scan
  | 0, _, _, _ => Scan.fuel
  | fuel + 1, b, addr, mask =>
    if peek b = '.' then
      match scanRun b.tail 0 0 with
      | none => Scan.fail
      | some (num, b) =>
        if !isDigitC (peek b) && peek b != '.' && peek b != ':' && (peek b).toNat != 0 then
          Scan.fail
        else if num < 0 || num > 255 then Scan.fail
        else scanRuns fuel b (toInt32 (shl32 addr 8 + num)) (shl32 mask 8)
    else Scan.done addr mask b

/-- `PartialIPAddress`.  `Q_atoi` is the numeric conversion of `common.c`, `myAddr`
and `net_hostport` are the globals read.  The result is the return value and the
address behind `hostaddr` after the call; `none` stands for the undefined behaviour
of `strcpy(buff + 1, in)` when the text does not fit `char buff[256]`, and for an
exhausted iteration budget. -/
def PartialIPAddress (Q_atoi : List Char → Int) (myAddr : Nat) (net_hostport : Int)
    (inp : List Char) (hostaddr : qsockaddr) : Option (Int × qsockaddr) :=
  if 256 < strlen inp + 2 then none
  else
    let buff := '.' :: cstr inp
    let b := if peek buff.tail = '.' then buff.tail else buff
    match scanRuns (buff.length + 1) b 0 (-1) with
    | Scan.fuel => none
    | Scan.fail => some (-1, hostaddr)
    | Scan.done addr mask b =>
      let port := if peek b = ':' then Q_atoi b.tail else net_hostport
      some (0, { hostaddr with
        sa_family := AF_INET
        sin_port := htons (toUInt16 port)
        s_addr := ((myAddr &&& htonl (toUInt32 mask)) ||| htonl (toUInt32 addr)) % 4294967296 })

/-- Modelled from the spec: `Q_atoi` of `common.c`, which is not part of the sources
at hand; the spec calls the text after the colon `PORT`, a decimal port number, so
the model reads an optional minus sign and the leading decimal digits. -/
def Q_atoi (s : List Char) : Int :=
  match s with
  | c :: cs => if c = '-' then -((scanDigits cs 0).1 : Int) else ((scanDigits s 0).1 : Int)
  | [] => 0

/-! ## Name resolution bridge (`net_sdl.c`, lines 413-430) -/

/-- `UDP_GetAddrFromName`.  `gethostbyname` is the platform resolver: `none` for a
NULL result, otherwise the word read at `h_addr_list[0]`. -/
def UDP_GetAddrFromName (Q_atoi : List Char → Int) (gethostbyname : List Char → Option Nat)
    (myAddr : Nat) (net_hostport : Int) (name : List Char) (addr : qsockaddr) :
    Option (Int × qsockaddr) :=
  if decide ((peek name).toNat ≥ 48) && decide ((peek name).toNat ≤ 57) then
    PartialIPAddress Q_atoi myAddr net_hostport name addr
  else
    match gethostbyname (cstr name) with
    | none => some (-1, addr)
    | some h => some (0, { addr with
        sa_family := AF_INET
        sin_port := htons (toUInt16 net_hostport)
        s_addr := h % 4294967296 })

/-! ## Canonical address text -/

/-- The value of a string of decimal digits. -/
def numeralValue (ds : List Char) : Nat :=
  ds.foldl (fun acc c => acc * 10 + (c.toNat - 48)) 0

/-- A canonical decimal numeral: a non-empty string of decimal digits without a
superfluous leading zero. -/
def IsNumeral (ds : List Char) : Prop :=
  ds ≠ [] ∧ (∀ c ∈ ds, isDigitC c = true) ∧ (1 < ds.length → peek ds ≠ '0')

instance (ds : List Char) : Decidable (IsNumeral ds) := by
  unfold IsNumeral; infer_instance

/-- The canonical form `H1.H2.H3.H4:PORT`: four canonical numerals in [0,255] and a
canonical numeral in [0,65535]. -/
def CanonicalAddr (s : List Char) : Prop :=
  ∃ H1 H2 H3 H4 P : List Char,
    (IsNumeral H1 ∧ numeralValue H1 ≤ 255) ∧ (IsNumeral H2 ∧ numeralValue H2 ≤ 255) ∧
    (IsNumeral H3 ∧ numeralValue H3 ≤ 255) ∧ (IsNumeral H4 ∧ numeralValue H4 ≤ 255) ∧
    (IsNumeral P ∧ numeralValue P ≤ 65535) ∧
    s = H1 ++ '.' :: (H2 ++ '.' :: (H3 ++ '.' :: (H4 ++ ':' :: P)))

/-! ## The runs of a shorthand -/

/-- The text scanned by `PartialIPAddress` without the optional leading dot. -/
def stripDot (s : List Char) : List Char := if peek s = '.' then s.tail else s

/-- The part of a text before its first colon. -/
def hostPart (s : List Char) : List Char := s.takeWhile (fun c => c != ':')

/-- The part of a text from its first colon on (empty when there is none). -/
def portPart (s : List Char) : List Char := s.dropWhile (fun c => c != ':')

/-- Split a text at its dots. -/
def splitDots : List Char → List (List Char)
  | [] => [[]]
  | c :: cs =>
    if c = '.' then [] :: splitDots cs
    else
      match splitDots cs with
      | [] => [[c]]
      | r :: rs => (c :: r) :: rs

/-- The dot-separated runs of a shorthand: the pieces between the dots of the text
before the first colon, an optional leading dot left aside. -/
def runsOf (inp : List Char) : List (List Char) :=
  splitDots (hostPart (stripDot (cstr inp)))

/-- A run the resolver accepts: at most three characters, all decimal digits, with
a value of at most 255. -/
def GoodRun (r : List Char) : Prop :=
  (∀ c ∈ r, isDigitC c = true) ∧ r.length ≤ 3 ∧ numeralValue r ≤ 255

instance (r : List Char) : Decidable (GoodRun r) := by
  unfold GoodRun; infer_instance

/-- The text the loop of `PartialIPAddress` walks over: every run preceded by a dot. -/
def dotRuns : List (List Char) → List Char
  | [] => []
  | r :: rs => '.' :: (r ++ dotRuns rs)

/-- The four bytes of a stored host word in memory order, which is the order
`m1.m2.m3.m4` of the dotted notation. -/
def octets (x : Nat) : List Nat :=
  [x % 256, x / 256 % 256, x / 65536 % 256, x / 16777216 % 256]

/-- The value of `addr` after the loop of `PartialIPAddress` has taken the runs `rs`,
starting from `addr`. -/
def addrFold (addr : Int) (rs : List (List Char)) : Int :=
  rs.foldl (fun a r => toInt32 (shl32 a 8 + (numeralValue r : Int))) addr

/-- The value of `mask` after the loop of `PartialIPAddress` has taken the runs `rs`,
starting from `mask`. -/
def maskFold (mask : Int) (rs : List (List Char)) : Int :=
  rs.foldl (fun m _ => shl32 m 8) mask

/-- A sample platform resolver: it knows the single name `quake.example`, at
10.0.0.9. -/
def sampleResolver (name : List Char) : Option Nat :=
  if name = "quake.example".toList then some 150994954 else none

/-- Runs written one after the other with a dot between neighbours. -/
def dotted : List (List Char) → List Char
  | [] => []
  | [r] => r
  | r :: r' :: rs => r ++ '.' :: dotted (r' :: rs)

/-- The optional `:PORT` at the end of a shorthand. -/
def portText : Option (List Char) → List Char
  | none => []
  | some P => ':' :: P

/-- A shorthand: an optional leading dot, the dotted runs, and an optional `:PORT`. -/
def shorthand (lead : Bool) (runs : List (List Char)) (port : Option (List Char)) :
    List Char :=
  (if lead then ['.'] else []) ++ (dotted runs ++ portText port)

/-! ## The operating system seen by the driver

The driver talks to the sockets layer of the operating system.  The embedding keeps
the set of open descriptors, the descriptors on which `SO_BROADCAST` was enabled, and
the list of system calls issued (oldest first); what the system answers to a call is
passed to the embedded function as an argument. -/

/-- A system call issued by the driver. -/
inductive SysCall where
  | socket : SysCall
  | ioctl_FIONBIO : Int → SysCall
  | bind : Int → Nat → SysCall
  | close : Int → SysCall
  | ioctl_FIONREAD : Int → SysCall
  | recvfrom : Int → SysCall
  | sendto : Int → qsockaddr → SysCall
  | setsockopt_SO_BROADCAST : Int → SysCall
  | getsockname : Int → SysCall
  deriving DecidableEq, Repr

/-- The sockets layer: open descriptors, broadcast-enabled descriptors, calls made. -/
structure OS where
  sockets : List Int
  bcast : List Int
  calls : List SysCall
  deriving DecidableEq, Repr

/-- The call `socket(PF_INET, SOCK_DGRAM, IPPROTO_UDP)`; `r` is the answer of the
system, `-1` or the new descriptor. -/
def sys_socket (os : OS) (r : Int) : Int × OS :=
  if r = -1 then (-1, { os with calls := os.calls ++ [SysCall.socket] })
  else (r, { os with sockets := r :: os.sockets, calls := os.calls ++ [SysCall.socket] })

/-- The call `close(fd)`: an open descriptor is destroyed (result 0), anything else is
an error (result -1). -/
def sys_close (os : OS) (fd : Int) : Int × OS :=
  if fd ∈ os.sockets then
    (0, { sockets := os.sockets.erase fd, bcast := os.bcast.filter (fun s => s != fd),
          calls := os.calls ++ [SysCall.close fd] })
  else (-1, { os with calls := os.calls ++ [SysCall.close fd] })

/-- The call `ioctl(fd, FIONBIO, &_true)`; `ok` tells whether the system accepts it. -/
def sys_ioctl_FIONBIO (os : OS) (fd : Int) (ok : Bool) : Int × OS :=
  (if ok then 0 else -1, { os with calls := os.calls ++ [SysCall.ioctl_FIONBIO fd] })

/-- The call `bind(fd, &address, ...)` to the given port (network byte order). -/
def sys_bind (os : OS) (fd : Int) (port : Nat) (ok : Bool) : Int × OS :=
  (if ok then 0 else -1, { os with calls := os.calls ++ [SysCall.bind fd port] })

/-- The call `setsockopt(fd, SOL_SOCKET, SO_BROADCAST, ...)`: it can succeed only on an
open socket, and then the socket is broadcast-enabled. -/
def sys_setsockopt_SO_BROADCAST (os : OS) (fd : Int) (ok : Bool) : Int × OS :=
  if fd ∈ os.sockets ∧ ok = true then
    (0, { os with bcast := fd :: os.bcast,
                  calls := os.calls ++ [SysCall.setsockopt_SO_BROADCAST fd] })
  else (-1, { os with calls := os.calls ++ [SysCall.setsockopt_SO_BROADCAST fd] })

/-- What the system answers to the three calls of `UDP_OpenSocket`. -/
structure OpenEnv where
  sock : Int
  nbio : Bool
  bind : Bool
  deriving DecidableEq, Repr

/-- The answer to a `recvfrom` or `sendto`: the return value and, when that is `-1`,
the value of `errno`. -/
structure XferResult where
  ret : Int
  errno : Int
  deriving DecidableEq, Repr

/-- The constant `EWOULDBLOCK` (its Linux value; only its being different from the
other error numbers matters). -/
def EWOULDBLOCK : Int := 11

/-- The constant `ECONNREFUSED` (its Linux value). -/
def ECONNREFUSED : Int := 111

/-- The constant `INADDR_BROADCAST`. -/
def INADDR_BROADCAST : Nat := 4294967295

/-- The constant `INADDR_LOOPBACK`. -/
def INADDR_LOOPBACK : Nat := 2130706433

/-! ## The driver state and its operations (`net_sdl.c`, lines 60-350) -/

/-- The file-scope variables of `net_sdl.c`, with `tcpipAvailable` and
`my_tcpip_address` of the network layer, which `UDP_Init` writes. -/
structure Driver where
  net_acceptsocket : Int
  net_controlsocket : Int
  net_broadcastsocket : Int
  broadcastaddr : qsockaddr
  myAddr : Nat
  tcpipAvailable : Bool
  my_tcpip_address : List Char
  deriving DecidableEq, Repr

/-- The state at program start: the static initialisers. -/
def Driver.initial : Driver :=
  { net_acceptsocket := -1
    net_controlsocket := 0
    net_broadcastsocket := 0
    broadcastaddr := ⟨0, 0, 0, List.replicate 8 0⟩
    myAddr := 0
    tcpipAvailable := false
    my_tcpip_address := [] }

/-- How a driver operation ends: it returns a value, or it calls `Sys_Error`, which
does not return. -/
inductive Outcome (α : Type) where
  | ret : α → Driver → OS → Outcome α
  | fatal : String → Driver → OS → Outcome α
  deriving DecidableEq, Repr

/-- `UDP_OpenSocket`: the descriptor returned (or `-1`) and the sockets layer after
the call. -/
def UDP_OpenSocket (os : OS) (port : Int) (env : OpenEnv) : Int × OS :=
  let r := sys_socket os env.sock
  let newsocket := r.1
  if newsocket = -1 then (-1, r.2)
  else
    let r := sys_ioctl_FIONBIO r.2 newsocket env.nbio
    if r.1 = -1 then (-1, (sys_close r.2 newsocket).2)
    else
      let r := sys_bind r.2 newsocket (htons (toUInt16 port)) env.bind
      if r.1 = -1 then (-1, (sys_close r.2 newsocket).2)
      else (newsocket, r.2)

/-- `UDP_CloseSocket`: the result of `close`, the driver state and the sockets layer
after the call. -/
def UDP_CloseSocket (d : Driver) (os : OS) (socket : Int) : Int × Driver × OS :=
  let d := if socket = d.net_broadcastsocket then { d with net_broadcastsocket := 0 } else d
  let r := sys_close os socket
  (r.1, d, r.2)

/-- `UDP_Connect`. -/
def UDP_Connect (_socket : Int) (_addr : qsockaddr) : Int := 0

/-- `UDP_Listen`; `hp` is `net_hostport`, `env` the answers of the system should a
socket be opened. -/
def UDP_Listen (hp : Int) (d : Driver) (os : OS) (state : Bool) (env : OpenEnv) :
    Outcome Unit :=
  if state then
    if d.net_acceptsocket ≠ -1 then Outcome.ret () d os
    else
      let r := UDP_OpenSocket os hp env
      let d := { d with net_acceptsocket := r.1 }
      if d.net_acceptsocket = -1 then
        Outcome.fatal "UDP_Listen: Unable to open accept socket\n" d r.2
      else Outcome.ret () d r.2
  else
    if d.net_acceptsocket = -1 then Outcome.ret () d os
    else
      let r := UDP_CloseSocket d os d.net_acceptsocket
      let d := { r.2.1 with net_acceptsocket := -1 }
      Outcome.ret () d r.2.2

/-- `UDP_Shutdown` (the build without Winsock). -/
def UDP_Shutdown (hp : Int) (d : Driver) (os : OS) : Outcome Unit :=
  match UDP_Listen hp d os false ⟨-1, false, false⟩ with
  | Outcome.fatal msg d os => Outcome.fatal msg d os
  | Outcome.ret _ d os =>
    let r := UDP_CloseSocket d os d.net_controlsocket
    Outcome.ret () r.2.1 r.2.2

/-- `UDP_Read` (the build without Winsock): the value returned and the sockets layer
after the `recvfrom`, whose answer is `r`. -/
def UDP_Read (os : OS) (socket : Int) (r : XferResult) : Int × OS :=
  let os := { os with calls := os.calls ++ [SysCall.recvfrom socket] }
  let ret := r.ret
  if ret = -1 ∧ (r.errno = EWOULDBLOCK ∨ r.errno = ECONNREFUSED) then (0, os)
  else (ret, os)

/-- `UDP_Write` (the build without Winsock): the value returned and the sockets layer
after the `sendto`, whose answer is `r`. -/
def UDP_Write (os : OS) (socket : Int) (addr : qsockaddr) (r : XferResult) : Int × OS :=
  let os := { os with calls := os.calls ++ [SysCall.sendto socket addr] }
  let ret := r.ret
  if ret = -1 ∧ r.errno = EWOULDBLOCK then (0, os)
  else (ret, os)

/-- `UDP_Broadcast`; `optOk` is the answer to `setsockopt`, `send` the answer to the
`sendto` of `UDP_Write`. -/
def UDP_Broadcast (d : Driver) (os : OS) (socket : Int) (optOk : Bool) (send : XferResult) :
    Outcome Int :=
  if socket ≠ d.net_broadcastsocket then
    if d.net_broadcastsocket ≠ 0 then
      Outcome.fatal "Attempted to use multiple broadcasts sockets\n" d os
    else
      let r := sys_setsockopt_SO_BROADCAST os socket optOk
      if r.1 = -1 then Outcome.ret r.1 d r.2
      else
        let d := { d with net_broadcastsocket := socket }
        let w := UDP_Write r.2 socket d.broadcastaddr send
        Outcome.ret w.1 d w.2
  else
    let w := UDP_Write os socket d.broadcastaddr send
    Outcome.ret w.1 d w.2

/-! ## Initialisation and socket addresses (`net_sdl.c`, lines 131-204, 383-411) -/

/-- `GetLocalAddress`: `gethostname` is the answer of the system (`none` for `-1`),
`gethostbyname` the resolver, `hostname` the string of the `hostname` variable.
Returns the result, the driver state and the `hostname` variable after the call. -/
def GetLocalAddress (d : Driver) (hostname : List Char) (gethostname : Option (List Char))
    (gethostbyname : List Char → Option Nat) : Int × Driver × List Char :=
  match gethostname with
  | none => (-1, d, hostname)
  | some buff =>
    match gethostbyname buff with
    | none => (-1, d, hostname)
    | some a =>
      let d := { d with myAddr := a }
      let hostname := if hostname = "UNNAMED".toList then buff.take 15 else hostname
      (0, d, hostname)

/-- `UDP_GetSocketAddr`; `sockname` is what `getsockname` stores (`none` when it fails
and leaves the zeroed address alone). -/
def UDP_GetSocketAddr (d : Driver) (os : OS) (socket : Int) (sockname : Option qsockaddr) :
    Int × qsockaddr × OS :=
  let addr : qsockaddr := ⟨0, 0, 0, List.replicate 8 0⟩
  let os := { os with calls := os.calls ++ [SysCall.getsockname socket] }
  let addr :=
    match sockname with
    | some sa => sa
    | none => addr
  let a := addr.s_addr % 4294967296
  let addr :=
    if a = 0 ∨ a = htonl INADDR_LOOPBACK then { addr with s_addr := d.myAddr % 4294967296 }
    else addr
  (0, addr, os)

/-- The effect of `colon = Q_strrchr(s, ':'); if (colon) *colon = 0;`: the text before
the last colon, the whole text when there is none. -/
def cutLastColon (s : List Char) : List Char :=
  if ':' ∈ s then (s.reverse.dropWhile (fun c => c != ':')).tail.reverse else s

/-- `UDP_Init` (the build without Winsock); `noudp` tells whether `-noudp` is on the
command line.  Returns the result, the driver state, the sockets layer and the
`hostname` variable after the call. -/
def UDP_Init (hp : Int) (d : Driver) (os : OS) (noudp : Bool) (hostname : List Char)
    (gethostname : Option (List Char)) (gethostbyname : List Char → Option Nat)
    (env : OpenEnv) (sockname : Option qsockaddr) : Int × Driver × OS × List Char :=
  if noudp then (-1, d, os, hostname)
  else
    let g := GetLocalAddress d hostname gethostname gethostbyname
    let d := g.2.1
    let r := UDP_OpenSocket os 0 env
    let d := { d with net_controlsocket := r.1 }
    if d.net_controlsocket = -1 then (-1, d, r.2, g.2.2)
    else
      let d := { d with broadcastaddr := { d.broadcastaddr with
        sa_family := AF_INET
        s_addr := INADDR_BROADCAST
        sin_port := htons (toUInt16 hp) } }
      let ga := UDP_GetSocketAddr d r.2 d.net_controlsocket sockname
      let d := { d with my_tcpip_address := cutLastColon (UDP_AddrToString ga.2.1) }
      let d := { d with tcpipAvailable := true }
      (d.net_controlsocket, d, ga.2.2, g.2.2)

/-- `UDP_GetNameFromAddr`: the result and the text written to `name`.  `NET_NAMELEN`
is the constant of `net.h`; `gethostbyaddr` is the reverse resolver, giving `h_name`.
`Q_strncpy` copies at most `NET_NAMELEN - 1` characters. -/
def UDP_GetNameFromAddr (NET_NAMELEN : Nat) (gethostbyaddr : Nat → Option (List Char))
    (addr : qsockaddr) : Int × List Char :=
  match gethostbyaddr addr.s_addr with
  | some h_name => (0, (cstr h_name).take (NET_NAMELEN - 1))
  | none => (0, UDP_AddrToString addr)

/-! ## Sequences of driver calls -/

/-- A call of the driver together with the answers of the system during it. -/
inductive Event where
  | openSocket : Int → OpenEnv → Event
  | closeSocket : Int → Event
  | listen : Bool → OpenEnv → Event
  | broadcast : Int → Bool → XferResult → Event
  | shutdown : Event
  deriving DecidableEq, Repr

/-- One call: the state after it, `none` when it ended in `Sys_Error`. -/
def exec (hp : Int) (d : Driver) (os : OS) : Event → Option (Driver × OS)
  | Event.openSocket port env => some (d, (UDP_OpenSocket os port env).2)
  | Event.closeSocket s => some ((UDP_CloseSocket d os s).2.1, (UDP_CloseSocket d os s).2.2)
  | Event.listen state env =>
    match UDP_Listen hp d os state env with
    | Outcome.ret _ d os => some (d, os)
    | Outcome.fatal _ _ _ => none
  | Event.broadcast s optOk send =>
    match UDP_Broadcast d os s optOk send with
    | Outcome.ret _ d os => some (d, os)
    | Outcome.fatal _ _ _ => none
  | Event.shutdown =>
    match UDP_Shutdown hp d os with
    | Outcome.ret _ d os => some (d, os)
    | Outcome.fatal _ _ _ => none

/-- A sequence of calls from a state: the final state, `none` when a call ended in
`Sys_Error`. -/
def run (hp : Int) : Driver → OS → List Event → Option (Driver × OS)
  | d, os, [] => some (d, os)
  | d, os, e :: es =>
    match exec hp d os e with
    | some (d, os) => run hp d os es
    | none => none

/-! ## The driver registry (`net_sdl.c`, lines 466-529) -/

/-- A `net_driver_t` initialiser: the name, the `initialized` flag and the functions
in the order of the initialiser. -/
structure net_driver_t where
  name : String
  initialized : Bool
  ops : List String
  deriving DecidableEq, Repr

/-- A `net_landriver_t` initialiser: the name, the `initialized` flag, the control
socket and the functions in the order of the initialiser. -/
structure net_landriver_t where
  name : String
  initialized : Bool
  controlSock : Int
  ops : List String
  deriving DecidableEq, Repr

/-- The initialised entries of `net_drivers`. -/
def net_drivers : List net_driver_t :=
  [ { name := "Loopback", initialized := false,
      ops := ["Loop_Init", "Loop_Listen", "Loop_SearchForHosts", "Loop_Connect",
        "Loop_CheckNewConnections", "Loop_GetMessage", "Loop_SendMessage",
        "Loop_SendUnreliableMessage", "Loop_CanSendMessage",
        "Loop_CanSendUnreliableMessage", "Loop_Close", "Loop_Shutdown"] },
    { name := "Datagram", initialized := false,
      ops := ["Datagram_Init", "Datagram_Listen", "Datagram_SearchForHosts",
        "Datagram_Connect", "Datagram_CheckNewConnections", "Datagram_GetMessage",
        "Datagram_SendMessage", "Datagram_SendUnreliableMessage",
        "Datagram_CanSendMessage", "Datagram_CanSendUnreliableMessage",
        "Datagram_Close", "Datagram_Shutdown"] } ]

/-- The variable `net_numdrivers`. -/
def net_numdrivers : Int := 2

/-- The initialised entries of `net_landrivers`. -/
def net_landrivers : List net_landriver_t :=
  [ { name := "UDP", initialized := false, controlSock := 0,
      ops := ["UDP_Init", "UDP_Shutdown", "UDP_Listen", "UDP_OpenSocket",
        "UDP_CloseSocket", "UDP_Connect", "UDP_CheckNewConnections", "UDP_Read",
        "UDP_Write", "UDP_Broadcast", "UDP_AddrToString", "UDP_StringToAddr",
        "UDP_GetSocketAddr", "UDP_GetNameFromAddr", "UDP_GetAddrFromName",
        "UDP_AddrCompare", "UDP_GetSocketPort", "UDP_SetSocketPort"] } ]

/-- The variable `net_numlandrivers`. -/
def net_numlandrivers : Int := 1

/-! ## The audio ring buffer (`snd_sdl.c`, lines 26-65) -/

/-- The file-scope variables of `snd_sdl.c` read by the callback; `dma_buffer` is
`none` for a NULL pointer, otherwise the bytes of the allocation. -/
structure SndState where
  snd_inited : Bool
  dma_buffer : Option (List Nat)
  dma_buffer_size : Int
  dma_pos : Int
  deriving DecidableEq, Repr

/-- The bytes read by `memcpy(dst, buf + off, n)`; `none` when the range leaves the
allocation. -/
def memcpy_src (buf : List Nat) (off n : Int) : Option (List Nat) :=
  if 0 ≤ off ∧ 0 ≤ n ∧ off + n ≤ buf.length then some ((buf.drop off.toNat).take n.toNat)
  else none

/-- `SNDDMA_AudioCallback`: the content of `stream` and the state after the call;
`none` when a copy leaves the buffer or `stream` has fewer than `len` bytes. -/
def SNDDMA_AudioCallback (s : SndState) (stream : List Nat) (len : Int) :
    Option (List Nat × SndState) :=
  if len < 0 ∨ (stream.length : Int) < len then none
  else
    match s.snd_inited, s.dma_buffer with
    | true, some dma_buffer =>
      let pos := s.dma_pos
      let wrapped := pos + len
      if wrapped > s.dma_buffer_size then
        let first_part := s.dma_buffer_size - pos
        match memcpy_src dma_buffer pos first_part,
          memcpy_src dma_buffer 0 (len - first_part) with
        | some a, some b =>
          some (a ++ b ++ stream.drop len.toNat, { s with dma_pos := len - first_part })
        | _, _ => none
      else
        match memcpy_src dma_buffer pos len with
        | some a =>
          let dma_pos := wrapped
          let dma_pos := if dma_pos ≥ s.dma_buffer_size then 0 else dma_pos
          some (a ++ stream.drop len.toNat, { s with dma_pos := dma_pos })
        | none => none
    | _, _ => some (List.replicate len.toNat 0 ++ stream.drop len.toNat, s)

/-- The accept socket is open exactly when the driver is listening: relative to the
sockets `base` that were open before, the open sockets are `base` when the driver is
not listening and the accept socket followed by `base` when it is. -/
def ListenInv (base : List Int) (d : Driver) (os : OS) : Prop :=
  os.sockets = if d.net_acceptsocket = -1 then base else d.net_acceptsocket :: base

/-- Whether an event is a call of `UDP_Listen`. -/
def Event.isListen : Event → Bool
  | Event.listen _ _ => true
  | _ => false

/-- The broadcast-identity invariant: the identity is unassigned (0) or names an open
socket, and every broadcast-enabled socket is open, is not 0 and holds the identity. -/
def BcastInv (d : Driver) (os : OS) : Prop :=
  (d.net_broadcastsocket = 0 ∨ d.net_broadcastsocket ∈ os.sockets) ∧
  ∀ s ∈ os.bcast, s = d.net_broadcastsocket ∧ s ∈ os.sockets ∧ s ≠ 0

/-! ## Arithmetic of byte swaps and wrapping -/

theorem bswap16_lt (x : Nat) : bswap16 x < 65536 := by
  unfold bswap16; omega

theorem bswap32_lt (x : Nat) : bswap32 x < 4294967296 := by
  unfold bswap32; omega

theorem bswap16_bytes (a b : Nat) (ha : a < 256) (hb : b < 256) :
    bswap16 (a + 256 * b) = b + 256 * a := by
  unfold bswap16; omega

theorem bswap32_bytes (a b c d : Nat) (ha : a < 256) (hb : b < 256) (hc : c < 256)
    (hd : d < 256) :
    bswap32 (a + 256 * b + 65536 * c + 16777216 * d)
      = d + 256 * c + 65536 * b + 16777216 * a := by
  unfold bswap32; omega

theorem bytes16 (x : Nat) (h : x < 65536) :
    ∃ a b, a < 256 ∧ b < 256 ∧ x = a + 256 * b :=
  ⟨x % 256, x / 256, by omega, by omega, by omega⟩

theorem bytes32 (x : Nat) (h : x < 4294967296) :
    ∃ a b c d, a < 256 ∧ b < 256 ∧ c < 256 ∧ d < 256 ∧
      x = a + 256 * b + 65536 * c + 16777216 * d :=
  ⟨x % 256, x / 256 % 256, x / 65536 % 256, x / 16777216, by omega, by omega, by omega,
    by omega, by omega⟩

theorem bswap16_bswap16 (x : Nat) (h : x < 65536) : bswap16 (bswap16 x) = x := by
  obtain ⟨a, b, ha, hb, rfl⟩ := bytes16 x h
  rw [bswap16_bytes a b ha hb, bswap16_bytes b a hb ha]

theorem bswap32_bswap32 (x : Nat) (h : x < 4294967296) : bswap32 (bswap32 x) = x := by
  obtain ⟨a, b, c, d, ha, hb, hc, hd, rfl⟩ := bytes32 x h
  rw [bswap32_bytes a b c d ha hb hc hd, bswap32_bytes d c b a hd hc hb ha]

theorem toUInt16_of_range (p : Int) (h0 : 0 ≤ p) (h1 : p ≤ 65535) : (toUInt16 p : Int) = p := by
  unfold toUInt16; omega

theorem toUInt16_lt (p : Int) : toUInt16 p < 65536 := by
  unfold toUInt16; omega

theorem toUInt32_lt (p : Int) : toUInt32 p < 4294967296 := by
  unfold toUInt32; omega

theorem toUInt32_toInt32 (x : Int) : toUInt32 (toInt32 x) = toUInt32 x := by
  unfold toUInt32 toInt32; omega

theorem toInt32_toUInt32 (x : Int) (h0 : -2147483648 ≤ x) (h1 : x < 2147483648) :
    toInt32 (toUInt32 x) = x := by
  unfold toUInt32 toInt32; omega

theorem ntohs_htons_port (p : Int) (h0 : 0 ≤ p) (h1 : p ≤ 65535) :
    ((ntohs (htons (toUInt16 p)) : Nat) : Int) = p := by
  unfold ntohs htons
  rw [bswap16_bswap16 _ (toUInt16_lt p)]
  exact toUInt16_of_range p h0 h1

/-! ## Comparison (`UDP_AddrCompare`) -/

/-- C7: `UDP_AddrCompare a b` is 0 exactly when family, host and port all match, it is
1 exactly when family and host match and the port differs, and comparing an address
with itself gives 0. -/
theorem UDP_AddrCompare_equal_iff (a b : qsockaddr) :
    (UDP_AddrCompare a b = 0 ↔
      a.sa_family = b.sa_family ∧ a.s_addr = b.s_addr ∧ a.sin_port = b.sin_port) ∧
    (UDP_AddrCompare a b = 1 ↔
      a.sa_family = b.sa_family ∧ a.s_addr = b.s_addr ∧ a.sin_port ≠ b.sin_port) ∧
    UDP_AddrCompare a a = 0 := by
  refine ⟨?_, ?_, ?_⟩
  · unfold UDP_AddrCompare
    by_cases hf : a.sa_family = b.sa_family <;> by_cases hh : a.s_addr = b.s_addr <;>
      by_cases hp : a.sin_port = b.sin_port <;> simp [hf, hh, hp]
  · unfold UDP_AddrCompare
    by_cases hf : a.sa_family = b.sa_family <;> by_cases hh : a.s_addr = b.s_addr <;>
      by_cases hp : a.sin_port = b.sin_port <;> simp [hf, hh, hp]
  · simp [UDP_AddrCompare]

/-- C8 (as stated, refuted): for the address 2/host 1/port 1, an address of another
family and an address of the same family with another host both compare as `-1`, so
family mismatch and host mismatch are not distinct outcomes, and `-1` is returned
although the families agree. -/
theorem UDP_AddrCompare_family_host_same_result :
    (⟨3, 1, 1, []⟩ : qsockaddr).sa_family ≠ (⟨2, 1, 1, []⟩ : qsockaddr).sa_family ∧
    (⟨2, 1, 2, []⟩ : qsockaddr).sa_family = (⟨2, 1, 1, []⟩ : qsockaddr).sa_family ∧
    (⟨2, 1, 2, []⟩ : qsockaddr).s_addr ≠ (⟨2, 1, 1, []⟩ : qsockaddr).s_addr ∧
    UDP_AddrCompare ⟨2, 1, 1, []⟩ ⟨3, 1, 1, []⟩ = UDP_AddrCompare ⟨2, 1, 1, []⟩ ⟨2, 1, 2, []⟩ ∧
    UDP_AddrCompare ⟨2, 1, 1, []⟩ ⟨2, 1, 2, []⟩ = -1 := by
  decide

/-- C8 (amended): `UDP_AddrCompare` has two mismatch results.  An address of another
family and an address of the same family with another host both give `-1`, an address
differing only in the port gives `1`, and `-1` is returned exactly when the family or
the host differs. -/
theorem UDP_AddrCompare_outcomes (a b1 b2 b3 : qsockaddr)
    (h1 : b1.sa_family ≠ a.sa_family)
    (h2 : b2.sa_family = a.sa_family ∧ b2.s_addr ≠ a.s_addr)
    (h3 : b3.sa_family = a.sa_family ∧ b3.s_addr = a.s_addr ∧ b3.sin_port ≠ a.sin_port) :
    UDP_AddrCompare a b1 = -1 ∧ UDP_AddrCompare a b2 = -1 ∧ UDP_AddrCompare a b3 = 1 ∧
    (∀ b, UDP_AddrCompare a b = -1 ↔ (a.sa_family ≠ b.sa_family ∨ a.s_addr ≠ b.s_addr)) := by
  obtain ⟨h2f, h2h⟩ := h2
  obtain ⟨h3f, h3h, h3p⟩ := h3
  refine ⟨?_, ?_, ?_, ?_⟩
  · simp [UDP_AddrCompare, Ne.symm h1]
  · simp [UDP_AddrCompare, h2f, Ne.symm h2h]
  · simp [UDP_AddrCompare, h3f, h3h, Ne.symm h3p]
  · intro b
    unfold UDP_AddrCompare
    by_cases hf : a.sa_family = b.sa_family <;> by_cases hh : a.s_addr = b.s_addr <;>
      by_cases hp : a.sin_port = b.sin_port <;> simp [hf, hh, hp]

/-- Witness of `UDP_AddrCompare_outcomes` at the address 2/host 1/port 1. -/
theorem UDP_AddrCompare_outcomes_witness :
    UDP_AddrCompare ⟨2, 1, 1, []⟩ ⟨3, 1, 1, []⟩ = -1 ∧
    UDP_AddrCompare ⟨2, 1, 1, []⟩ ⟨2, 1, 2, []⟩ = -1 ∧
    UDP_AddrCompare ⟨2, 1, 1, []⟩ ⟨2, 5, 1, []⟩ = 1 ∧
    (∀ b, UDP_AddrCompare ⟨2, 1, 1, []⟩ b = -1 ↔
      ((⟨2, 1, 1, []⟩ : qsockaddr).sa_family ≠ b.sa_family ∨
        (⟨2, 1, 1, []⟩ : qsockaddr).s_addr ≠ b.s_addr)) :=
  UDP_AddrCompare_outcomes ⟨2, 1, 1, []⟩ ⟨3, 1, 1, []⟩ ⟨2, 1, 2, []⟩ ⟨2, 5, 1, []⟩
    (by decide) (by decide) (by decide)

/-! ## Port access (`UDP_GetSocketPort`, `UDP_SetSocketPort`) -/

/-- C10: for a port `p` in [0,65535], `UDP_SetSocketPort a p` returns 0 and the address
it leaves has port `p` (as read by `UDP_GetSocketPort`) and the family, host and
padding of `a`.  Both functions are functions of the address value alone: the
embedding gives them no access to the driver state. -/
theorem UDP_SetSocketPort_frame (a : qsockaddr) (p : Int) (h0 : 0 ≤ p) (h1 : p ≤ 65535) :
    (UDP_SetSocketPort a p).1 = 0 ∧
    UDP_GetSocketPort (UDP_SetSocketPort a p).2 = p ∧
    (UDP_SetSocketPort a p).2.sa_family = a.sa_family ∧
    (UDP_SetSocketPort a p).2.s_addr = a.s_addr ∧
    (UDP_SetSocketPort a p).2.sin_zero = a.sin_zero := by
  refine ⟨rfl, ?_, rfl, rfl, rfl⟩
  simp only [UDP_SetSocketPort, UDP_GetSocketPort]
  exact ntohs_htons_port p h0 h1

/-- Witness of `UDP_SetSocketPort_frame`: port 27500 set on 10.0.0.5:26000. -/
theorem UDP_SetSocketPort_frame_witness :
    (UDP_SetSocketPort ⟨2, 37477, 83886090, []⟩ 27500).1 = 0 ∧
    UDP_GetSocketPort (UDP_SetSocketPort ⟨2, 37477, 83886090, []⟩ 27500).2 = 27500 ∧
    (UDP_SetSocketPort ⟨2, 37477, 83886090, []⟩ 27500).2.sa_family = 2 ∧
    (UDP_SetSocketPort ⟨2, 37477, 83886090, []⟩ 27500).2.s_addr = 83886090 ∧
    (UDP_SetSocketPort ⟨2, 37477, 83886090, []⟩ 27500).2.sin_zero = [] :=
  UDP_SetSocketPort_frame ⟨2, 37477, 83886090, []⟩ 27500 (by decide) (by decide)

/-! ## Decimal numerals -/

theorem isDigitC_iff (c : Char) : isDigitC c = true ↔ 48 ≤ c.toNat ∧ c.toNat ≤ 57 := by
  unfold isDigitC; simp

theorem digitChar_sub (c : Char) (h : isDigitC c = true) : digitChar (c.toNat - 48) = c := by
  rw [isDigitC_iff] at h
  unfold digitChar
  rw [show 48 + (c.toNat - 48) = c.toNat by omega]
  exact Char.ofNat_toNat c

theorem toDecimalAux_eq (n : Nat) : ∀ (fuel : Nat) (acc : List Char), n < fuel →
    toDecimalAux fuel n acc = toDecimal n ++ acc := by
  induction n using Nat.strong_induction_on with
  | _ n ih =>
    intro fuel acc hlt
    obtain ⟨f, rfl⟩ : ∃ f, fuel = f + 1 := ⟨fuel - 1, by omega⟩
    unfold toDecimal
    simp only [toDecimalAux]
    by_cases h0 : n / 10 = 0
    · simp [h0]
    · simp only [h0, if_false]
      rw [ih (n / 10) (by omega) f _ (by omega), ih (n / 10) (by omega) n _ (by omega)]
      simp

theorem toDecimal_small (n : Nat) (h : n < 10) : toDecimal n = [digitChar n] := by
  unfold toDecimal
  simp only [toDecimalAux]
  rw [if_pos (by omega), Nat.mod_eq_of_lt h]

theorem toDecimal_step (n : Nat) (h : 10 ≤ n) :
    toDecimal n = toDecimal (n / 10) ++ [digitChar (n % 10)] := by
  conv_lhs => unfold toDecimal
  simp only [toDecimalAux]
  rw [if_neg (by omega), toDecimalAux_eq (n / 10) n _ (by omega)]

theorem numeralValue_snoc (ds : List Char) (c : Char) :
    numeralValue (ds ++ [c]) = numeralValue ds * 10 + (c.toNat - 48) := by
  simp [numeralValue, List.foldl_append]

theorem foldl_digits_ge (ds : List Char) : ∀ acc : Nat,
    acc ≤ ds.foldl (fun acc c => acc * 10 + (c.toNat - 48)) acc := by
  induction ds with
  | nil => intro acc; simp
  | cons c cs ih =>
    intro acc
    simp only [List.foldl_cons]
    exact le_trans (by omega) (ih _)

theorem numeralValue_pos (ds : List Char) (hne : ds ≠ []) (hd : ∀ c ∈ ds, isDigitC c = true)
    (h0 : peek ds ≠ '0') : 1 ≤ numeralValue ds := by
  cases ds with
  | nil => exact absurd rfl hne
  | cons c cs =>
    have hc := (isDigitC_iff c).1 (hd c (by simp))
    have hc0 : c.toNat ≠ 48 := by
      intro h
      apply h0
      have : c = Char.ofNat c.toNat := (Char.ofNat_toNat c).symm
      rw [h] at this
      simpa [peek] using this
    unfold numeralValue
    simp only [List.foldl_cons]
    exact le_trans (by omega) (foldl_digits_ge cs _)

theorem toDecimal_numeralValue (ds : List Char) (h : IsNumeral ds) :
    toDecimal (numeralValue ds) = ds := by
  induction ds using List.reverseRecOn with
  | nil => exact absurd rfl h.1
  | append_singleton init c ih =>
    obtain ⟨_, hd, hlead⟩ := h
    have hc : isDigitC c = true := hd c (by simp)
    have hcr := (isDigitC_iff c).1 hc
    rw [numeralValue_snoc]
    by_cases hinit : init = []
    · subst hinit
      simp only [numeralValue, List.foldl_nil, Nat.zero_mul, Nat.zero_add, List.nil_append]
      rw [toDecimal_small _ (by omega), digitChar_sub c hc]
    · have hdi : ∀ c ∈ init, isDigitC c = true := fun x hx => hd x (by simp [hx])
      have hpk : peek (init ++ [c]) = peek init := by
        cases init with
        | nil => exact absurd rfl hinit
        | cons x xs => rfl
      have hlen : 1 < (init ++ [c]).length := by
        have : 0 < init.length := List.length_pos.2 hinit
        simp; omega
      have h0 : peek init ≠ '0' := hpk ▸ hlead hlen
      have hpos := numeralValue_pos init hinit hdi h0
      have hnum : IsNumeral init := ⟨hinit, hdi, fun _ => h0⟩
      rw [toDecimal_step _ (by omega)]
      rw [show (numeralValue init * 10 + (c.toNat - 48)) / 10 = numeralValue init by omega,
        show (numeralValue init * 10 + (c.toNat - 48)) % 10 = c.toNat - 48 by omega,
        ih hnum, digitChar_sub c hc]

/-! ## Scanning numerals -/

theorem scanDigits_append (ds rest : List Char) (hd : ∀ c ∈ ds, isDigitC c = true)
    (hr : isDigitC (peek rest) = false) : ∀ acc : Nat,
    scanDigits (ds ++ rest) acc
      = (ds.foldl (fun acc c => acc * 10 + (c.toNat - 48)) acc, rest) := by
  induction ds with
  | nil =>
    intro acc
    cases rest with
    | nil => rfl
    | cons c cs =>
      have : isDigitC c = false := hr
      simp [scanDigits, this]
  | cons c cs ih =>
    intro acc
    have hc : isDigitC c = true := hd c (by simp)
    simp only [List.cons_append, scanDigits, hc, if_true, List.foldl_cons]
    exact ih (fun x hx => hd x (by simp [hx])) _

theorem isSpaceC_digit (c : Char) (h : isDigitC c = true) : isSpaceC c = false := by
  rw [isDigitC_iff] at h
  unfold isSpaceC
  simp
  omega

theorem digit_ne (c d : Char) (h : isDigitC c = true) (hd : isDigitC d = false) : c ≠ d := by
  intro hcd
  subst hcd
  simp [h] at hd

theorem scan_d_numeral (ds rest : List Char) (hne : ds ≠ [])
    (hd : ∀ c ∈ ds, isDigitC c = true) (hr : isDigitC (peek rest) = false) :
    scan_d (ds ++ rest) = some (toInt32 (numeralValue ds), rest) := by
  cases ds with
  | nil => exact absurd rfl hne
  | cons c cs =>
    have hc : isDigitC c = true := hd c (by simp)
    have h1 : c ≠ '-' := digit_ne c '-' hc (by decide)
    have h2 : c ≠ '+' := digit_ne c '+' hc (by decide)
    have hs := scanDigits_append (c :: cs) rest hd hr 0
    simp only [List.cons_append] at hs
    simp [scan_d, skipSpace, isSpaceC_digit c hc, h1, h2, peek, hc, hs, numeralValue]

theorem sscanf_addr_canonical (v : ScanVars) (H1 H2 H3 H4 P : List Char)
    (h1 : IsNumeral H1) (h2 : IsNumeral H2) (h3 : IsNumeral H3) (h4 : IsNumeral H4)
    (hp : IsNumeral P) :
    sscanf_addr (H1 ++ '.' :: (H2 ++ '.' :: (H3 ++ '.' :: (H4 ++ ':' :: P)))) v
      = ⟨toInt32 (numeralValue H1), toInt32 (numeralValue H2), toInt32 (numeralValue H3),
          toInt32 (numeralValue H4), toInt32 (numeralValue P)⟩ := by
  have e1 := scan_d_numeral H1 ('.' :: (H2 ++ '.' :: (H3 ++ '.' :: (H4 ++ ':' :: P))))
    h1.1 h1.2.1 (by show isDigitC '.' = false; decide)
  have e2 := scan_d_numeral H2 ('.' :: (H3 ++ '.' :: (H4 ++ ':' :: P))) h2.1 h2.2.1 (by show isDigitC '.' = false; decide)
  have e3 := scan_d_numeral H3 ('.' :: (H4 ++ ':' :: P)) h3.1 h3.2.1 (by show isDigitC '.' = false; decide)
  have e4 := scan_d_numeral H4 (':' :: P) h4.1 h4.2.1 (by show isDigitC ':' = false; decide)
  have e5 := scan_d_numeral P [] hp.1 hp.2.1 (by decide)
  rw [List.append_nil] at e5
  simp [sscanf_addr, scan_lit, e1, e2, e3, e4, e5]

theorem toInt32_small (n : Nat) (h : n ≤ 65535) : toInt32 (n : Int) = n := by
  unfold toInt32; omega

theorem toUInt32_shl32 (h : Nat) (k : Nat) (hh : h ≤ 255) (hk : k ≤ 24) :
    toUInt32 (shl32 (h : Int) k) = h * 2 ^ k := by
  unfold shl32
  rw [toUInt32_toInt32]
  unfold toUInt32
  have hpow : (2 : Nat) ^ k ≤ 2 ^ 24 := Nat.pow_le_pow_right (by decide) hk
  have hlt : h * 2 ^ k < 4294967296 := by
    calc h * 2 ^ k ≤ 255 * 2 ^ 24 := Nat.mul_le_mul hh hpow
      _ < 4294967296 := by norm_num
  have hcast : ((h : Int) * 2 ^ k) = ((h * 2 ^ k : Nat) : Int) := by push_cast; rfl
  rw [hcast]
  omega

theorem toUInt32_or32 (x y : Int) : toUInt32 (or32 x y) = toUInt32 x ||| toUInt32 y := by
  unfold or32
  rw [toUInt32_toInt32]
  have h : toUInt32 x ||| toUInt32 y < 2 ^ 32 :=
    Nat.or_lt_two_pow (toUInt32_lt x) (toUInt32_lt y)
  generalize toUInt32 x ||| toUInt32 y = z at h
  unfold toUInt32
  omega

theorem or_octets (a b c d : Nat) (hb : b ≤ 255) (hc : c ≤ 255) (hd : d ≤ 255) :
    a * 2 ^ 24 ||| b * 2 ^ 16 ||| c * 2 ^ 8 ||| d
      = a * 16777216 + b * 65536 + c * 256 + d := by
  have e1 : a * 2 ^ 24 ||| b * 2 ^ 16 = 2 ^ 16 * (a * 256 + b) := by
    have := Nat.mul_add_lt_is_or (show b * 2 ^ 16 < 2 ^ 24 by omega) a
    rw [show a * 2 ^ 24 = 2 ^ 24 * a by ring, ← this]
    ring
  have e2 : 2 ^ 16 * (a * 256 + b) ||| c * 2 ^ 8 = 2 ^ 8 * (a * 65536 + b * 256 + c) := by
    have := Nat.mul_add_lt_is_or (show c * 2 ^ 8 < 2 ^ 16 by omega) (a * 256 + b)
    rw [← this]
    ring
  have e3 := Nat.mul_add_lt_is_or (show d < 2 ^ 8 by omega) (a * 65536 + b * 256 + c)
  rw [e1, e2, ← e3]
  ring

theorem toUInt32_small (n : Nat) (h : n ≤ 255) : toUInt32 (n : Int) = n := by
  unfold toUInt32; omega

theorem ipaddr_pattern (a b c d : Nat) (ha : a ≤ 255) (hb : b ≤ 255) (hc : c ≤ 255)
    (hd : d ≤ 255) :
    toUInt32 (or32 (or32 (or32 (shl32 a 24) (shl32 b 16)) (shl32 c 8)) d)
      = a * 16777216 + b * 65536 + c * 256 + d := by
  rw [toUInt32_or32, toUInt32_or32, toUInt32_or32, toUInt32_shl32 a 24 ha (by decide),
    toUInt32_shl32 b 16 hb (by decide), toUInt32_shl32 c 8 hc (by decide), toUInt32_small d hd]
  exact or_octets a b c d hb hc hd

/-! ## The address codec on canonical text -/

theorem UDP_StringToAddr_canonical (v : ScanVars) (addr : qsockaddr)
    (H1 H2 H3 H4 P : List Char)
    (h1 : IsNumeral H1 ∧ numeralValue H1 ≤ 255) (h2 : IsNumeral H2 ∧ numeralValue H2 ≤ 255)
    (h3 : IsNumeral H3 ∧ numeralValue H3 ≤ 255) (h4 : IsNumeral H4 ∧ numeralValue H4 ≤ 255)
    (hp : IsNumeral P ∧ numeralValue P ≤ 65535) :
    UDP_StringToAddr v (H1 ++ '.' :: (H2 ++ '.' :: (H3 ++ '.' :: (H4 ++ ':' :: P)))) addr
      = (0, { addr with
          sa_family := AF_INET
          s_addr := htonl (numeralValue H1 * 16777216 + numeralValue H2 * 65536
            + numeralValue H3 * 256 + numeralValue H4)
          sin_port := htons (numeralValue P) }) := by
  unfold UDP_StringToAddr
  rw [sscanf_addr_canonical v H1 H2 H3 H4 P h1.1 h2.1 h3.1 h4.1 hp.1]
  simp only
  rw [toInt32_small _ (le_trans h1.2 (by decide)), toInt32_small _ (le_trans h2.2 (by decide)),
    toInt32_small _ (le_trans h3.2 (by decide)), toInt32_small _ (le_trans h4.2 (by decide)),
    toInt32_small _ hp.2, ipaddr_pattern _ _ _ _ h1.2 h2.2 h3.2 h4.2]
  have : toUInt16 (numeralValue P : Int) = numeralValue P := by
    have := hp.2
    unfold toUInt16; omega
  rw [this]

theorem fmt_d_natCast (n : Nat) : fmt_d (n : Int) = toDecimal n := by
  unfold fmt_d
  rw [if_neg (by omega)]
  simp

theorem toInt32_cases (X : Int) (h0 : 0 ≤ X) (h1 : X < 4294967296) :
    toInt32 X = X ∨ toInt32 X = X - 4294967296 := by
  unfold toInt32; omega

theorem haddr_octets (a b c d : Nat) (ha : a ≤ 255) (hb : b ≤ 255) (hc : c ≤ 255)
    (hd : d ≤ 255) :
    (toInt32 ((a * 16777216 + b * 65536 + c * 256 + d : Nat) : Int) / 2 ^ 24) % 256 = (a : Int) ∧
    (toInt32 ((a * 16777216 + b * 65536 + c * 256 + d : Nat) : Int) / 2 ^ 16) % 256 = (b : Int) ∧
    (toInt32 ((a * 16777216 + b * 65536 + c * 256 + d : Nat) : Int) / 2 ^ 8) % 256 = (c : Int) ∧
    toInt32 ((a * 16777216 + b * 65536 + c * 256 + d : Nat) : Int) % 256 = (d : Int) := by
  have h24 : (2 : Int) ^ 24 = 16777216 := by norm_num
  have h16 : (2 : Int) ^ 16 = 65536 := by norm_num
  have h8 : (2 : Int) ^ 8 = 256 := by norm_num
  rw [h24, h16, h8]
  generalize hX : ((a * 16777216 + b * 65536 + c * 256 + d : Nat) : Int) = X
  have hX' : X = (a : Int) * 16777216 + (b : Int) * 65536 + (c : Int) * 256 + (d : Int) := by
    rw [← hX]; push_cast; ring
  rcases toInt32_cases X (by omega) (by omega) with h | h <;> rw [h] <;>
    refine ⟨by omega, by omega, by omega, by omega⟩

theorem UDP_AddrToString_eq (addr : qsockaddr) :
    UDP_AddrToString addr
      = fmt_d ((toInt32 (ntohl addr.s_addr) / 2 ^ 24) % 256) ++ '.' ::
        (fmt_d ((toInt32 (ntohl addr.s_addr) / 2 ^ 16) % 256) ++ '.' ::
        (fmt_d ((toInt32 (ntohl addr.s_addr) / 2 ^ 8) % 256) ++ '.' ::
        (fmt_d (toInt32 (ntohl addr.s_addr) % 256) ++ ':' ::
        fmt_d (ntohs addr.sin_port)))) := by
  unfold UDP_AddrToString
  simp only [List.append_assoc]
  rw [List.cons_append, List.cons_append, List.cons_append]

theorem ntohl_htonl (x : Nat) (h : x < 4294967296) : ntohl (htonl x) = x :=
  bswap32_bswap32 x h

theorem ntohs_htons (x : Nat) (h : x < 65536) : ntohs (htons x) = x :=
  bswap16_bswap16 x h

theorem UDP_AddrToString_octets (addr : qsockaddr) (a b c d p : Nat)
    (ha : a ≤ 255) (hb : b ≤ 255) (hc : c ≤ 255) (hd : d ≤ 255) (hp : p ≤ 65535)
    (hs : addr.s_addr = htonl (a * 16777216 + b * 65536 + c * 256 + d))
    (hport : addr.sin_port = htons p) :
    UDP_AddrToString addr
      = toDecimal a ++ '.' :: (toDecimal b ++ '.' :: (toDecimal c ++ '.' ::
          (toDecimal d ++ ':' :: toDecimal p))) := by
  have hlt : a * 16777216 + b * 65536 + c * 256 + d < 4294967296 := by omega
  have hlp : p < 65536 := by omega
  obtain ⟨e1, e2, e3, e4⟩ := haddr_octets a b c d ha hb hc hd
  rw [UDP_AddrToString_eq, hs, hport, ntohl_htonl _ hlt, ntohs_htons _ hlp]
  generalize toInt32 ((a * 16777216 + b * 65536 + c * 256 + d : Nat) : Int) = t at e1 e2 e3 e4
  rw [e1, e2, e3, e4, fmt_d_natCast, fmt_d_natCast, fmt_d_natCast, fmt_d_natCast,
    fmt_d_natCast]

/-- C1: for every canonical text `H1.H2.H3.H4:PORT` (canonical numerals, octets in
[0,255], port in [0,65535]) `UDP_AddrToString` applied to the address written by
`UDP_StringToAddr` gives back exactly the text, whatever the stale content of the
locals and of the address was. -/
theorem UDP_AddrToString_StringToAddr (v : ScanVars) (addr : qsockaddr) (s : List Char)
    (h : CanonicalAddr s) :
    UDP_AddrToString (UDP_StringToAddr v s addr).2 = s := by
  obtain ⟨H1, H2, H3, H4, P, h1, h2, h3, h4, hp, rfl⟩ := h
  rw [UDP_StringToAddr_canonical v addr H1 H2 H3 H4 P h1 h2 h3 h4 hp]
  rw [UDP_AddrToString_octets _ _ _ _ _ _ h1.2 h2.2 h3.2 h4.2 hp.2 rfl rfl,
    toDecimal_numeralValue H1 h1.1, toDecimal_numeralValue H2 h2.1,
    toDecimal_numeralValue H3 h3.1, toDecimal_numeralValue H4 h4.1,
    toDecimal_numeralValue P hp.1]

/-- Witness of `UDP_AddrToString_StringToAddr` at `10.0.0.5:26000`. -/
theorem UDP_AddrToString_StringToAddr_witness :
    CanonicalAddr "10.0.0.5:26000".toList ∧
    UDP_AddrToString (UDP_StringToAddr ⟨7, 7, 7, 7, 7⟩ "10.0.0.5:26000".toList ⟨0, 0, 0, []⟩).2
      = "10.0.0.5:26000".toList :=
  have hc : CanonicalAddr "10.0.0.5:26000".toList :=
    ⟨"10".toList, "0".toList, "0".toList, "5".toList, "26000".toList,
      by decide, by decide, by decide, by decide, by decide, by decide⟩
  ⟨hc, UDP_AddrToString_StringToAddr ⟨7, 7, 7, 7, 7⟩ ⟨0, 0, 0, []⟩ _ hc⟩

/-! ## The run loop of `PartialIPAddress` -/

theorem scanRun_digits (ds nxt : List Char) (hd : ∀ c ∈ ds, isDigitC c = true)
    (hn : isDigitC (peek nxt) = false) : ∀ (n : Nat) (run : Int),
    run + ds.length ≤ 3 →
    scanRun (ds ++ nxt) (n : Int) run
      = some (((ds.foldl (fun acc c => acc * 10 + (c.toNat - 48)) n : Nat) : Int), nxt) := by
  induction ds with
  | nil =>
    intro n run _
    cases nxt with
    | nil => rfl
    | cons c cs =>
      have : isDigitC c = false := hn
      simp [scanRun, this]
  | cons c cs ih =>
    intro n run hrun
    have hc : isDigitC c = true := hd c (by simp)
    have hcr := (isDigitC_iff c).1 hc
    simp only [List.length_cons, Nat.cast_add, Nat.cast_one] at hrun
    have hnot : ¬ (run + 1 > 3) := by omega
    have hnum : (n : Int) * 10 + (c.toNat : Int) - 48 = ((n * 10 + (c.toNat - 48) : Nat) : Int) := by
      omega
    simp only [List.cons_append, scanRun, hc, if_true, hnot, if_false, List.foldl_cons, hnum]
    exact ih (fun x hx => hd x (by simp [hx])) _ _ (by omega)

theorem scanRun_long (ds nxt : List Char) (hd : ∀ c ∈ ds, isDigitC c = true) :
    ∀ (num run : Int), run ≤ 3 → 3 < run + ds.length → scanRun (ds ++ nxt) num run = none := by
  induction ds with
  | nil => intro num run h1 h2; simp at h2; omega
  | cons c cs ih =>
    intro num run h1 h2
    have hc : isDigitC c = true := hd c (by simp)
    simp only [List.length_cons, Nat.cast_add, Nat.cast_one] at h2
    simp only [List.cons_append, scanRun, hc, if_true]
    by_cases h : run + 1 > 3
    · simp [h]
    · simp only [h, if_false]
      exact ih (fun x hx => hd x (by simp [hx])) _ _ (by omega) (by omega)

theorem stop_not_digit (nxt : List Char)
    (hn : peek nxt = '.' ∨ peek nxt = ':' ∨ (peek nxt).toNat = 0) :
    isDigitC (peek nxt) = false := by
  rcases hn with h | h | h
  · rw [h]; decide
  · rw [h]; decide
  · cases hd : isDigitC (peek nxt) with
    | false => rfl
    | true => have := (isDigitC_iff _).1 hd; omega

theorem stop_check (nxt : List Char)
    (hn : peek nxt = '.' ∨ peek nxt = ':' ∨ (peek nxt).toNat = 0) :
    (!isDigitC (peek nxt) && peek nxt != '.' && peek nxt != ':' && (peek nxt).toNat != 0)
      = false := by
  rcases hn with h | h | h <;> simp [h]

theorem scanRuns_succ (fuel : Nat) (b : List Char) (addr mask : Int) :
    scanRuns (fuel + 1) b addr mask =
      if peek b = '.' then
        match scanRun b.tail 0 0 with
        | none => Scan.fail
        | some (num, b) =>
          if !isDigitC (peek b) && peek b != '.' && peek b != ':' && (peek b).toNat != 0 then
            Scan.fail
          else if num < 0 || num > 255 then Scan.fail
          else scanRuns fuel b (toInt32 (shl32 addr 8 + num)) (shl32 mask 8)
      else Scan.done addr mask b := rfl

theorem peek_cons (c : Char) (s : List Char) : peek (c :: s) = c := rfl

theorem range_check (n : Nat) :
    (decide ((n : Int) < 0) || decide ((n : Int) > 255)) = decide (255 < n) := by
  by_cases h : 255 < n
  · simp [h]
  · simp [h]

theorem scanRun_zero (r nxt : List Char) (hd : ∀ c ∈ r, isDigitC c = true)
    (hn : isDigitC (peek nxt) = false) (hlen : r.length ≤ 3) :
    scanRun (r ++ nxt) 0 0 = some ((numeralValue r : Int), nxt) := by
  have hs := scanRun_digits r nxt hd hn 0 0 (by simp; omega)
  simpa [numeralValue] using hs

theorem scanRuns_step_good (fuel : Nat) (r nxt : List Char) (addr mask : Int)
    (hg : GoodRun r) (hn : peek nxt = '.' ∨ peek nxt = ':' ∨ (peek nxt).toNat = 0) :
    scanRuns (fuel + 1) ('.' :: (r ++ nxt)) addr mask
      = scanRuns fuel nxt (toInt32 (shl32 addr 8 + (numeralValue r : Int))) (shl32 mask 8) := by
  obtain ⟨hd, hlen, hval⟩ := hg
  rw [scanRuns_succ, peek_cons, if_pos rfl, List.tail_cons,
    scanRun_zero r nxt hd (stop_not_digit nxt hn) hlen]
  simp only []
  rw [stop_check nxt hn, range_check, if_neg (by decide), if_neg (by simp; omega)]

theorem digit_prefix (r : List Char) :
    (∀ c ∈ r, isDigitC c = true) ∨
    ∃ ds c m, r = ds ++ c :: m ∧ (∀ x ∈ ds, isDigitC x = true) ∧ isDigitC c = false := by
  induction r with
  | nil => left; simp
  | cons x xs ih =>
    cases hx : isDigitC x with
    | false => right; exact ⟨[], x, xs, rfl, by simp, hx⟩
    | true =>
      rcases ih with h | ⟨ds, c, m, rfl, hds, hc⟩
      · left
        intro c hc
        rcases List.mem_cons.1 hc with rfl | h'
        · exact hx
        · exact h c h'
      · right
        refine ⟨x :: ds, c, m, rfl, ?_, hc⟩
        intro y hy
        rcases List.mem_cons.1 hy with rfl | h'
        · exact hx
        · exact hds y h'

theorem scanRuns_step_bad (fuel : Nat) (r nxt : List Char) (addr mask : Int)
    (hb : ¬ GoodRun r) (hr : ∀ c ∈ r, c ≠ '.' ∧ c ≠ ':' ∧ c.toNat ≠ 0)
    (hn : peek nxt = '.' ∨ peek nxt = ':' ∨ (peek nxt).toNat = 0) :
    scanRuns (fuel + 1) ('.' :: (r ++ nxt)) addr mask = Scan.fail := by
  rw [scanRuns_succ, peek_cons, if_pos rfl, List.tail_cons]
  rcases digit_prefix r with hd | ⟨ds, c, m, rfl, hds, hc⟩
  · by_cases hlen : r.length ≤ 3
    · have hval : ¬ numeralValue r ≤ 255 := fun h => hb ⟨hd, hlen, h⟩
      rw [scanRun_zero r nxt hd (stop_not_digit nxt hn) hlen]
      simp only []
      rw [stop_check nxt hn, range_check, if_neg (by decide), if_pos (by simp; omega)]
    · rw [scanRun_long r nxt hd 0 0 (by decide) (by simp; omega)]
  · have hcr := hr c (by simp)
    have hcheck : (!isDigitC (peek (c :: (m ++ nxt))) && peek (c :: (m ++ nxt)) != '.'
        && peek (c :: (m ++ nxt)) != ':' && (peek (c :: (m ++ nxt))).toNat != 0) = true := by
      simp [peek_cons, hc, hcr.1, hcr.2.1, hcr.2.2]
    rw [List.append_assoc, List.cons_append]
    by_cases hlen : ds.length ≤ 3
    · rw [scanRun_zero ds (c :: (m ++ nxt)) hds (by rw [peek_cons]; exact hc) hlen]
      simp only []
      rw [hcheck, if_pos rfl]
    · rw [scanRun_long ds (c :: (m ++ nxt)) hds 0 0 (by decide) (by simp; omega)]

theorem peek_dotRuns_append (rs : List (List Char)) (rest : List Char)
    (hrest : peek rest = ':' ∨ (peek rest).toNat = 0) :
    peek (dotRuns rs ++ rest) = '.' ∨ peek (dotRuns rs ++ rest) = ':' ∨
      (peek (dotRuns rs ++ rest)).toNat = 0 := by
  cases rs with
  | nil => right; simpa [dotRuns] using hrest
  | cons r rs => left; rfl

theorem scanRuns_runs (segs : List (List Char)) (rest : List Char)
    (hrest : peek rest = ':' ∨ (peek rest).toNat = 0)
    (hsegs : ∀ r ∈ segs, ∀ c ∈ r, c ≠ '.' ∧ c ≠ ':' ∧ c.toNat ≠ 0) :
    ∀ (fuel : Nat) (addr mask : Int), segs.length < fuel →
    scanRuns fuel (dotRuns segs ++ rest) addr mask
      = if ∀ r ∈ segs, GoodRun r then Scan.done (addrFold addr segs) (maskFold mask segs) rest
        else Scan.fail := by
  induction segs with
  | nil =>
    intro fuel addr mask hf
    obtain ⟨f, rfl⟩ : ∃ f, fuel = f + 1 := ⟨fuel - 1, by simp at hf; omega⟩
    have hne : peek rest ≠ '.' := by
      rcases hrest with h | h
      · rw [h]; decide
      · intro h'; rw [h'] at h; revert h; decide
    simp [scanRuns, dotRuns, hne, addrFold, maskFold]
  | cons r rs ih =>
    intro fuel addr mask hf
    obtain ⟨f, rfl⟩ : ∃ f, fuel = f + 1 := ⟨fuel - 1, by simp at hf; omega⟩
    have hstop := peek_dotRuns_append rs rest hrest
    have hrs : ∀ r ∈ rs, ∀ c ∈ r, c ≠ '.' ∧ c ≠ ':' ∧ c.toNat ≠ 0 :=
      fun x hx => hsegs x (by simp [hx])
    simp only [dotRuns, List.cons_append, List.append_assoc]
    by_cases hg : GoodRun r
    · rw [scanRuns_step_good f r _ addr mask hg hstop, ih hrs f _ _ (by simp at hf; omega)]
      simp [hg, addrFold, maskFold]
    · rw [scanRuns_step_bad f r _ addr mask hg (hsegs r (by simp)) hstop]
      simp [hg]

/-! ## Decomposition of the scanned text into runs -/

theorem splitDots_ne_nil (h : List Char) : splitDots h ≠ [] := by
  cases h with
  | nil => simp [splitDots]
  | cons c cs =>
    unfold splitDots
    by_cases hc : c = '.'
    · simp [hc]
    · simp only [hc, if_false]
      cases splitDots cs <;> simp

theorem dotRuns_splitDots (h : List Char) : dotRuns (splitDots h) = '.' :: h := by
  induction h with
  | nil => rfl
  | cons c cs ih =>
    unfold splitDots
    by_cases hc : c = '.'
    · simp only [hc, if_true, dotRuns, List.nil_append, ih]
    · simp only [hc, if_false]
      cases hs : splitDots cs with
      | nil => exact absurd hs (splitDots_ne_nil cs)
      | cons r rs =>
        rw [hs] at ih
        simp only [dotRuns, List.cons.injEq, true_and] at ih
        simp only [dotRuns, List.cons_append, ih]

theorem mem_splitDots (h : List Char) :
    ∀ r ∈ splitDots h, ∀ c ∈ r, c ∈ h ∧ c ≠ '.' := by
  induction h with
  | nil => intro r hr c hc; simp [splitDots] at hr; subst hr; simp at hc
  | cons x xs ih =>
    intro r hr c hc
    unfold splitDots at hr
    by_cases hx : x = '.'
    · simp only [hx, if_true, List.mem_cons] at hr
      rcases hr with rfl | hr
      · simp at hc
      · have := ih r hr c hc
        exact ⟨by simp [this.1], this.2⟩
    · simp only [hx, if_false] at hr
      cases hs : splitDots xs with
      | nil => exact absurd hs (splitDots_ne_nil xs)
      | cons r0 rs =>
        rw [hs] at hr ih
        simp only [List.mem_cons] at hr
        rcases hr with rfl | hr
        · rcases List.mem_cons.1 hc with rfl | hc'
          · exact ⟨by simp, hx⟩
          · have := ih r0 (by simp) c hc'
            exact ⟨by simp [this.1], this.2⟩
        · have := ih r (by simp [hr]) c hc
          exact ⟨by simp [this.1], this.2⟩

theorem length_le_dotRuns (rs : List (List Char)) : rs.length ≤ (dotRuns rs).length := by
  induction rs with
  | nil => simp
  | cons r rs ih => simp [dotRuns]; omega

theorem cstr_no_nul (s : List Char) : ∀ c ∈ cstr s, c.toNat ≠ 0 := by
  intro c hc
  have := List.mem_takeWhile_imp hc
  simpa using this

theorem stripDot_subset (s : List Char) : ∀ c ∈ stripDot s, c ∈ s := by
  intro c hc
  unfold stripDot at hc
  by_cases h : peek s = '.'
  · rw [if_pos h] at hc
    exact List.mem_of_mem_tail hc
  · rw [if_neg h] at hc
    exact hc

theorem mem_hostPart (s : List Char) : ∀ c ∈ hostPart s, c ∈ s ∧ c ≠ ':' := by
  intro c hc
  refine ⟨List.takeWhile_subset _ hc, ?_⟩
  have := List.mem_takeWhile_imp hc
  simpa using this

theorem hostPart_append_portPart (s : List Char) : hostPart s ++ portPart s = s :=
  List.takeWhile_append_dropWhile _ s

theorem peek_portPart (s : List Char) :
    peek (portPart s) = ':' ∨ portPart s = [] := by
  induction s with
  | nil => right; rfl
  | cons c cs ih =>
    unfold portPart
    by_cases hc : c = ':'
    · left; simp [hc, peek]
    · simpa [List.dropWhile_cons, hc, portPart] using ih

theorem peek_portPart_stop (s : List Char) :
    peek (portPart s) = ':' ∨ (peek (portPart s)).toNat = 0 := by
  rcases peek_portPart s with h | h
  · exact Or.inl h
  · right; rw [h]; decide

theorem mem_runsOf (inp : List Char) :
    ∀ r ∈ runsOf inp, ∀ c ∈ r, c ≠ '.' ∧ c ≠ ':' ∧ c.toNat ≠ 0 := by
  intro r hr c hc
  have h1 := mem_splitDots _ r hr c hc
  have h2 := mem_hostPart _ c h1.1
  exact ⟨h1.2, h2.2, cstr_no_nul inp c (stripDot_subset _ c h2.1)⟩

theorem start_pointer (s : List Char) :
    (if peek ('.' :: s).tail = '.' then ('.' :: s).tail else '.' :: s) = '.' :: stripDot s := by
  unfold stripDot
  simp only [List.tail_cons]
  by_cases h : peek s = '.'
  · simp only [h, if_true]
    cases s with
    | nil => exact absurd h (by decide)
    | cons c cs =>
      have : c = '.' := h
      simp [this]
  · simp only [h, if_false]

theorem scanned_text (inp : List Char) :
    '.' :: stripDot (cstr inp) = dotRuns (runsOf inp) ++ portPart (stripDot (cstr inp)) := by
  unfold runsOf
  rw [dotRuns_splitDots, List.cons_append, hostPart_append_portPart]

/-! ## The result of `PartialIPAddress` -/

theorem PartialIPAddress_eq (Q : List Char → Int) (myAddr : Nat) (hp : Int)
    (inp : List Char) (hostaddr : qsockaddr) (hfit : strlen inp ≤ 254) :
    PartialIPAddress Q myAddr hp inp hostaddr =
      if ∀ r ∈ runsOf inp, GoodRun r then
        some (0, { hostaddr with
          sa_family := AF_INET
          sin_port := htons (toUInt16
            (if peek (portPart (stripDot (cstr inp))) = ':'
              then Q (portPart (stripDot (cstr inp))).tail else hp))
          s_addr := ((myAddr &&& htonl (toUInt32 (maskFold (-1) (runsOf inp))))
            ||| htonl (toUInt32 (addrFold 0 (runsOf inp)))) % 4294967296 })
      else some (-1, hostaddr) := by
  unfold PartialIPAddress
  rw [if_neg (by omega)]
  simp only []
  rw [start_pointer, scanned_text]
  have hlen : (runsOf inp).length < ('.' :: cstr inp).length + 1 := by
    have h1 := length_le_dotRuns (runsOf inp)
    have h2 : (dotRuns (runsOf inp)).length ≤ ('.' :: cstr inp).length := by
      unfold runsOf
      rw [dotRuns_splitDots]
      have h3 : (hostPart (stripDot (cstr inp))).length ≤ (stripDot (cstr inp)).length := by
        conv_rhs => rw [← hostPart_append_portPart (stripDot (cstr inp))]
        simp
      have h4 : (stripDot (cstr inp)).length ≤ (cstr inp).length := by
        unfold stripDot
        split
        · simp
        · exact le_refl _
      simp only [List.length_cons]
      omega
    omega
  rw [scanRuns_runs (runsOf inp) _ (peek_portPart_stop _) (mem_runsOf inp) _ 0 (-1) hlen]
  by_cases hg : ∀ r ∈ runsOf inp, GoodRun r
  · rw [if_pos hg, if_pos hg]
  · rw [if_neg hg, if_neg hg]

/-- Rejection inside the scratch buffer: for a text of at most 254 characters, when
some run of the shorthand has more than three characters, or a value above 255, or
contains a character that is not a decimal digit (an unexpected character after its
digits), `PartialIPAddress` returns `-1` and the output address is exactly the one
before the call. -/
theorem PartialIPAddress_rejects (Q : List Char → Int) (myAddr : Nat) (hp : Int)
    (inp : List Char) (hostaddr : qsockaddr) (hfit : strlen inp ≤ 254)
    (hbad : ∃ r ∈ runsOf inp,
      3 < r.length ∨ 255 < numeralValue r ∨ ∃ c ∈ r, isDigitC c = false) :
    PartialIPAddress Q myAddr hp inp hostaddr = some (-1, hostaddr) := by
  rw [PartialIPAddress_eq Q myAddr hp inp hostaddr hfit]
  obtain ⟨r, hr, hb⟩ := hbad
  have hng : ¬ ∀ r ∈ runsOf inp, GoodRun r := by
    intro hall
    obtain ⟨hd, hlen, hval⟩ := hall r hr
    rcases hb with h | h | ⟨c, hc, hcd⟩
    · omega
    · omega
    · rw [hd c hc] at hcd
      exact absurd hcd (by decide)
  rw [if_neg hng]

/-- Witness of `PartialIPAddress_rejects` at `999.1`, `1234` and `1.2x`. -/
theorem PartialIPAddress_rejects_witness :
    PartialIPAddress Q_atoi 83886090 26000 "999.1".toList ⟨0, 0, 0, []⟩
      = some (-1, ⟨0, 0, 0, []⟩) ∧
    PartialIPAddress Q_atoi 83886090 26000 "1234".toList ⟨0, 0, 0, []⟩
      = some (-1, ⟨0, 0, 0, []⟩) ∧
    PartialIPAddress Q_atoi 83886090 26000 "1.2x".toList ⟨0, 0, 0, []⟩
      = some (-1, ⟨0, 0, 0, []⟩) :=
  ⟨PartialIPAddress_rejects Q_atoi 83886090 26000 "999.1".toList ⟨0, 0, 0, []⟩ (by decide)
      ⟨"999".toList, by decide, Or.inr (Or.inl (by decide))⟩,
    PartialIPAddress_rejects Q_atoi 83886090 26000 "1234".toList ⟨0, 0, 0, []⟩ (by decide)
      ⟨"1234".toList, by decide, Or.inl (by decide)⟩,
    PartialIPAddress_rejects Q_atoi 83886090 26000 "1.2x".toList ⟨0, 0, 0, []⟩ (by decide)
      ⟨"2x".toList, by decide, Or.inr (Or.inr ⟨'x', by decide, by decide⟩)⟩⟩

/-! ## `UDP_StringToAddr` on arbitrary text -/

theorem CanonicalAddr_colon (s : List Char) (h : CanonicalAddr s) : ':' ∈ s := by
  obtain ⟨H1, H2, H3, H4, P, _, _, _, _, _, rfl⟩ := h
  simp

/-- C6 (as stated, refuted): the texts `""`, `hello`, `1.2.3` and `1.2.3.4` are not of
the canonical form, yet `UDP_StringToAddr` returns 0 on each of them. -/
theorem UDP_StringToAddr_zero_on_malformed :
    (¬ CanonicalAddr "".toList ∧
      (UDP_StringToAddr ⟨7, 7, 7, 7, 7⟩ "".toList ⟨0, 0, 0, []⟩).1 = 0) ∧
    (¬ CanonicalAddr "hello".toList ∧
      (UDP_StringToAddr ⟨7, 7, 7, 7, 7⟩ "hello".toList ⟨0, 0, 0, []⟩).1 = 0) ∧
    (¬ CanonicalAddr "1.2.3".toList ∧
      (UDP_StringToAddr ⟨7, 7, 7, 7, 7⟩ "1.2.3".toList ⟨0, 0, 0, []⟩).1 = 0) ∧
    (¬ CanonicalAddr "1.2.3.4".toList ∧
      (UDP_StringToAddr ⟨7, 7, 7, 7, 7⟩ "1.2.3.4".toList ⟨0, 0, 0, []⟩).1 = 0) :=
  ⟨⟨fun h => absurd (CanonicalAddr_colon _ h) (by decide), rfl⟩,
    ⟨fun h => absurd (CanonicalAddr_colon _ h) (by decide), rfl⟩,
    ⟨fun h => absurd (CanonicalAddr_colon _ h) (by decide), rfl⟩,
    ⟨fun h => absurd (CanonicalAddr_colon _ h) (by decide), rfl⟩⟩

theorem sscanf_addr_none (string : List Char) (v : ScanVars) (h : scan_d string = none) :
    sscanf_addr string v = v := by
  unfold sscanf_addr
  rw [h]

/-- Each of the five locals, after the scan, holds either its previous content (its
directive was not reached) or a number that depends on the text alone. -/
theorem sscanf_addr_fields (string : List Char) :
    ((∀ v, (sscanf_addr string v).ha1 = v.ha1) ∨ ∃ x, ∀ v, (sscanf_addr string v).ha1 = x) ∧
    ((∀ v, (sscanf_addr string v).ha2 = v.ha2) ∨ ∃ x, ∀ v, (sscanf_addr string v).ha2 = x) ∧
    ((∀ v, (sscanf_addr string v).ha3 = v.ha3) ∨ ∃ x, ∀ v, (sscanf_addr string v).ha3 = x) ∧
    ((∀ v, (sscanf_addr string v).ha4 = v.ha4) ∨ ∃ x, ∀ v, (sscanf_addr string v).ha4 = x) ∧
    ((∀ v, (sscanf_addr string v).hp = v.hp) ∨ ∃ x, ∀ v, (sscanf_addr string v).hp = x) := by
  cases h1 : scan_d string with
  | none =>
    have e : ∀ v, sscanf_addr string v = v := fun v => sscanf_addr_none string v h1
    exact ⟨Or.inl fun v => by rw [e], Or.inl fun v => by rw [e], Or.inl fun v => by rw [e],
      Or.inl fun v => by rw [e], Or.inl fun v => by rw [e]⟩
  | some p1 =>
    obtain ⟨a1, s1⟩ := p1
    cases h2 : (scan_lit '.' s1).bind scan_d with
    | none =>
      have e : ∀ v, sscanf_addr string v = { v with ha1 := a1 } := by
        intro v
        unfold sscanf_addr
        simp only [h1, h2]
      exact ⟨Or.inr ⟨a1, fun v => by rw [e]⟩, Or.inl fun v => by rw [e],
        Or.inl fun v => by rw [e], Or.inl fun v => by rw [e], Or.inl fun v => by rw [e]⟩
    | some p2 =>
      obtain ⟨a2, s2⟩ := p2
      cases h3 : (scan_lit '.' s2).bind scan_d with
      | none =>
        have e : ∀ v, sscanf_addr string v = { v with ha1 := a1, ha2 := a2 } := by
          intro v
          unfold sscanf_addr
          simp only [h1, h2, h3]
        exact ⟨Or.inr ⟨a1, fun v => by rw [e]⟩, Or.inr ⟨a2, fun v => by rw [e]⟩,
          Or.inl fun v => by rw [e], Or.inl fun v => by rw [e], Or.inl fun v => by rw [e]⟩
      | some p3 =>
        obtain ⟨a3, s3⟩ := p3
        cases h4 : (scan_lit '.' s3).bind scan_d with
        | none =>
          have e : ∀ v, sscanf_addr string v = { v with ha1 := a1, ha2 := a2, ha3 := a3 } := by
            intro v
            unfold sscanf_addr
            simp only [h1, h2, h3, h4]
          exact ⟨Or.inr ⟨a1, fun v => by rw [e]⟩, Or.inr ⟨a2, fun v => by rw [e]⟩,
            Or.inr ⟨a3, fun v => by rw [e]⟩, Or.inl fun v => by rw [e],
            Or.inl fun v => by rw [e]⟩
        | some p4 =>
          obtain ⟨a4, s4⟩ := p4
          cases h5 : (scan_lit ':' s4).bind scan_d with
          | none =>
            have e : ∀ v, sscanf_addr string v
                = { v with ha1 := a1, ha2 := a2, ha3 := a3, ha4 := a4 } := by
              intro v
              unfold sscanf_addr
              simp only [h1, h2, h3, h4, h5]
            exact ⟨Or.inr ⟨a1, fun v => by rw [e]⟩, Or.inr ⟨a2, fun v => by rw [e]⟩,
              Or.inr ⟨a3, fun v => by rw [e]⟩, Or.inr ⟨a4, fun v => by rw [e]⟩,
              Or.inl fun v => by rw [e]⟩
          | some p5 =>
            obtain ⟨a5, s5⟩ := p5
            have e : ∀ v, sscanf_addr string v = ⟨a1, a2, a3, a4, a5⟩ := by
              intro v
              unfold sscanf_addr
              simp only [h1, h2, h3, h4, h5]
            exact ⟨Or.inr ⟨a1, fun v => by rw [e]⟩, Or.inr ⟨a2, fun v => by rw [e]⟩,
              Or.inr ⟨a3, fun v => by rw [e]⟩, Or.inr ⟨a4, fun v => by rw [e]⟩,
              Or.inr ⟨a5, fun v => by rw [e]⟩⟩

/-- C6 (amended): `UDP_StringToAddr` does not validate its text.  For every text, of
the canonical form or not, and whatever the locals held, it returns 0 and writes an
address of family INET (padding untouched) whose host is the 32-bit pattern
`ha1 << 24 | ha2 << 16 | ha3 << 8 | ha4` and whose port is `hp`, taken from the five
locals as the scan left them.  Each local then holds either a number read from the text
or its previous, indeterminate content; when the text does not start with a number all
five keep their previous content; for canonical text host and port are the ones the
text names, whatever the locals and the address held. -/
theorem UDP_StringToAddr_always_zero (v : ScanVars) (string : List Char) (addr : qsockaddr) :
    (UDP_StringToAddr v string addr).1 = 0 ∧
    (UDP_StringToAddr v string addr).2.sa_family = AF_INET ∧
    (UDP_StringToAddr v string addr).2.s_addr
      = htonl (toUInt32 (or32 (or32 (or32 (shl32 (sscanf_addr string v).ha1 24)
          (shl32 (sscanf_addr string v).ha2 16)) (shl32 (sscanf_addr string v).ha3 8))
          (sscanf_addr string v).ha4)) ∧
    (UDP_StringToAddr v string addr).2.sin_port = htons (toUInt16 (sscanf_addr string v).hp) ∧
    (UDP_StringToAddr v string addr).2.sin_zero = addr.sin_zero ∧
    (((∀ w, (sscanf_addr string w).ha1 = w.ha1) ∨ ∃ x, ∀ w, (sscanf_addr string w).ha1 = x) ∧
      ((∀ w, (sscanf_addr string w).ha2 = w.ha2) ∨ ∃ x, ∀ w, (sscanf_addr string w).ha2 = x) ∧
      ((∀ w, (sscanf_addr string w).ha3 = w.ha3) ∨ ∃ x, ∀ w, (sscanf_addr string w).ha3 = x) ∧
      ((∀ w, (sscanf_addr string w).ha4 = w.ha4) ∨ ∃ x, ∀ w, (sscanf_addr string w).ha4 = x) ∧
      ((∀ w, (sscanf_addr string w).hp = w.hp) ∨ ∃ x, ∀ w, (sscanf_addr string w).hp = x)) ∧
    (scan_d string = none →
      (UDP_StringToAddr v string addr).2.s_addr
        = htonl (toUInt32 (or32 (or32 (or32 (shl32 v.ha1 24) (shl32 v.ha2 16))
            (shl32 v.ha3 8)) v.ha4)) ∧
      (UDP_StringToAddr v string addr).2.sin_port = htons (toUInt16 v.hp)) ∧
    (∀ H1 H2 H3 H4 P : List Char,
      (IsNumeral H1 ∧ numeralValue H1 ≤ 255) → (IsNumeral H2 ∧ numeralValue H2 ≤ 255) →
      (IsNumeral H3 ∧ numeralValue H3 ≤ 255) → (IsNumeral H4 ∧ numeralValue H4 ≤ 255) →
      (IsNumeral P ∧ numeralValue P ≤ 65535) →
      string = H1 ++ '.' :: (H2 ++ '.' :: (H3 ++ '.' :: (H4 ++ ':' :: P))) →
      (UDP_StringToAddr v string addr).2.s_addr
        = htonl (numeralValue H1 * 16777216 + numeralValue H2 * 65536
            + numeralValue H3 * 256 + numeralValue H4) ∧
      (UDP_StringToAddr v string addr).2.sin_port = htons (numeralValue P)) := by
  refine ⟨rfl, rfl, rfl, rfl, rfl, sscanf_addr_fields string, ?_, ?_⟩
  · intro h
    have e : sscanf_addr string v = v := sscanf_addr_none string v h
    refine ⟨?_, ?_⟩
    · show htonl (toUInt32 (or32 (or32 (or32 (shl32 (sscanf_addr string v).ha1 24)
        (shl32 (sscanf_addr string v).ha2 16)) (shl32 (sscanf_addr string v).ha3 8))
        (sscanf_addr string v).ha4)) = _
      rw [e]
    · show htons (toUInt16 (sscanf_addr string v).hp) = _
      rw [e]
  · intro H1 H2 H3 H4 P h1 h2 h3 h4 hp hs
    subst hs
    rw [UDP_StringToAddr_canonical v addr H1 H2 H3 H4 P h1 h2 h3 h4 hp]
    exact ⟨rfl, rfl⟩

/-- Witness of `UDP_StringToAddr_always_zero`: on `hello` host and port are the stale
content of the locals (here 7.7.7.7 and port 7); on the canonical `10.0.0.5:26000` they
are the ones of the text. -/
theorem UDP_StringToAddr_always_zero_witness :
    ((UDP_StringToAddr ⟨7, 7, 7, 7, 7⟩ "hello".toList ⟨0, 0, 0, []⟩).2.s_addr
        = htonl (toUInt32 (or32 (or32 (or32 (shl32 7 24) (shl32 7 16)) (shl32 7 8)) 7)) ∧
      (UDP_StringToAddr ⟨7, 7, 7, 7, 7⟩ "hello".toList ⟨0, 0, 0, []⟩).2.sin_port
        = htons (toUInt16 7)) ∧
    ((UDP_StringToAddr ⟨7, 7, 7, 7, 7⟩ "10.0.0.5:26000".toList ⟨0, 0, 0, []⟩).2.s_addr
        = htonl (numeralValue "10".toList * 16777216 + numeralValue "0".toList * 65536
            + numeralValue "0".toList * 256 + numeralValue "5".toList) ∧
      (UDP_StringToAddr ⟨7, 7, 7, 7, 7⟩ "10.0.0.5:26000".toList ⟨0, 0, 0, []⟩).2.sin_port
        = htons (numeralValue "26000".toList)) :=
  ⟨(UDP_StringToAddr_always_zero ⟨7, 7, 7, 7, 7⟩ "hello".toList ⟨0, 0, 0, []⟩).2.2.2.2.2.2.1
      (by decide),
    (UDP_StringToAddr_always_zero ⟨7, 7, 7, 7, 7⟩ "10.0.0.5:26000".toList
      ⟨0, 0, 0, []⟩).2.2.2.2.2.2.2 "10".toList "0".toList "0".toList "5".toList
      "26000".toList (by decide) (by decide) (by decide) (by decide) (by decide) (by decide)⟩

/-! ## The name resolution bridge -/

/-- C9: `UDP_GetAddrFromName` gives exactly the result of `PartialIPAddress` when the
first character of the name is a decimal digit.  For every other name (a name
starting with `.` or `:` is one) it asks the platform resolver: when that finds
nothing the result is `-1` and the address is unchanged, otherwise the result is 0
and the address has family INET, the first resolved host and the configured host
port (equal to `net_hostport` when that is a 16-bit port). -/
theorem UDP_GetAddrFromName_dispatch (Q : List Char → Int)
    (gethostbyname : List Char → Option Nat) (myAddr : Nat) (hp : Int) (name : List Char)
    (addr : qsockaddr) :
    (isDigitC (peek name) = true →
      UDP_GetAddrFromName Q gethostbyname myAddr hp name addr
        = PartialIPAddress Q myAddr hp name addr) ∧
    (isDigitC (peek name) = false → gethostbyname (cstr name) = none →
      UDP_GetAddrFromName Q gethostbyname myAddr hp name addr = some (-1, addr)) ∧
    (isDigitC (peek name) = false → ∀ h, gethostbyname (cstr name) = some h →
      ∃ a, UDP_GetAddrFromName Q gethostbyname myAddr hp name addr = some (0, a) ∧
        a.sa_family = AF_INET ∧ a.s_addr = h % 4294967296 ∧
        a.sin_port = htons (toUInt16 hp) ∧ a.sin_zero = addr.sin_zero ∧
        (0 ≤ hp ∧ hp ≤ 65535 → UDP_GetSocketPort a = hp)) ∧
    (peek name = '.' ∨ peek name = ':' → isDigitC (peek name) = false) := by
  have hcond : (decide ((peek name).toNat ≥ 48) && decide ((peek name).toNat ≤ 57))
      = isDigitC (peek name) := by
    unfold isDigitC
    by_cases h1 : (peek name).toNat < 48
    · simp [h1]
    · by_cases h2 : (peek name).toNat > 57
      · simp [h2]
      · simp [h1, h2]; omega
  unfold UDP_GetAddrFromName
  rw [hcond]
  refine ⟨?_, ?_, ?_, ?_⟩
  · intro hd
    simp [hd]
  · intro hd hn
    simp [hd, hn]
  · intro hd h hh
    refine ⟨{ addr with
      sa_family := AF_INET
      sin_port := htons (toUInt16 hp)
      s_addr := h % 4294967296 }, ?_, rfl, rfl, rfl, rfl, ?_⟩
    · simp [hd, hh]
    · intro hr
      simp only [UDP_GetSocketPort]
      exact ntohs_htons_port hp hr.1 hr.2
  · rintro (h | h) <;> rw [h] <;> decide

/-- Witness of `UDP_GetAddrFromName_dispatch`: `10.7` is delegated, `.7` and an unknown
name fail in the resolver, `quake.example` resolves to 10.0.0.9 at port 26000. -/
theorem UDP_GetAddrFromName_dispatch_witness :
    UDP_GetAddrFromName Q_atoi sampleResolver 83886090 26000 "10.7".toList ⟨0, 0, 0, []⟩
      = PartialIPAddress Q_atoi 83886090 26000 "10.7".toList ⟨0, 0, 0, []⟩ ∧
    UDP_GetAddrFromName Q_atoi sampleResolver 83886090 26000 ".7".toList ⟨0, 0, 0, []⟩
      = some (-1, ⟨0, 0, 0, []⟩) ∧
    (∃ a, UDP_GetAddrFromName Q_atoi sampleResolver 83886090 26000 "quake.example".toList
        ⟨0, 0, 0, []⟩ = some (0, a) ∧
        a.sa_family = AF_INET ∧ a.s_addr = 150994954 % 4294967296 ∧
        a.sin_port = htons (toUInt16 26000) ∧ a.sin_zero = [] ∧
        ((0 : Int) ≤ 26000 ∧ (26000 : Int) ≤ 65535 → UDP_GetSocketPort a = 26000)) :=
  ⟨(UDP_GetAddrFromName_dispatch Q_atoi sampleResolver 83886090 26000 "10.7".toList
      ⟨0, 0, 0, []⟩).1 (by decide),
    (UDP_GetAddrFromName_dispatch Q_atoi sampleResolver 83886090 26000 ".7".toList
      ⟨0, 0, 0, []⟩).2.1 (by decide) (by decide),
    (UDP_GetAddrFromName_dispatch Q_atoi sampleResolver 83886090 26000 "quake.example".toList
      ⟨0, 0, 0, []⟩).2.2.1 (by decide) 150994954 (by decide)⟩

/-! ## The port of a resolved shorthand -/

theorem portPart_eq_nil (s : List Char) (h : ':' ∉ s) : portPart s = [] := by
  induction s with
  | nil => rfl
  | cons c cs ih =>
    have hc : c ≠ ':' := fun e => h (by simp [e])
    have hcs : ':' ∉ cs := fun e => h (by simp [e])
    simpa [portPart, List.dropWhile_cons, hc] using ih hcs

theorem portPart_append (pre P : List Char) (h : ':' ∉ pre) :
    portPart (pre ++ ':' :: P) = ':' :: P := by
  induction pre with
  | nil => simp [portPart]
  | cons c cs ih =>
    have hc : c ≠ ':' := fun e => h (by simp [e])
    have hcs : ':' ∉ cs := fun e => h (by simp [e])
    simpa [portPart, List.dropWhile_cons, hc] using ih hcs

theorem stripDot_split (pre P : List Char) :
    stripDot (pre ++ ':' :: P) = stripDot pre ++ ':' :: P := by
  cases pre with
  | nil =>
    have h : peek (':' :: P) ≠ '.' := by rw [peek_cons]; decide
    have h' : peek ([] : List Char) ≠ '.' := by decide
    simp [stripDot, h, h']
  | cons c cs =>
    unfold stripDot
    by_cases hc : c = '.'
    · simp [peek, hc]
    · simp [peek, hc]

theorem Q_atoi_digits (ds : List Char) (hd : ∀ c ∈ ds, isDigitC c = true) :
    Q_atoi ds = numeralValue ds := by
  cases ds with
  | nil => rfl
  | cons c cs =>
    have hc : isDigitC c = true := hd c (by simp)
    have h1 : c ≠ '-' := digit_ne c '-' hc (by decide)
    have hs := scanDigits_append (c :: cs) [] hd (by decide) 0
    rw [List.append_nil] at hs
    simp [Q_atoi, h1, hs, numeralValue]

/-- C5: when `PartialIPAddress` accepts a shorthand (returns 0), the address written
has family INET; its port is the configured host port `net_hostport` when the text
has no colon, and it is `PORT` when the text is `...:PORT` with `PORT` a string of
decimal digits of value at most 65535.  Assumed: the text fits the scratch buffer,
`net_hostport` is a 16-bit port, and `Q_atoi` converts such a numeral to its value. -/
theorem PartialIPAddress_port (Q : List Char → Int) (myAddr : Nat) (hp : Int)
    (inp : List Char) (hostaddr a : qsockaddr) (hfit : strlen inp ≤ 254)
    (hhp : 0 ≤ hp ∧ hp ≤ 65535)
    (hQ : ∀ ds, (∀ c ∈ ds, isDigitC c = true) → numeralValue ds ≤ 65535 →
      Q ds = numeralValue ds)
    (hacc : PartialIPAddress Q myAddr hp inp hostaddr = some (0, a)) :
    a.sa_family = AF_INET ∧
    (':' ∉ cstr inp → UDP_GetSocketPort a = hp) ∧
    (∀ pre P, cstr inp = pre ++ ':' :: P → ':' ∉ pre → (∀ c ∈ P, isDigitC c = true) →
      numeralValue P ≤ 65535 → UDP_GetSocketPort a = numeralValue P) := by
  rw [PartialIPAddress_eq Q myAddr hp inp hostaddr hfit] at hacc
  by_cases hg : ∀ r ∈ runsOf inp, GoodRun r
  · rw [if_pos hg] at hacc
    simp only [Option.some.injEq, Prod.mk.injEq, true_and] at hacc
    subst hacc
    refine ⟨rfl, ?_, ?_⟩
    · intro hno
      have hno' : ':' ∉ stripDot (cstr inp) := fun h => hno (stripDot_subset _ _ h)
      have hpk : peek (portPart (stripDot (cstr inp))) ≠ ':' := by
        rw [portPart_eq_nil _ hno']; decide
      simp only [UDP_GetSocketPort, hpk, if_false]
      exact ntohs_htons_port hp hhp.1 hhp.2
    · intro pre P hsplit hpre hP hval
      have hpre' : ':' ∉ stripDot pre := fun h => hpre (stripDot_subset _ _ h)
      have hpp : portPart (stripDot (cstr inp)) = ':' :: P := by
        rw [hsplit, stripDot_split, portPart_append _ _ hpre']
      have hpk : peek (':' :: P) = ':' := rfl
      simp only [UDP_GetSocketPort, hpp, hpk, if_true, List.tail_cons, hQ P hP hval]
      exact ntohs_htons_port _ (by omega) (by omega)
  · rw [if_neg hg] at hacc
    simp at hacc

/-- Witness of `PartialIPAddress_port` at `.1.7:27500` with own address 10.0.0.5 and
host port 26000. -/
theorem PartialIPAddress_port_witness :
    PartialIPAddress Q_atoi 83886090 26000 ".1.7:27500".toList ⟨0, 0, 0, []⟩
      = some (0, ⟨2, 27755, 117506058, []⟩) ∧
    (⟨2, 27755, 117506058, []⟩ : qsockaddr).sa_family = AF_INET ∧
    UDP_GetSocketPort ⟨2, 27755, 117506058, []⟩ = numeralValue "27500".toList :=
  have hacc : PartialIPAddress Q_atoi 83886090 26000 ".1.7:27500".toList ⟨0, 0, 0, []⟩
      = some (0, ⟨2, 27755, 117506058, []⟩) := by decide
  have h := PartialIPAddress_port Q_atoi 83886090 26000 ".1.7:27500".toList ⟨0, 0, 0, []⟩
    ⟨2, 27755, 117506058, []⟩ (by decide) (by decide)
    (fun ds hd _ => Q_atoi_digits ds hd) hacc
  ⟨hacc, h.1, h.2.2 ".1.7".toList "27500".toList (by decide) (by decide) (by decide)
    (by decide)⟩

/-! ## Host bytes written by `PartialIPAddress` -/

theorem and_or_overlay (m Y j : Nat) :
    (m &&& (2 ^ j - 1)) ||| (2 ^ j * Y) = 2 ^ j * Y + m % 2 ^ j := by
  rw [Nat.and_pow_two_sub_one_eq_mod, Nat.or_comm,
    ← Nat.mul_add_lt_is_or (Nat.mod_lt _ (by positivity))]

theorem addr_step (a : Int) (v : Nat) :
    toUInt32 (toInt32 (shl32 a 8 + (v : Int))) = (toUInt32 a * 256 + v) % 4294967296 := by
  unfold shl32
  rw [toUInt32_toInt32]
  unfold toUInt32 toInt32
  norm_num
  omega

theorem mask1 : htonl (toUInt32 (shl32 (-1) 8)) = 2 ^ 24 - 1 := by decide

theorem mask2 : htonl (toUInt32 (shl32 (shl32 (-1) 8) 8)) = 2 ^ 16 - 1 := by decide

theorem mask3 : htonl (toUInt32 (shl32 (shl32 (shl32 (-1) 8) 8) 8)) = 2 ^ 8 - 1 := by decide

theorem mask4 : shl32 (shl32 (shl32 (shl32 (-1) 8) 8) 8) 8 = 0 := by decide

theorem maskFold_zero (rs : List (List Char)) : maskFold 0 rs = 0 := by
  induction rs with
  | nil => rfl
  | cons r rs ih =>
    have h0 : shl32 0 8 = 0 := by decide
    simpa [maskFold, h0] using ih

theorem maskFold_ge4 (rs : List (List Char)) (h : 4 ≤ rs.length) : maskFold (-1) rs = 0 := by
  match rs, h with
  | a :: b :: c :: d :: rest, _ =>
    have := maskFold_zero rest
    simpa [maskFold, mask4] using this

theorem addrFold_append (a : Int) (xs ys : List (List Char)) :
    addrFold a (xs ++ ys) = addrFold (addrFold a xs) ys := by
  simp [addrFold, List.foldl_append]

theorem addr4 (X : Int) (v1 v2 v3 v4 : Nat) (h1 : v1 ≤ 255) (h2 : v2 ≤ 255) (h3 : v3 ≤ 255)
    (h4 : v4 ≤ 255) :
    toUInt32 (toInt32 (shl32 (toInt32 (shl32 (toInt32 (shl32 (toInt32 (shl32 X 8 + (v1 : Int))) 8
      + (v2 : Int))) 8 + (v3 : Int))) 8 + (v4 : Int)))
      = v4 + 256 * v3 + 65536 * v2 + 16777216 * v1 := by
  rw [addr_step, addr_step, addr_step, addr_step]
  omega

theorem exists_last4 (rs : List (List Char)) (h : 4 ≤ rs.length) :
    ∃ pre r1 r2 r3 r4, rs = pre ++ [r1, r2, r3, r4] := by
  have hr : 4 ≤ rs.reverse.length := by simpa using h
  match hl : rs.reverse, hr with
  | r4 :: r3 :: r2 :: r1 :: rest, _ =>
    refine ⟨rest.reverse, r1, r2, r3, r4, ?_⟩
    have := congrArg List.reverse hl
    simpa using this

theorem octets_bytes (a b c d : Nat) (ha : a < 256) (hb : b < 256) (hc : c < 256)
    (hd : d < 256) :
    octets (a + 256 * b + 65536 * c + 16777216 * d) = [a, b, c, d] := by
  have h1 : (a + 256 * b + 65536 * c + 16777216 * d) % 256 = a := by omega
  have h2 : (a + 256 * b + 65536 * c + 16777216 * d) / 256 % 256 = b := by omega
  have h3 : (a + 256 * b + 65536 * c + 16777216 * d) / 65536 % 256 = c := by omega
  have h4 : (a + 256 * b + 65536 * c + 16777216 * d) / 16777216 % 256 = d := by omega
  unfold octets
  rw [h1, h2, h3, h4]

theorem maskFold_nil (m : Int) : maskFold m [] = m := rfl

theorem maskFold_cons (m : Int) (r : List Char) (rs : List (List Char)) :
    maskFold m (r :: rs) = maskFold (shl32 m 8) rs := rfl

theorem addrFold_nil (a : Int) : addrFold a [] = a := rfl

theorem addrFold_cons (a : Int) (r : List Char) (rs : List (List Char)) :
    addrFold a (r :: rs) = addrFold (toInt32 (shl32 a 8 + (numeralValue r : Int))) rs := rfl

theorem toUInt32_zero : toUInt32 0 = 0 := by decide

theorem htonl_zero : htonl 0 = 0 := by decide

/-- With four or more runs nothing of the own address is kept: the host bytes are the
values of the last four runs. -/
theorem overlay_ge4 (m : Nat) (rs : List (List Char)) (h : 4 ≤ rs.length)
    (hv : ∀ r ∈ rs, numeralValue r ≤ 255) :
    octets (((m &&& htonl (toUInt32 (maskFold (-1) rs))) ||| htonl (toUInt32 (addrFold 0 rs)))
        % 4294967296)
      = (rs.map numeralValue).drop (rs.length - 4) := by
  rw [maskFold_ge4 rs h, toUInt32_zero, htonl_zero, Nat.and_zero, Nat.zero_or]
  obtain ⟨pre, r1, r2, r3, r4, rfl⟩ := exists_last4 rs h
  have h1 := hv r1 (by simp)
  have h2 := hv r2 (by simp)
  have h3 := hv r3 (by simp)
  have h4 := hv r4 (by simp)
  have hd : (List.map numeralValue (pre ++ [r1, r2, r3, r4])).drop
      ((pre ++ [r1, r2, r3, r4]).length - 4)
      = [numeralValue r1, numeralValue r2, numeralValue r3, numeralValue r4] := by
    have hl : (pre ++ [r1, r2, r3, r4]).length - 4 = (List.map numeralValue pre).length := by
      simp
    rw [List.map_append, hl, List.drop_left]
    rfl
  rw [hd, addrFold_append, addrFold_cons, addrFold_cons, addrFold_cons, addrFold_cons,
    addrFold_nil, addr4 _ _ _ _ _ h1 h2 h3 h4]
  clear hd hv h
  generalize numeralValue r1 = v1 at h1
  generalize numeralValue r2 = v2 at h2
  generalize numeralValue r3 = v3 at h3
  generalize numeralValue r4 = v4 at h4
  unfold htonl
  rw [bswap32_bytes _ _ _ _ (by omega) (by omega) (by omega) (by omega),
    Nat.mod_eq_of_lt (by omega), octets_bytes _ _ _ _ (by omega) (by omega) (by omega) (by omega)]

theorem overlay_value_1 (m v1 : Nat) (h1 : v1 ≤ 255) :
    (2 ^ 24 * v1 + m % 2 ^ 24) % 4294967296
      = m % 256 + 256 * (m / 256 % 256) + 65536 * (m / 65536 % 256) + 16777216 * v1 := by
  norm_num
  omega

theorem overlay_value_2 (m v1 v2 : Nat) (h1 : v1 ≤ 255) (h2 : v2 ≤ 255) :
    (2 ^ 16 * (v1 + 256 * v2) + m % 2 ^ 16) % 4294967296
      = m % 256 + 256 * (m / 256 % 256) + 65536 * v1 + 16777216 * v2 := by
  norm_num
  omega

theorem overlay_value_3 (m v1 v2 v3 : Nat) (h1 : v1 ≤ 255) (h2 : v2 ≤ 255) (h3 : v3 ≤ 255) :
    (2 ^ 8 * (v1 + 256 * v2 + 65536 * v3) + m % 2 ^ 8) % 4294967296
      = m % 256 + 256 * v1 + 65536 * v2 + 16777216 * v3 := by
  norm_num
  omega

theorem htonl_value_1 (v1 : Nat) (h1 : v1 ≤ 255) :
    htonl ((toUInt32 0 * 256 + v1) % 4294967296) = 2 ^ 24 * v1 := by
  have hx : (toUInt32 0 * 256 + v1) % 4294967296 = v1 + 256 * 0 + 65536 * 0 + 16777216 * 0 := by
    rw [toUInt32_zero]; omega
  unfold htonl
  rw [hx, bswap32_bytes _ _ _ _ (by omega) (by omega) (by omega) (by omega)]
  norm_num

theorem htonl_value_2 (v1 v2 : Nat) (h1 : v1 ≤ 255) (h2 : v2 ≤ 255) :
    htonl (((toUInt32 0 * 256 + v1) % 4294967296 * 256 + v2) % 4294967296)
      = 2 ^ 16 * (v1 + 256 * v2) := by
  have hx : ((toUInt32 0 * 256 + v1) % 4294967296 * 256 + v2) % 4294967296
      = v2 + 256 * v1 + 65536 * 0 + 16777216 * 0 := by
    rw [toUInt32_zero]; omega
  unfold htonl
  rw [hx, bswap32_bytes _ _ _ _ (by omega) (by omega) (by omega) (by omega)]
  norm_num
  omega

theorem htonl_value_3 (v1 v2 v3 : Nat) (h1 : v1 ≤ 255) (h2 : v2 ≤ 255) (h3 : v3 ≤ 255) :
    htonl ((((toUInt32 0 * 256 + v1) % 4294967296 * 256 + v2) % 4294967296 * 256 + v3)
        % 4294967296)
      = 2 ^ 8 * (v1 + 256 * v2 + 65536 * v3) := by
  have hx : (((toUInt32 0 * 256 + v1) % 4294967296 * 256 + v2) % 4294967296 * 256 + v3)
      % 4294967296 = v3 + 256 * v2 + 65536 * v1 + 16777216 * 0 := by
    rw [toUInt32_zero]; omega
  unfold htonl
  rw [hx, bswap32_bytes _ _ _ _ (by omega) (by omega) (by omega) (by omega)]
  norm_num
  omega

theorem overlay_1 (m : Nat) (r1 : List Char) (h1 : numeralValue r1 ≤ 255) :
    octets (((m &&& htonl (toUInt32 (maskFold (-1) [r1])))
        ||| htonl (toUInt32 (addrFold 0 [r1]))) % 4294967296)
      = (octets m).take 3 ++ [numeralValue r1] := by
  rw [maskFold_cons, maskFold_nil, mask1, addrFold_cons, addrFold_nil, addr_step,
    htonl_value_1 _ h1, and_or_overlay, overlay_value_1 m _ h1,
    octets_bytes _ _ _ _ (Nat.mod_lt _ (by decide)) (Nat.mod_lt _ (by decide))
      (Nat.mod_lt _ (by decide)) (by omega)]
  rfl

theorem overlay_2 (m : Nat) (r1 r2 : List Char) (h1 : numeralValue r1 ≤ 255)
    (h2 : numeralValue r2 ≤ 255) :
    octets (((m &&& htonl (toUInt32 (maskFold (-1) [r1, r2])))
        ||| htonl (toUInt32 (addrFold 0 [r1, r2]))) % 4294967296)
      = (octets m).take 2 ++ [numeralValue r1, numeralValue r2] := by
  rw [maskFold_cons, maskFold_cons, maskFold_nil, mask2, addrFold_cons, addrFold_cons,
    addrFold_nil, addr_step, addr_step, htonl_value_2 _ _ h1 h2, and_or_overlay,
    overlay_value_2 m _ _ h1 h2,
    octets_bytes _ _ _ _ (Nat.mod_lt _ (by decide)) (Nat.mod_lt _ (by decide))
      (by omega) (by omega)]
  rfl

theorem overlay_3 (m : Nat) (r1 r2 r3 : List Char) (h1 : numeralValue r1 ≤ 255)
    (h2 : numeralValue r2 ≤ 255) (h3 : numeralValue r3 ≤ 255) :
    octets (((m &&& htonl (toUInt32 (maskFold (-1) [r1, r2, r3])))
        ||| htonl (toUInt32 (addrFold 0 [r1, r2, r3]))) % 4294967296)
      = (octets m).take 1 ++ [numeralValue r1, numeralValue r2, numeralValue r3] := by
  rw [maskFold_cons, maskFold_cons, maskFold_cons, maskFold_nil, mask3, addrFold_cons,
    addrFold_cons, addrFold_cons, addrFold_nil, addr_step, addr_step, addr_step,
    htonl_value_3 _ _ _ h1 h2 h3, and_or_overlay, overlay_value_3 m _ _ _ h1 h2 h3,
    octets_bytes _ _ _ _ (Nat.mod_lt _ (by decide)) (by omega) (by omega) (by omega)]
  rfl

/-! ## Shorthands given by their runs -/

theorem splitDots_nodot (r : List Char) (h : '.' ∉ r) : splitDots r = [r] := by
  induction r with
  | nil => rfl
  | cons c cs ih =>
    have hc : c ≠ '.' := fun e => h (by simp [e])
    have hcs : '.' ∉ cs := fun e => h (by simp [e])
    rw [splitDots, if_neg hc, ih hcs]

theorem splitDots_append_dot (r t : List Char) (h : '.' ∉ r) :
    splitDots (r ++ '.' :: t) = r :: splitDots t := by
  induction r with
  | nil => rw [List.nil_append, splitDots, if_pos rfl]
  | cons c cs ih =>
    have hc : c ≠ '.' := fun e => h (by simp [e])
    have hcs : '.' ∉ cs := fun e => h (by simp [e])
    rw [List.cons_append, splitDots, if_neg hc, ih hcs]

theorem splitDots_dotted (runs : List (List Char)) (hne : runs ≠ [])
    (h : ∀ r ∈ runs, '.' ∉ r) : splitDots (dotted runs) = runs := by
  induction runs with
  | nil => exact absurd rfl hne
  | cons r rs ih =>
    cases rs with
    | nil => rw [dotted, splitDots_nodot r (h r (by simp))]
    | cons r2 rs2 =>
      rw [dotted, splitDots_append_dot r _ (h r (by simp)),
        ih (by simp) (fun x hx => h x (by simp [hx]))]

theorem hostPart_append (a t : List Char) (ha : ':' ∉ a) (ht : t = [] ∨ peek t = ':') :
    hostPart (a ++ t) = a := by
  induction a with
  | nil =>
    rcases ht with rfl | h
    · rfl
    · cases t with
      | nil => rfl
      | cons c cs =>
        have hc : c = ':' := h
        simp [hostPart, hc]
  | cons c cs ih =>
    have hc : c ≠ ':' := fun e => ha (by simp [e])
    have hcs : ':' ∉ cs := fun e => ha (by simp [e])
    have := ih hcs
    simp only [hostPart] at this
    simp [hostPart, List.takeWhile_cons, hc, this]

theorem cstr_eq_self (s : List Char) (h : ∀ c ∈ s, c.toNat ≠ 0) : cstr s = s := by
  induction s with
  | nil => rfl
  | cons c cs ih =>
    have hc : c.toNat ≠ 0 := h c (by simp)
    have := ih (fun x hx => h x (by simp [hx]))
    simp only [cstr] at this
    simp [cstr, List.takeWhile_cons, hc, this]

theorem mem_dotted (runs : List (List Char)) (c : Char) (hc : c ∈ dotted runs) :
    c = '.' ∨ ∃ r ∈ runs, c ∈ r := by
  induction runs with
  | nil => simp [dotted] at hc
  | cons r rs ih =>
    cases rs with
    | nil =>
      rw [dotted] at hc
      exact Or.inr ⟨r, by simp, hc⟩
    | cons r2 rs2 =>
      rw [dotted] at hc
      rcases List.mem_append.1 hc with h | h
      · exact Or.inr ⟨r, by simp, h⟩
      · rcases List.mem_cons.1 h with h | h
        · exact Or.inl h
        · rcases ih h with h | ⟨x, hx, hcx⟩
          · exact Or.inl h
          · exact Or.inr ⟨x, by simp [List.mem_cons.1 hx], hcx⟩

theorem digit_facts (c : Char) (h : isDigitC c = true) :
    c ≠ '.' ∧ c ≠ ':' ∧ c.toNat ≠ 0 := by
  refine ⟨digit_ne c '.' h (by decide), digit_ne c ':' h (by decide), ?_⟩
  have := (isDigitC_iff c).1 h
  omega

theorem peek_dotted (r : List Char) (rs : List (List Char)) (t : List Char) (hr : r ≠ []) :
    peek (dotted (r :: rs) ++ t) = peek r := by
  cases r with
  | nil => exact absurd rfl hr
  | cons c cs =>
    cases rs with
    | nil => rfl
    | cons r2 rs2 => rfl

theorem port_text (port : Option (List Char))
    (hport : ∀ P, port = some P → ∀ c ∈ P, isDigitC c = true) :
    (portText port = [] ∨ peek (portText port) = ':') ∧
    ∀ c ∈ portText port, c ≠ '.' ∧ c.toNat ≠ 0 := by
  cases port with
  | none => exact ⟨Or.inl rfl, by simp [portText]⟩
  | some P =>
    refine ⟨Or.inr rfl, ?_⟩
    intro c hc
    rcases List.mem_cons.1 hc with rfl | h
    · exact ⟨by decide, by decide⟩
    · have := digit_facts c (hport P rfl c h)
      exact ⟨this.1, this.2.2⟩

theorem runsOf_shorthand (lead : Bool) (runs : List (List Char)) (port : Option (List Char))
    (hne : runs ≠ [])
    (hruns : ∀ r ∈ runs, r ≠ [] ∧ ∀ c ∈ r, isDigitC c = true)
    (hport : ∀ P, port = some P → ∀ c ∈ P, isDigitC c = true) :
    cstr (shorthand lead runs port) = shorthand lead runs port ∧
    runsOf (shorthand lead runs port) = runs := by
  obtain ⟨ht, htc⟩ := port_text port hport
  generalize htl : portText port = tl at ht htc
  have hsh : shorthand lead runs port = (if lead then ['.'] else []) ++ (dotted runs ++ tl) := by
    rw [shorthand, htl]
  have hdot : ∀ c ∈ dotted runs, c ≠ ':' ∧ c.toNat ≠ 0 := by
    intro c hc
    rcases mem_dotted runs c hc with rfl | ⟨r, hr, hcr⟩
    · exact ⟨by decide, by decide⟩
    · have := digit_facts c ((hruns r hr).2 c hcr)
      exact ⟨this.2.1, this.2.2⟩
  have hcs : cstr (shorthand lead runs port) = shorthand lead runs port := by
    apply cstr_eq_self
    intro c hc
    rw [hsh] at hc
    rcases List.mem_append.1 hc with h | h
    · cases lead with
      | true =>
        have : c = '.' := by simpa using h
        rw [this]; decide
      | false => simp at h
    · rcases List.mem_append.1 h with h | h
      · exact (hdot c h).2
      · exact (htc c h).2
  refine ⟨hcs, ?_⟩
  have hstrip : stripDot (shorthand lead runs port) = dotted runs ++ tl := by
    rw [hsh]
    cases lead with
    | true => rfl
    | false =>
      cases runs with
      | nil => exact absurd rfl hne
      | cons r rs =>
        have hr := hruns r (by simp)
        have hpk : peek (dotted (r :: rs) ++ tl) ≠ '.' := by
          rw [peek_dotted r rs tl hr.1]
          cases r with
          | nil => exact absurd rfl hr.1
          | cons c cs =>
            rw [peek_cons]
            exact (digit_facts c (hr.2 c (by simp))).1
        simp only [Bool.false_eq_true, if_false, List.nil_append]
        rw [stripDot, if_neg hpk]
  rw [runsOf, hcs, hstrip, hostPart_append _ _ (fun h => (hdot ':' h).1 rfl) ht,
    splitDots_dotted runs hne]
  intro r hr hc
  exact (digit_facts '.' ((hruns r hr).2 '.' hc)).1 rfl

theorem UDP_GetAddrFromName_digit (Q : List Char → Int)
    (gethostbyname : List Char → Option Nat) (myAddr : Nat) (hp : Int) (name : List Char)
    (addr : qsockaddr) (hd : isDigitC (peek name) = true) :
    UDP_GetAddrFromName Q gethostbyname myAddr hp name addr
      = PartialIPAddress Q myAddr hp name addr := by
  have h := (isDigitC_iff (peek name)).1 hd
  unfold UDP_GetAddrFromName
  rw [if_pos (by simp; omega)]

theorem strlen_eq (s : List Char) : strlen s = (cstr s).length := rfl

/-- C2: for every own address and every shorthand of `k` runs (1 ≤ k ≤ 4, each run one
to three decimal digits of value at most 255), with or without a leading dot and with
or without `:PORT`, `PartialIPAddress` succeeds and the host it writes consists of the
first `4 - k` bytes of the own address followed by the values of the runs.  The text is
assumed to fit the 256-byte scratch buffer. -/
theorem PartialIPAddress_overlay (Q : List Char → Int) (myAddr : Nat) (hp : Int)
    (lead : Bool) (runs : List (List Char)) (port : Option (List Char))
    (hostaddr : qsockaddr)
    (hk : 1 ≤ runs.length ∧ runs.length ≤ 4)
    (hruns : ∀ r ∈ runs, (1 ≤ r.length ∧ r.length ≤ 3) ∧ (∀ c ∈ r, isDigitC c = true) ∧
      numeralValue r ≤ 255)
    (hport : ∀ P, port = some P → ∀ c ∈ P, isDigitC c = true)
    (hfit : (shorthand lead runs port).length ≤ 254) :
    ∃ a, PartialIPAddress Q myAddr hp (shorthand lead runs port) hostaddr = some (0, a) ∧
      octets a.s_addr = (octets myAddr).take (4 - runs.length) ++ runs.map numeralValue := by
  have hne : runs ≠ [] := by
    intro h
    rw [h] at hk
    exact absurd hk.1 (by decide)
  have hr' : ∀ r ∈ runs, r ≠ [] ∧ ∀ c ∈ r, isDigitC c = true := by
    intro r hr
    refine ⟨?_, (hruns r hr).2.1⟩
    intro h
    have := (hruns r hr).1.1
    rw [h] at this
    exact absurd this (by decide)
  obtain ⟨hcs, hro⟩ := runsOf_shorthand lead runs port hne hr' hport
  have hlen : strlen (shorthand lead runs port) ≤ 254 := by
    rw [strlen_eq, hcs]; exact hfit
  have hgood : ∀ r ∈ runsOf (shorthand lead runs port), GoodRun r := by
    rw [hro]
    intro r hr
    exact ⟨(hruns r hr).2.1, (hruns r hr).1.2, (hruns r hr).2.2⟩
  rw [PartialIPAddress_eq Q myAddr hp _ hostaddr hlen, if_pos hgood]
  refine ⟨_, rfl, ?_⟩
  show octets (((myAddr &&& htonl (toUInt32 (maskFold (-1) (runsOf (shorthand lead runs port)))))
    ||| htonl (toUInt32 (addrFold 0 (runsOf (shorthand lead runs port))))) % 4294967296) = _
  rw [hro]
  have hv : ∀ r ∈ runs, numeralValue r ≤ 255 := fun r hr => (hruns r hr).2.2
  clear hgood hlen hcs hro hr' hfit hport hruns
  match runs, hk, hv with
  | [r1], _, hv => exact overlay_1 myAddr r1 (hv r1 (by simp))
  | [r1, r2], _, hv => exact overlay_2 myAddr r1 r2 (hv r1 (by simp)) (hv r2 (by simp))
  | [r1, r2, r3], _, hv =>
    exact overlay_3 myAddr r1 r2 r3 (hv r1 (by simp)) (hv r2 (by simp)) (hv r3 (by simp))
  | [r1, r2, r3, r4], _, hv =>
    rw [overlay_ge4 myAddr [r1, r2, r3, r4] (by simp) hv]
    rfl
  | [], hk, _ => exact absurd hk.1 (by decide)
  | _ :: _ :: _ :: _ :: _ :: _, hk, _ =>
    have := hk.2
    simp at this

/-- Witness of `PartialIPAddress_overlay`: with own address 10.0.0.5 the shorthands `.7`
and `.1.7:27500` give the hosts 10.0.0.7 and 10.0.1.7. -/
theorem PartialIPAddress_overlay_witness :
    (shorthand true ["7".toList] none = ".7".toList ∧
      ∃ a, PartialIPAddress Q_atoi 83886090 26000 (shorthand true ["7".toList] none)
          ⟨0, 0, 0, []⟩ = some (0, a) ∧
        octets a.s_addr = (octets 83886090).take (4 - ["7".toList].length)
          ++ ["7".toList].map numeralValue) ∧
    (shorthand true ["1".toList, "7".toList] (some "27500".toList) = ".1.7:27500".toList ∧
      ∃ a, PartialIPAddress Q_atoi 83886090 26000
          (shorthand true ["1".toList, "7".toList] (some "27500".toList))
          ⟨0, 0, 0, []⟩ = some (0, a) ∧
        octets a.s_addr = (octets 83886090).take (4 - ["1".toList, "7".toList].length)
          ++ ["1".toList, "7".toList].map numeralValue) ∧
    (octets 83886090).take 3 ++ ["7".toList].map numeralValue = [10, 0, 0, 7] ∧
    (octets 83886090).take 2 ++ ["1".toList, "7".toList].map numeralValue = [10, 0, 1, 7] :=
  ⟨⟨by decide, PartialIPAddress_overlay Q_atoi 83886090 26000 true ["7".toList] none
      ⟨0, 0, 0, []⟩ (by decide) (by decide) (fun _ h => nomatch h) (by decide)⟩,
    ⟨by decide, PartialIPAddress_overlay Q_atoi 83886090 26000 true ["1".toList, "7".toList]
      (some "27500".toList) ⟨0, 0, 0, []⟩ (by decide) (by decide)
      (fun P h => by cases h; decide) (by decide)⟩,
    by decide, by decide⟩

/-- C4 (as stated, refuted): `1.2.3.4.5` has five runs, yet `PartialIPAddress`, reached
through `UDP_GetAddrFromName`, returns 0 on it and writes the address 2.3.4.5 at the
host port. -/
theorem PartialIPAddress_five_runs_accepted :
    (runsOf "1.2.3.4.5".toList).length = 5 ∧
    UDP_GetAddrFromName Q_atoi sampleResolver 83886090 26000 "1.2.3.4.5".toList
      ⟨0, 0, 0, []⟩ = some (0, ⟨2, 36965, 84148994, []⟩) ∧
    octets 84148994 = [2, 3, 4, 5] := by
  decide

/-- C4 (amended): `999.1` is rejected through `UDP_GetAddrFromName` with `-1` and an
unchanged address.  The number of runs is not checked: every shorthand of more than
four runs, each acceptable on its own, that starts with a digit and fits the scratch
buffer is accepted with result 0, and the host written consists of the values of the
last four runs. -/
theorem PartialIPAddress_run_count_unchecked (Q : List Char → Int)
    (gethostbyname : List Char → Option Nat) (myAddr : Nat) (hp : Int)
    (hostaddr : qsockaddr) :
    UDP_GetAddrFromName Q gethostbyname myAddr hp "999.1".toList hostaddr
      = some (-1, hostaddr) ∧
    ∀ inp, strlen inp ≤ 254 → isDigitC (peek inp) = true →
      (∀ r ∈ runsOf inp, GoodRun r) → 4 < (runsOf inp).length →
      ∃ a, UDP_GetAddrFromName Q gethostbyname myAddr hp inp hostaddr = some (0, a) ∧
        octets a.s_addr = ((runsOf inp).map numeralValue).drop ((runsOf inp).length - 4) := by
  refine ⟨?_, ?_⟩
  · rw [UDP_GetAddrFromName_digit _ _ _ _ _ _ (by decide),
      PartialIPAddress_eq _ _ _ _ _ (by decide), if_neg (by decide)]
  · intro inp hfit hd hgood hlen
    rw [UDP_GetAddrFromName_digit _ _ _ _ _ _ hd, PartialIPAddress_eq _ _ _ _ _ hfit,
      if_pos hgood]
    exact ⟨_, rfl, overlay_ge4 myAddr (runsOf inp) (by omega) (fun r hr => (hgood r hr).2.2)⟩

/-- Witness of `PartialIPAddress_run_count_unchecked` at `1.2.3.4.5`. -/
theorem PartialIPAddress_run_count_unchecked_witness :
    ∃ a, UDP_GetAddrFromName Q_atoi sampleResolver 83886090 26000 "1.2.3.4.5".toList
        ⟨0, 0, 0, []⟩ = some (0, a) ∧
      octets a.s_addr = ((runsOf "1.2.3.4.5".toList).map numeralValue).drop
        ((runsOf "1.2.3.4.5".toList).length - 4) :=
  (PartialIPAddress_run_count_unchecked Q_atoi sampleResolver 83886090 26000 ⟨0, 0, 0, []⟩).2
    "1.2.3.4.5".toList (by decide) (by decide) (by decide) (by decide)

/-! ## Opening and closing sockets -/

theorem UDP_OpenSocket_ok (os : OS) (port : Int) (env : OpenEnv)
    (h : (UDP_OpenSocket os port env).1 ≠ -1) :
    UDP_OpenSocket os port env
      = (env.sock,
          { sockets := env.sock :: os.sockets
            bcast := os.bcast
            calls := os.calls ++ [SysCall.socket, SysCall.ioctl_FIONBIO env.sock,
              SysCall.bind env.sock (htons (toUInt16 port))] }) ∧
    env.sock ≠ -1 ∧ env.nbio = true ∧ env.bind = true := by
  unfold UDP_OpenSocket sys_socket sys_ioctl_FIONBIO sys_bind at *
  by_cases hs : env.sock = -1
  · simp [hs] at h
  · cases hn : env.nbio with
    | false => simp [hs, hn] at h
    | true =>
      cases hb : env.bind with
      | false => simp [hs, hn, hb] at h
      | true => simp [hs, hn, hb]

theorem UDP_OpenSocket_success (os : OS) (port : Int) (env : OpenEnv)
    (hs : env.sock ≠ -1) (hn : env.nbio = true) (hb : env.bind = true) :
    UDP_OpenSocket os port env
      = (env.sock,
          { sockets := env.sock :: os.sockets
            bcast := os.bcast
            calls := os.calls ++ [SysCall.socket, SysCall.ioctl_FIONBIO env.sock,
              SysCall.bind env.sock (htons (toUInt16 port))] }) := by
  unfold UDP_OpenSocket sys_socket sys_ioctl_FIONBIO sys_bind
  simp [hs, hn, hb]

theorem UDP_OpenSocket_fail (os : OS) (port : Int) (env : OpenEnv)
    (h : ¬ (env.sock ≠ -1 ∧ env.nbio = true ∧ env.bind = true)) :
    (UDP_OpenSocket os port env).1 = -1 ∧
    (UDP_OpenSocket os port env).2.sockets = os.sockets ∧
    (∀ s ∈ (UDP_OpenSocket os port env).2.bcast, s ∈ os.bcast) := by
  unfold UDP_OpenSocket sys_socket sys_ioctl_FIONBIO sys_bind sys_close
  by_cases hs : env.sock = -1
  · simp [hs]
  · cases hn : env.nbio with
    | false =>
      simp [hs, hn]
      intro s hs' _
      exact hs'
    | true =>
      cases hb : env.bind with
      | false =>
        simp [hs, hn, hb]
        intro s hs' _
        exact hs'
      | true => exact absurd ⟨hs, hn, hb⟩ h

/-- C11: if `UDP_Listen(true)` returns, a second `UDP_Listen(true)` returns at once
with the driver state and the sockets layer unchanged (no system call, no second
socket), the driver is listening, and when it was not listening before exactly one
socket, the accept socket, has been added to the open ones; `UDP_Listen(false)` on a
driver that is not listening changes nothing and issues no system call. -/
theorem UDP_Listen_idempotent (hp : Int) (d : Driver) (os : OS) (env1 env2 : OpenEnv) :
    (∀ d1 os1, UDP_Listen hp d os true env1 = Outcome.ret () d1 os1 →
      UDP_Listen hp d1 os1 true env2 = Outcome.ret () d1 os1 ∧
      d1.net_acceptsocket ≠ -1 ∧
      (d.net_acceptsocket = -1 → os1.sockets = d1.net_acceptsocket :: os.sockets)) ∧
    (d.net_acceptsocket = -1 → UDP_Listen hp d os false env2 = Outcome.ret () d os) := by
  refine ⟨?_, ?_⟩
  · intro d1 os1 h1
    by_cases ha : d.net_acceptsocket = -1
    · have hopen : (UDP_OpenSocket os hp env1).1 ≠ -1 := by
        intro hf
        simp [UDP_Listen, ha, hf] at h1
      obtain ⟨heq, _, _, _⟩ := UDP_OpenSocket_ok os hp env1 hopen
      simp only [UDP_Listen, ha, if_true, heq] at h1 hopen
      simp only [ne_eq, not_true_eq_false, if_false, hopen] at h1
      simp only [Outcome.ret.injEq, true_and] at h1
      obtain ⟨rfl, rfl⟩ := h1
      refine ⟨?_, hopen, fun _ => rfl⟩
      simp [UDP_Listen, hopen]
    · simp only [UDP_Listen, if_true, ne_eq, ha, not_false_eq_true, Outcome.ret.injEq,
        true_and] at h1
      obtain ⟨rfl, rfl⟩ := h1
      exact ⟨by simp [UDP_Listen, ha], ha, fun h => absurd h ha⟩
  · intro ha
    simp [UDP_Listen, ha]

/-- Witness of `UDP_Listen_idempotent`: listening is switched on twice on a driver
with control socket 3; the system hands out descriptor 4. -/
theorem UDP_Listen_idempotent_witness :
    UDP_Listen 26000 { Driver.initial with net_controlsocket := 3 } ⟨[3], [], []⟩ true
        ⟨4, true, true⟩
      = Outcome.ret () { Driver.initial with net_controlsocket := 3, net_acceptsocket := 4 }
          ⟨[4, 3], [], [SysCall.socket, SysCall.ioctl_FIONBIO 4, SysCall.bind 4 36965]⟩ ∧
    UDP_Listen 26000 { Driver.initial with net_controlsocket := 3, net_acceptsocket := 4 }
        ⟨[4, 3], [], [SysCall.socket, SysCall.ioctl_FIONBIO 4, SysCall.bind 4 36965]⟩ true
        ⟨5, true, true⟩
      = Outcome.ret () { Driver.initial with net_controlsocket := 3, net_acceptsocket := 4 }
          ⟨[4, 3], [], [SysCall.socket, SysCall.ioctl_FIONBIO 4, SysCall.bind 4 36965]⟩ :=
  have h1 : UDP_Listen 26000 { Driver.initial with net_controlsocket := 3 } ⟨[3], [], []⟩
      true ⟨4, true, true⟩
      = Outcome.ret () { Driver.initial with net_controlsocket := 3, net_acceptsocket := 4 }
          ⟨[4, 3], [], [SysCall.socket, SysCall.ioctl_FIONBIO 4, SysCall.bind 4 36965]⟩ := by
    decide
  ⟨h1, ((UDP_Listen_idempotent 26000 { Driver.initial with net_controlsocket := 3 }
    ⟨[3], [], []⟩ ⟨4, true, true⟩ ⟨5, true, true⟩).1 _ _ h1).1⟩

theorem UDP_Listen_false_eq (hp : Int) (d : Driver) (os : OS) (env : OpenEnv)
    (h : d.net_acceptsocket ≠ -1) :
    UDP_Listen hp d os false env
      = Outcome.ret ()
          { (UDP_CloseSocket d os d.net_acceptsocket).2.1 with net_acceptsocket := -1 }
          (UDP_CloseSocket d os d.net_acceptsocket).2.2 := by
  simp [UDP_Listen, h]

theorem UDP_Listen_true_eq (hp : Int) (d : Driver) (os : OS) (env : OpenEnv)
    (h : d.net_acceptsocket = -1) (hs : env.sock ≠ -1) (hn : env.nbio = true)
    (hb : env.bind = true) :
    UDP_Listen hp d os true env
      = Outcome.ret () { d with net_acceptsocket := env.sock }
          { sockets := env.sock :: os.sockets
            bcast := os.bcast
            calls := os.calls ++ [SysCall.socket, SysCall.ioctl_FIONBIO env.sock,
              SysCall.bind env.sock (htons (toUInt16 hp))] } := by
  simp [UDP_Listen, h, UDP_OpenSocket_success os hp env hs hn hb, hs]

theorem UDP_Listen_true_fatal (hp : Int) (d : Driver) (os : OS) (env : OpenEnv)
    (h : d.net_acceptsocket = -1)
    (hf : ¬ (env.sock ≠ -1 ∧ env.nbio = true ∧ env.bind = true)) :
    UDP_Listen hp d os true env
      = Outcome.fatal "UDP_Listen: Unable to open accept socket\n" d
          (UDP_OpenSocket os hp env).2 := by
  have h1 := (UDP_OpenSocket_fail os hp env hf).1
  have hd : { d with net_acceptsocket := -1 } = d := by
    cases d
    simp only [Driver.mk.injEq, and_true, true_and] at *
    exact h.symm
  simp [UDP_Listen, h, h1, hd]

theorem ListenInv_step (hp : Int) (base : List Int) (d : Driver) (os : OS) (b : Bool)
    (env : OpenEnv) (d1 : Driver) (os1 : OS) (hinv : ListenInv base d os)
    (h : exec hp d os (Event.listen b env) = some (d1, os1)) :
    ListenInv base d1 os1 ∧ d1.net_controlsocket = d.net_controlsocket := by
  unfold ListenInv at *
  simp only [exec] at h
  by_cases ha : d.net_acceptsocket = -1
  · rw [if_pos ha] at hinv
    cases b with
    | false =>
      simp only [UDP_Listen, ha, Bool.false_eq_true, if_false, if_true, Option.some.injEq,
        Prod.mk.injEq] at h
      obtain ⟨rfl, rfl⟩ := h
      exact ⟨by rw [if_pos ha]; exact hinv, rfl⟩
    | true =>
      by_cases hok : env.sock ≠ -1 ∧ env.nbio = true ∧ env.bind = true
      · rw [UDP_Listen_true_eq hp d os env ha hok.1 hok.2.1 hok.2.2] at h
        simp only [Option.some.injEq, Prod.mk.injEq] at h
        obtain ⟨rfl, rfl⟩ := h
        simp [hok.1, hinv]
      · rw [UDP_Listen_true_fatal hp d os env ha hok] at h
        simp at h
  · rw [if_neg ha] at hinv
    cases b with
    | true =>
      simp only [UDP_Listen, if_true, ne_eq, ha, not_false_eq_true, Option.some.injEq,
        Prod.mk.injEq] at h
      obtain ⟨rfl, rfl⟩ := h
      exact ⟨by rw [if_neg ha]; exact hinv, rfl⟩
    | false =>
      rw [UDP_Listen_false_eq hp d os env ha] at h
      simp only [Option.some.injEq, Prod.mk.injEq] at h
      obtain ⟨rfl, rfl⟩ := h
      refine ⟨?_, ?_⟩
      · simp [UDP_CloseSocket, sys_close, hinv]
      · simp only [UDP_CloseSocket]
        split <;> rfl

theorem ListenInv_run (hp : Int) (base : List Int) (es : List Event)
    (hes : ∀ e ∈ es, e.isListen = true) :
    ∀ (d : Driver) (os : OS) (d1 : Driver) (os1 : OS), ListenInv base d os →
      run hp d os es = some (d1, os1) →
      ListenInv base d1 os1 ∧ d1.net_controlsocket = d.net_controlsocket := by
  induction es with
  | nil =>
    intro d os d1 os1 hinv h
    simp only [run, Option.some.injEq, Prod.mk.injEq] at h
    obtain ⟨rfl, rfl⟩ := h
    exact ⟨hinv, rfl⟩
  | cons e es ih =>
    intro d os d1 os1 hinv h
    obtain ⟨b, env, rfl⟩ : ∃ b env, e = Event.listen b env := by
      have := hes e (by simp)
      cases e <;> simp [Event.isListen] at this
      exact ⟨_, _, rfl⟩
    simp only [run] at h
    cases hx : exec hp d os (Event.listen b env) with
    | none => rw [hx] at h; simp at h
    | some p =>
      obtain ⟨d2, os2⟩ := p
      rw [hx] at h
      obtain ⟨hinv2, hc2⟩ := ListenInv_step hp base d os b env d2 os2 hinv hx
      obtain ⟨hinv1, hc1⟩ := ih (fun e he => hes e (by simp [he])) d2 os2 d1 os1 hinv2 h
      exact ⟨hinv1, hc1.trans hc2⟩

/-- C12: on a listening driver `UDP_Listen(false)` closes the accept socket through
`UDP_CloseSocket` (so the broadcast identity is cleared when the accept socket holds
it), sets `net_acceptsocket` to `-1` and leaves the control socket alone.  After any
sequence of `UDP_Listen` calls from a driver that is not listening, the open sockets
are those open at the start when the driver is not listening, and those plus the
accept socket when it is. -/
theorem UDP_Listen_accept_socket (hp : Int) (d : Driver) (os : OS) (env : OpenEnv) :
    (d.net_acceptsocket ≠ -1 →
      ∃ d1 os1, UDP_Listen hp d os false env = Outcome.ret () d1 os1 ∧
        os1 = (sys_close os d.net_acceptsocket).2 ∧
        d1.net_acceptsocket = -1 ∧
        d1.net_controlsocket = d.net_controlsocket ∧
        d1.net_broadcastsocket
          = (if d.net_acceptsocket = d.net_broadcastsocket then 0
             else d.net_broadcastsocket)) ∧
    (d.net_acceptsocket = -1 → ∀ (es : List Event) (d1 : Driver) (os1 : OS),
      (∀ e ∈ es, e.isListen = true) →
      run hp d os es = some (d1, os1) →
      os1.sockets = (if d1.net_acceptsocket = -1 then os.sockets
        else d1.net_acceptsocket :: os.sockets) ∧
      d1.net_controlsocket = d.net_controlsocket) := by
  refine ⟨?_, ?_⟩
  · intro ha
    refine ⟨_, _, UDP_Listen_false_eq hp d os env ha, rfl, rfl, ?_, ?_⟩
    · simp only [UDP_CloseSocket]
      split <;> rfl
    · simp only [UDP_CloseSocket]
      split <;> rfl
  · intro ha es d1 os1 hes hrun
    have hinv : ListenInv os.sockets d os := by
      unfold ListenInv
      rw [if_pos ha]
    exact ListenInv_run hp os.sockets es hes d os d1 os1 hinv hrun

/-- Witness of `UDP_Listen_accept_socket`: listen on, off, on again (descriptors 4 and
5), starting with control socket 3 open. -/
theorem UDP_Listen_accept_socket_witness :
    (∃ d1 os1, UDP_Listen 26000
        { Driver.initial with net_controlsocket := 3, net_acceptsocket := 4 }
        ⟨[4, 3], [], []⟩ false ⟨-1, false, false⟩ = Outcome.ret () d1 os1 ∧
        os1 = (sys_close ⟨[4, 3], [], []⟩ 4).2 ∧
        d1.net_acceptsocket = -1 ∧
        d1.net_controlsocket = 3 ∧
        d1.net_broadcastsocket = (if (4 : Int) = 0 then 0 else 0)) ∧
    (∀ d1 os1, run 26000 { Driver.initial with net_controlsocket := 3 } ⟨[3], [], []⟩
        [Event.listen true ⟨4, true, true⟩, Event.listen false ⟨-1, false, false⟩,
          Event.listen true ⟨5, true, true⟩] = some (d1, os1) →
      os1.sockets = (if d1.net_acceptsocket = -1 then [3]
        else d1.net_acceptsocket :: [3]) ∧
      d1.net_controlsocket = 3) ∧
    (run 26000 { Driver.initial with net_controlsocket := 3 } ⟨[3], [], []⟩
        [Event.listen true ⟨4, true, true⟩, Event.listen false ⟨-1, false, false⟩,
          Event.listen true ⟨5, true, true⟩]).map (fun p => (p.1.net_acceptsocket, p.2.sockets))
      = some (5, [5, 3]) :=
  ⟨(UDP_Listen_accept_socket 26000
      { Driver.initial with net_controlsocket := 3, net_acceptsocket := 4 }
      ⟨[4, 3], [], []⟩ ⟨-1, false, false⟩).1 (by decide),
    fun d1 os1 h => (UDP_Listen_accept_socket 26000
      { Driver.initial with net_controlsocket := 3 } ⟨[3], [], []⟩ ⟨-1, false, false⟩).2
      (by decide) _ d1 os1 (by decide) h,
    by decide⟩

/-- C13: on a driver that is not listening, `UDP_Listen(true)` opens a socket and
binds it to `net_hostport`, which becomes the accept socket; when the socket cannot be
created, switched to non-blocking or bound, the call ends in `Sys_Error` instead of
returning, with `net_acceptsocket` still `-1` and no socket left open. -/
theorem UDP_Listen_true_opens (hp : Int) (d : Driver) (os : OS) (env : OpenEnv)
    (h : d.net_acceptsocket = -1) :
    (env.sock ≠ -1 ∧ env.nbio = true ∧ env.bind = true →
      UDP_Listen hp d os true env
        = Outcome.ret () { d with net_acceptsocket := env.sock }
            { sockets := env.sock :: os.sockets
              bcast := os.bcast
              calls := os.calls ++ [SysCall.socket, SysCall.ioctl_FIONBIO env.sock,
                SysCall.bind env.sock (htons (toUInt16 hp))] }) ∧
    (¬ (env.sock ≠ -1 ∧ env.nbio = true ∧ env.bind = true) →
      ∃ os1, UDP_Listen hp d os true env
          = Outcome.fatal "UDP_Listen: Unable to open accept socket\n" d os1 ∧
        d.net_acceptsocket = -1 ∧ os1.sockets = os.sockets) := by
  refine ⟨?_, ?_⟩
  · intro hok
    exact UDP_Listen_true_eq hp d os env h hok.1 hok.2.1 hok.2.2
  · intro hf
    exact ⟨_, UDP_Listen_true_fatal hp d os env h hf, h, (UDP_OpenSocket_fail os hp env hf).2.1⟩

/-- Witness of `UDP_Listen_true_opens`: the bind to port 26000 succeeds, and fails. -/
theorem UDP_Listen_true_opens_witness :
    UDP_Listen 26000 { Driver.initial with net_controlsocket := 3 } ⟨[3], [], []⟩ true
        ⟨4, true, true⟩
      = Outcome.ret () { Driver.initial with net_controlsocket := 3, net_acceptsocket := 4 }
          ⟨[4, 3], [], [SysCall.socket, SysCall.ioctl_FIONBIO 4,
            SysCall.bind 4 (htons (toUInt16 26000))]⟩ ∧
    (∃ os1, UDP_Listen 26000 { Driver.initial with net_controlsocket := 3 } ⟨[3], [], []⟩
          true ⟨4, true, false⟩
        = Outcome.fatal "UDP_Listen: Unable to open accept socket\n"
            { Driver.initial with net_controlsocket := 3 } os1 ∧
        ({ Driver.initial with net_controlsocket := 3 } : Driver).net_acceptsocket = -1 ∧
        os1.sockets = [3]) :=
  ⟨(UDP_Listen_true_opens 26000 { Driver.initial with net_controlsocket := 3 } ⟨[3], [], []⟩
      ⟨4, true, true⟩ rfl).1 (by decide),
    (UDP_Listen_true_opens 26000 { Driver.initial with net_controlsocket := 3 } ⟨[3], [], []⟩
      ⟨4, true, false⟩ rfl).2 (by decide)⟩

/-- C15: `UDP_Read` returns the byte count when `recvfrom` succeeds, 0 when it fails
with `EWOULDBLOCK` or `ECONNREFUSED`, and the negative value `-1` when it fails with
any other error. -/
theorem UDP_Read_result (os : OS) (socket : Int) (r : XferResult) :
    (r.ret ≠ -1 → (UDP_Read os socket r).1 = r.ret) ∧
    (r.ret = -1 → (r.errno = EWOULDBLOCK ∨ r.errno = ECONNREFUSED) →
      (UDP_Read os socket r).1 = 0) ∧
    (r.ret = -1 → r.errno ≠ EWOULDBLOCK → r.errno ≠ ECONNREFUSED →
      (UDP_Read os socket r).1 = -1 ∧ (UDP_Read os socket r).1 < 0) := by
  refine ⟨?_, ?_, ?_⟩
  · intro h
    simp [UDP_Read, h]
  · intro h he
    simp [UDP_Read, h, he]
  · intro h h1 h2
    simp [UDP_Read, h, h1, h2]

/-- Witness of `UDP_Read_result`: 40 bytes received; would-block; connection refused;
another error (errno 9). -/
theorem UDP_Read_result_witness :
    (UDP_Read ⟨[3], [], []⟩ 3 ⟨40, 0⟩).1 = 40 ∧
    (UDP_Read ⟨[3], [], []⟩ 3 ⟨-1, EWOULDBLOCK⟩).1 = 0 ∧
    (UDP_Read ⟨[3], [], []⟩ 3 ⟨-1, ECONNREFUSED⟩).1 = 0 ∧
    ((UDP_Read ⟨[3], [], []⟩ 3 ⟨-1, 9⟩).1 = -1 ∧ (UDP_Read ⟨[3], [], []⟩ 3 ⟨-1, 9⟩).1 < 0) :=
  ⟨(UDP_Read_result ⟨[3], [], []⟩ 3 ⟨40, 0⟩).1 (by decide),
    (UDP_Read_result ⟨[3], [], []⟩ 3 ⟨-1, EWOULDBLOCK⟩).2.1 rfl (Or.inl rfl),
    (UDP_Read_result ⟨[3], [], []⟩ 3 ⟨-1, ECONNREFUSED⟩).2.1 rfl (Or.inr rfl),
    (UDP_Read_result ⟨[3], [], []⟩ 3 ⟨-1, 9⟩).2.2 rfl (by decide) (by decide)⟩

/-- C16: `UDP_Write` returns 0 when `sendto` fails with `EWOULDBLOCK`, the negative
value `-1` when it fails with any other error, and otherwise the number of bytes
sent. -/
theorem UDP_Write_result (os : OS) (socket : Int) (addr : qsockaddr) (r : XferResult) :
    (r.ret = -1 → r.errno = EWOULDBLOCK → (UDP_Write os socket addr r).1 = 0) ∧
    (r.ret = -1 → r.errno ≠ EWOULDBLOCK →
      (UDP_Write os socket addr r).1 = -1 ∧ (UDP_Write os socket addr r).1 < 0) ∧
    (r.ret ≠ -1 → (UDP_Write os socket addr r).1 = r.ret) := by
  refine ⟨?_, ?_, ?_⟩
  · intro h he
    simp [UDP_Write, h, he]
  · intro h he
    simp [UDP_Write, h, he]
  · intro h
    simp [UDP_Write, h]

/-- Witness of `UDP_Write_result`: would-block; connection refused; 40 bytes sent. -/
theorem UDP_Write_result_witness :
    (UDP_Write ⟨[3], [], []⟩ 3 ⟨2, 0, 0, []⟩ ⟨-1, EWOULDBLOCK⟩).1 = 0 ∧
    ((UDP_Write ⟨[3], [], []⟩ 3 ⟨2, 0, 0, []⟩ ⟨-1, ECONNREFUSED⟩).1 = -1 ∧
      (UDP_Write ⟨[3], [], []⟩ 3 ⟨2, 0, 0, []⟩ ⟨-1, ECONNREFUSED⟩).1 < 0) ∧
    (UDP_Write ⟨[3], [], []⟩ 3 ⟨2, 0, 0, []⟩ ⟨40, 0⟩).1 = 40 :=
  ⟨(UDP_Write_result ⟨[3], [], []⟩ 3 ⟨2, 0, 0, []⟩ ⟨-1, EWOULDBLOCK⟩).1 rfl rfl,
    (UDP_Write_result ⟨[3], [], []⟩ 3 ⟨2, 0, 0, []⟩ ⟨-1, ECONNREFUSED⟩).2.1 rfl (by decide),
    (UDP_Write_result ⟨[3], [], []⟩ 3 ⟨2, 0, 0, []⟩ ⟨40, 0⟩).2.2 (by decide)⟩

/-- C17: when socket `A` holds the broadcast identity, `UDP_Broadcast` on another socket
`B` ends in `Sys_Error`: it does not return, no system call is made (nothing is sent,
`B` is not broadcast-enabled) and the identity is still `A`. -/
theorem UDP_Broadcast_second_socket (d : Driver) (os : OS) (A B : Int) (optOk : Bool)
    (send : XferResult) (hA : d.net_broadcastsocket = A) (hA0 : A ≠ 0) (hB : B ≠ A) :
    UDP_Broadcast d os B optOk send
      = Outcome.fatal "Attempted to use multiple broadcasts sockets\n" d os ∧
    d.net_broadcastsocket = A := by
  refine ⟨?_, hA⟩
  simp [UDP_Broadcast, hA, hA0, hB]

/-- Witness of `UDP_Broadcast_second_socket`: socket 4 holds the identity, socket 5
tries to broadcast. -/
theorem UDP_Broadcast_second_socket_witness :
    UDP_Broadcast { Driver.initial with net_broadcastsocket := 4 } ⟨[5, 4], [4], []⟩ 5 true
        ⟨40, 0⟩
      = Outcome.fatal "Attempted to use multiple broadcasts sockets\n"
          { Driver.initial with net_broadcastsocket := 4 } ⟨[5, 4], [4], []⟩ ∧
    ({ Driver.initial with net_broadcastsocket := 4 } : Driver).net_broadcastsocket = 4 :=
  UDP_Broadcast_second_socket { Driver.initial with net_broadcastsocket := 4 }
    ⟨[5, 4], [4], []⟩ 4 5 true ⟨40, 0⟩ rfl (by decide) (by decide)

/-- C19: `UDP_CloseSocket(h)` sets the broadcast identity to 0 when `h` holds it and
leaves it alone when another socket holds it; `net_acceptsocket` and
`net_controlsocket` are never changed. -/
theorem UDP_CloseSocket_identity (d : Driver) (os : OS) (h : Int) :
    (h = d.net_broadcastsocket → (UDP_CloseSocket d os h).2.1.net_broadcastsocket = 0) ∧
    (h ≠ d.net_broadcastsocket →
      (UDP_CloseSocket d os h).2.1.net_broadcastsocket = d.net_broadcastsocket) ∧
    (UDP_CloseSocket d os h).2.1.net_acceptsocket = d.net_acceptsocket ∧
    (UDP_CloseSocket d os h).2.1.net_controlsocket = d.net_controlsocket := by
  refine ⟨?_, ?_, ?_, ?_⟩
  · intro hh
    simp [UDP_CloseSocket, hh]
  · intro hh
    simp [UDP_CloseSocket, hh]
  · simp only [UDP_CloseSocket]
    split <;> rfl
  · simp only [UDP_CloseSocket]
    split <;> rfl

/-- Witness of `UDP_CloseSocket_identity`: socket 4 holds the identity; closing 4 clears
it, closing 5 does not. -/
theorem UDP_CloseSocket_identity_witness :
    (UDP_CloseSocket { Driver.initial with net_broadcastsocket := 4 } ⟨[5, 4], [4], []⟩
      4).2.1.net_broadcastsocket = 0 ∧
    (UDP_CloseSocket { Driver.initial with net_broadcastsocket := 4 } ⟨[5, 4], [4], []⟩
      5).2.1.net_broadcastsocket = 4 :=
  ⟨(UDP_CloseSocket_identity { Driver.initial with net_broadcastsocket := 4 }
      ⟨[5, 4], [4], []⟩ 4).1 rfl,
    (UDP_CloseSocket_identity { Driver.initial with net_broadcastsocket := 4 }
      ⟨[5, 4], [4], []⟩ 5).2.1 (by decide)⟩

/-! ## Broadcast -/

theorem UDP_Broadcast_holder (d : Driver) (os : OS) (h : Int) (optOk : Bool)
    (send : XferResult) (hh : d.net_broadcastsocket = h) :
    UDP_Broadcast d os h optOk send
      = Outcome.ret (UDP_Write os h d.broadcastaddr send).1 d
          (UDP_Write os h d.broadcastaddr send).2 := by
  simp [UDP_Broadcast, hh]

theorem UDP_Broadcast_enable (d : Driver) (os : OS) (h : Int) (send : XferResult)
    (h0 : d.net_broadcastsocket = 0) (hh : h ≠ 0) (hopen : h ∈ os.sockets) :
    UDP_Broadcast d os h true send
      = Outcome.ret
          (UDP_Write { os with
            bcast := h :: os.bcast
            calls := os.calls ++ [SysCall.setsockopt_SO_BROADCAST h] } h d.broadcastaddr
            send).1
          { d with net_broadcastsocket := h }
          (UDP_Write { os with
            bcast := h :: os.bcast
            calls := os.calls ++ [SysCall.setsockopt_SO_BROADCAST h] } h d.broadcastaddr
            send).2 := by
  simp [UDP_Broadcast, h0, hh, sys_setsockopt_SO_BROADCAST, hopen]

theorem UDP_Broadcast_enable_fail (d : Driver) (os : OS) (h : Int) (optOk : Bool)
    (send : XferResult) (h0 : d.net_broadcastsocket = 0) (hh : h ≠ 0)
    (hf : ¬ (h ∈ os.sockets ∧ optOk = true)) :
    UDP_Broadcast d os h optOk send
      = Outcome.ret (-1) d
          { os with calls := os.calls ++ [SysCall.setsockopt_SO_BROADCAST h] } := by
  simp [UDP_Broadcast, h0, hh, sys_setsockopt_SO_BROADCAST, hf]

theorem GetLocalAddress_frame (d : Driver) (hostname : List Char)
    (gethostname : Option (List Char)) (gethostbyname : List Char → Option Nat) :
    (GetLocalAddress d hostname gethostname gethostbyname).2.1.net_acceptsocket
      = d.net_acceptsocket ∧
    (GetLocalAddress d hostname gethostname gethostbyname).2.1.broadcastaddr
      = d.broadcastaddr ∧
    (GetLocalAddress d hostname gethostname gethostbyname).2.1.net_broadcastsocket
      = d.net_broadcastsocket ∧
    (GetLocalAddress d hostname gethostname gethostbyname).2.1.tcpipAvailable
      = d.tcpipAvailable := by
  unfold GetLocalAddress
  split
  · exact ⟨rfl, rfl, rfl, rfl⟩
  · split
    · exact ⟨rfl, rfl, rfl, rfl⟩
    · exact ⟨rfl, rfl, rfl, rfl⟩

theorem GetLocalAddress_fail (d : Driver) (hostname : List Char)
    (gethostname : Option (List Char)) (gethostbyname : List Char → Option Nat)
    (h : (GetLocalAddress d hostname gethostname gethostbyname).1 = -1) :
    (GetLocalAddress d hostname gethostname gethostbyname).2.1 = d := by
  unfold GetLocalAddress at *
  cases gethostname with
  | none => rfl
  | some b =>
    cases hb : gethostbyname b with
    | none => simp [hb]
    | some a => simp [hb] at h

theorem UDP_Init_success (hp : Int) (d : Driver) (os : OS) (hostname : List Char)
    (gethostname : Option (List Char)) (gethostbyname : List Char → Option Nat)
    (env : OpenEnv) (sockname : Option qsockaddr)
    (hs : env.sock ≠ -1) (hn : env.nbio = true) (hb : env.bind = true) :
    (UDP_Init hp d os false hostname gethostname gethostbyname env sockname).1 = env.sock ∧
    (UDP_Init hp d os false hostname gethostname gethostbyname env sockname).2.1.tcpipAvailable
      = true ∧
    (UDP_Init hp d os false hostname gethostname gethostbyname env sockname).2.1.net_controlsocket
      = env.sock ∧
    (UDP_Init hp d os false hostname gethostname gethostbyname env sockname).2.1.net_acceptsocket
      = d.net_acceptsocket ∧
    (UDP_Init hp d os false hostname gethostname gethostbyname env sockname).2.1.broadcastaddr
      = { d.broadcastaddr with
          sa_family := AF_INET
          s_addr := INADDR_BROADCAST
          sin_port := htons (toUInt16 hp) } ∧
    (UDP_Init hp d os false hostname gethostname gethostbyname env sockname).2.1.myAddr
      = (GetLocalAddress d hostname gethostname gethostbyname).2.1.myAddr ∧
    (UDP_Init hp d os false hostname gethostname gethostbyname env sockname).2.1.net_broadcastsocket
      = d.net_broadcastsocket := by
  obtain ⟨hg1, hg2, hg3, _⟩ := GetLocalAddress_frame d hostname gethostname gethostbyname
  unfold UDP_Init
  rw [if_neg (by decide), UDP_OpenSocket_success _ 0 env hs hn hb]
  refine ⟨?_, ?_, ?_, ?_, ?_, ?_, ?_⟩
  · show Prod.fst (if env.sock = -1 then _ else _) = _
    rw [if_neg hs]
  · show Driver.tcpipAvailable (Prod.fst (Prod.snd (if env.sock = -1 then _ else _))) = _
    rw [if_neg hs]
  · show Driver.net_controlsocket (Prod.fst (Prod.snd (if env.sock = -1 then _ else _))) = _
    rw [if_neg hs]
  · show Driver.net_acceptsocket (Prod.fst (Prod.snd (if env.sock = -1 then _ else _))) = _
    rw [if_neg hs]
    exact hg1
  · show Driver.broadcastaddr (Prod.fst (Prod.snd (if env.sock = -1 then _ else _))) = _
    rw [if_neg hs, ← hg2]
  · show Driver.myAddr (Prod.fst (Prod.snd (if env.sock = -1 then _ else _))) = _
    rw [if_neg hs]
  · show Driver.net_broadcastsocket (Prod.fst (Prod.snd (if env.sock = -1 then _ else _))) = _
    rw [if_neg hs]
    exact hg3

theorem UDP_Init_fail (hp : Int) (d : Driver) (os : OS) (hostname : List Char)
    (gethostname : Option (List Char)) (gethostbyname : List Char → Option Nat)
    (env : OpenEnv) (sockname : Option qsockaddr)
    (hf : ¬ (env.sock ≠ -1 ∧ env.nbio = true ∧ env.bind = true)) :
    (UDP_Init hp d os false hostname gethostname gethostbyname env sockname).1 = -1 ∧
    (UDP_Init hp d os false hostname gethostname gethostbyname env sockname).2.1.tcpipAvailable
      = d.tcpipAvailable ∧
    (UDP_Init hp d os false hostname gethostname gethostbyname env sockname).2.1.net_acceptsocket
      = d.net_acceptsocket ∧
    (UDP_Init hp d os false hostname gethostname gethostbyname env sockname).2.2.1.sockets
      = os.sockets := by
  obtain ⟨hg1, _, _, hg4⟩ := GetLocalAddress_frame d hostname gethostname gethostbyname
  obtain ⟨h1, h2, _⟩ := UDP_OpenSocket_fail os 0 env hf
  unfold UDP_Init
  rw [if_neg (by decide)]
  refine ⟨?_, ?_, ?_, ?_⟩
  · show Prod.fst (if (UDP_OpenSocket os 0 env).1 = -1 then _ else _) = _
    rw [if_pos h1]
  · show Driver.tcpipAvailable (Prod.fst (Prod.snd
      (if (UDP_OpenSocket os 0 env).1 = -1 then _ else _))) = _
    rw [if_pos h1]
    exact hg4
  · show Driver.net_acceptsocket (Prod.fst (Prod.snd
      (if (UDP_OpenSocket os 0 env).1 = -1 then _ else _))) = _
    rw [if_pos h1]
    exact hg1
  · show OS.sockets (Prod.fst (Prod.snd (Prod.snd
      (if (UDP_OpenSocket os 0 env).1 = -1 then _ else _)))) = _
    rw [if_pos h1]
    exact h2

theorem htonl_broadcast : htonl (255 * 16777216 + 255 * 65536 + 255 * 256 + 255)
    = INADDR_BROADCAST := by decide

theorem toDecimal_255 : toDecimal 255 = ['2', '5', '5'] := by decide

theorem broadcast_text (hp : Int) (z : List Nat) (h0 : 0 ≤ hp) (h1 : hp ≤ 65535) :
    UDP_AddrToString ⟨AF_INET, htons (toUInt16 hp), INADDR_BROADCAST, z⟩
      = "255.255.255.255:".toList ++ toDecimal hp.toNat := by
  have hp' : toUInt16 hp = hp.toNat := by unfold toUInt16; omega
  have hlt : hp.toNat ≤ 65535 := by omega
  rw [hp', UDP_AddrToString_octets _ 255 255 255 255 hp.toNat (by decide) (by decide)
    (by decide) (by decide) hlt htonl_broadcast.symm rfl, toDecimal_255]
  rfl

theorem UDP_Write_os (os : OS) (socket : Int) (addr : qsockaddr) (r : XferResult) :
    (UDP_Write os socket addr r).2
      = { os with calls := os.calls ++ [SysCall.sendto socket addr] } := by
  by_cases h : r.ret = -1 ∧ r.errno = EWOULDBLOCK
  · simp [UDP_Write, h]
  · simp only [UDP_Write]
    rw [if_neg h]

/-- C18, as stated, fails for the handle 0: with socket 0 open and the broadcast identity
unassigned, `UDP_Broadcast` on 0 sends the datagram without a `setsockopt` call, and
socket 0 is not broadcast-enabled afterwards. -/
theorem UDP_Broadcast_zero_not_enabled :
    ∃ os1, UDP_Broadcast Driver.initial ⟨[0], [], []⟩ 0 true ⟨40, 0⟩
        = Outcome.ret 40 Driver.initial os1 ∧
      os1.bcast = [] ∧ SysCall.setsockopt_SO_BROADCAST 0 ∉ os1.calls ∧
      os1.calls = [SysCall.sendto 0 Driver.initial.broadcastaddr] :=
  ⟨⟨[0], [], [SysCall.sendto 0 Driver.initial.broadcastaddr]⟩, by decide, rfl, by decide, rfl⟩

/-- C18 (amended): for every handle `h` other than 0, when no socket holds the
broadcast identity, `UDP_Broadcast` on `h` first calls `setsockopt(SO_BROADCAST)` on
`h`; when the call succeeds `h` is broadcast-enabled and holds the identity before the
datagram is sent, and the result is that of `UDP_Write` to the broadcast address; when
it fails, `-1` is returned, nothing is sent and the identity stays unassigned.  Whenever
`h` holds the identity, the call is `UDP_Write(h, buf, broadcast address)`.  After a
`UDP_Init` that succeeds with a host port in `0..65535`, the broadcast address is
`255.255.255.255` at that port. -/
theorem UDP_Broadcast_contract (hp : Int) (d : Driver) (os : OS) (h : Int) (optOk : Bool)
    (send : XferResult) :
    (d.net_broadcastsocket = 0 → h ≠ 0 → h ∈ os.sockets → optOk = true →
      ∃ os1, os1.sockets = os.sockets ∧ os1.bcast = h :: os.bcast ∧
        os1.calls = os.calls ++ [SysCall.setsockopt_SO_BROADCAST h] ∧
        UDP_Broadcast d os h optOk send
          = Outcome.ret (UDP_Write os1 h d.broadcastaddr send).1
              { d with net_broadcastsocket := h }
              (UDP_Write os1 h d.broadcastaddr send).2) ∧
    (d.net_broadcastsocket = 0 → h ≠ 0 → ¬ (h ∈ os.sockets ∧ optOk = true) →
      UDP_Broadcast d os h optOk send
        = Outcome.ret (-1) d
            { os with calls := os.calls ++ [SysCall.setsockopt_SO_BROADCAST h] }) ∧
    (d.net_broadcastsocket = h →
      UDP_Broadcast d os h optOk send
        = Outcome.ret (UDP_Write os h d.broadcastaddr send).1 d
            (UDP_Write os h d.broadcastaddr send).2) ∧
    (∀ (hostname : List Char) (gethostname : Option (List Char))
        (gethostbyname : List Char → Option Nat) (env : OpenEnv)
        (sockname : Option qsockaddr),
      0 ≤ hp → hp ≤ 65535 →
      (UDP_Init hp d os false hostname gethostname gethostbyname env sockname).1 ≠ -1 →
      (UDP_Init hp d os false hostname gethostname gethostbyname env
        sockname).2.1.broadcastaddr.sa_family = AF_INET ∧
      UDP_AddrToString (UDP_Init hp d os false hostname gethostname gethostbyname env
        sockname).2.1.broadcastaddr
        = "255.255.255.255:".toList ++ toDecimal hp.toNat) := by
  refine ⟨?_, ?_, ?_, ?_⟩
  · intro h0 hh hopen hok
    subst hok
    exact ⟨⟨os.sockets, h :: os.bcast, os.calls ++ [SysCall.setsockopt_SO_BROADCAST h]⟩,
      rfl, rfl, rfl, UDP_Broadcast_enable d os h send h0 hh hopen⟩
  · intro h0 hh hf
    exact UDP_Broadcast_enable_fail d os h optOk send h0 hh hf
  · intro hh
    exact UDP_Broadcast_holder d os h optOk send hh
  · intro hostname gethostname gethostbyname env sockname hp0 hp1 hne
    by_cases hok : env.sock ≠ -1 ∧ env.nbio = true ∧ env.bind = true
    · obtain ⟨_, _, _, _, hb, _⟩ := UDP_Init_success hp d os hostname gethostname
        gethostbyname env sockname hok.1 hok.2.1 hok.2.2
      rw [hb]
      exact ⟨rfl, broadcast_text hp _ hp0 hp1⟩
    · exact absurd (UDP_Init_fail hp d os hostname gethostname gethostbyname env sockname
        hok).1 hne

/-- Witness of `UDP_Broadcast_contract`: socket 5 is open and nobody holds the identity;
enabling succeeds, enabling fails, and socket 5 already holds the identity; the
broadcast address after `UDP_Init` with host port 26000. -/
theorem UDP_Broadcast_contract_witness :
    (∃ os1, os1.sockets = [5, 3] ∧ os1.bcast = [5] ∧
        os1.calls = [SysCall.setsockopt_SO_BROADCAST 5] ∧
        UDP_Broadcast Driver.initial ⟨[5, 3], [], []⟩ 5 true ⟨40, 0⟩
          = Outcome.ret (UDP_Write os1 5 Driver.initial.broadcastaddr ⟨40, 0⟩).1
              { Driver.initial with net_broadcastsocket := 5 }
              (UDP_Write os1 5 Driver.initial.broadcastaddr ⟨40, 0⟩).2) ∧
    UDP_Broadcast Driver.initial ⟨[5, 3], [], []⟩ 5 false ⟨40, 0⟩
      = Outcome.ret (-1) Driver.initial
          ⟨[5, 3], [], [SysCall.setsockopt_SO_BROADCAST 5]⟩ ∧
    UDP_Broadcast { Driver.initial with net_broadcastsocket := 5 } ⟨[5, 3], [5], []⟩ 5 true
        ⟨40, 0⟩
      = Outcome.ret
          (UDP_Write ⟨[5, 3], [5], []⟩ 5 Driver.initial.broadcastaddr ⟨40, 0⟩).1
          { Driver.initial with net_broadcastsocket := 5 }
          (UDP_Write ⟨[5, 3], [5], []⟩ 5 Driver.initial.broadcastaddr ⟨40, 0⟩).2 ∧
    UDP_AddrToString (UDP_Init 26000 Driver.initial ⟨[], [], []⟩ false "UNNAMED".toList
        (some "quake".toList) sampleResolver ⟨3, true, true⟩ none).2.1.broadcastaddr
      = "255.255.255.255:".toList ++ toDecimal 26000 :=
  ⟨(UDP_Broadcast_contract 26000 Driver.initial ⟨[5, 3], [], []⟩ 5 true ⟨40, 0⟩).1 rfl
      (by decide) (by decide) rfl,
    (UDP_Broadcast_contract 26000 Driver.initial ⟨[5, 3], [], []⟩ 5 false ⟨40, 0⟩).2.1 rfl
      (by decide) (by decide),
    (UDP_Broadcast_contract 26000 { Driver.initial with net_broadcastsocket := 5 }
      ⟨[5, 3], [5], []⟩ 5 true ⟨40, 0⟩).2.2.1 rfl,
    ((UDP_Broadcast_contract 26000 Driver.initial ⟨[], [], []⟩ 5 true ⟨40, 0⟩).2.2.2
      "UNNAMED".toList (some "quake".toList) sampleResolver ⟨3, true, true⟩ none
      (by decide) (by decide) (by decide)).2⟩

/-- C28: when the broadcast identity is unassigned (`net_broadcastsocket = 0`),
`UDP_Broadcast` on handle 0 makes no `setsockopt` call, enables nothing and changes no
driver state: it is exactly `UDP_Write` on 0 to the broadcast address.  For every handle
`h` other than 0 in that state it does call `setsockopt(SO_BROADCAST)` on `h` before
anything else; when the call succeeds `h` is broadcast-enabled, the identity is `h`
and the datagram is sent, and when it fails `-1` is returned. -/
theorem UDP_Broadcast_handle_zero (d : Driver) (os : OS) (optOk : Bool) (send : XferResult)
    (h0 : d.net_broadcastsocket = 0) :
    (UDP_Broadcast d os 0 optOk send
        = Outcome.ret (UDP_Write os 0 d.broadcastaddr send).1 d
            (UDP_Write os 0 d.broadcastaddr send).2 ∧
      (UDP_Write os 0 d.broadcastaddr send).2.bcast = os.bcast ∧
      (UDP_Write os 0 d.broadcastaddr send).2.calls
        = os.calls ++ [SysCall.sendto 0 d.broadcastaddr]) ∧
    (∀ h : Int, h ≠ 0 →
      (h ∈ os.sockets ∧ optOk = true →
        ∃ v os1, UDP_Broadcast d os h optOk send
            = Outcome.ret v { d with net_broadcastsocket := h } os1 ∧
          h ∈ os1.bcast ∧
          os1.calls = os.calls ++ [SysCall.setsockopt_SO_BROADCAST h,
            SysCall.sendto h d.broadcastaddr]) ∧
      (¬ (h ∈ os.sockets ∧ optOk = true) →
        UDP_Broadcast d os h optOk send
          = Outcome.ret (-1) d
              { os with calls := os.calls ++ [SysCall.setsockopt_SO_BROADCAST h] })) := by
  refine ⟨⟨UDP_Broadcast_holder d os 0 optOk send h0, ?_, ?_⟩, ?_⟩
  · rw [UDP_Write_os]
  · rw [UDP_Write_os]
  · intro h hh
    refine ⟨?_, ?_⟩
    · rintro ⟨hopen, hok⟩
      subst hok
      refine ⟨_, _, UDP_Broadcast_enable d os h send h0 hh hopen, ?_, ?_⟩
      · rw [UDP_Write_os]
        exact List.mem_cons_self _ _
      · rw [UDP_Write_os]
        exact List.append_assoc _ _ _
    · intro hf
      exact UDP_Broadcast_enable_fail d os h optOk send h0 hh hf

/-- Witness of `UDP_Broadcast_handle_zero`: sockets 0 and 5 are open and the identity is
unassigned; broadcasting on 0 only sends, broadcasting on 5 enables it first. -/
theorem UDP_Broadcast_handle_zero_witness :
    UDP_Broadcast Driver.initial ⟨[5, 0], [], []⟩ 0 true ⟨40, 0⟩
      = Outcome.ret 40 Driver.initial
          ⟨[5, 0], [], [SysCall.sendto 0 Driver.initial.broadcastaddr]⟩ ∧
    (∃ v os1, UDP_Broadcast Driver.initial ⟨[5, 0], [], []⟩ 5 true ⟨40, 0⟩
        = Outcome.ret v { Driver.initial with net_broadcastsocket := 5 } os1 ∧
      5 ∈ os1.bcast ∧
      os1.calls = [] ++ [SysCall.setsockopt_SO_BROADCAST 5,
        SysCall.sendto 5 Driver.initial.broadcastaddr]) :=
  ⟨(UDP_Broadcast_handle_zero Driver.initial ⟨[5, 0], [], []⟩ true ⟨40, 0⟩ rfl).1.1,
    ((UDP_Broadcast_handle_zero Driver.initial ⟨[5, 0], [], []⟩ true ⟨40, 0⟩ rfl).2 5
      (by decide)).1 ⟨by decide, rfl⟩⟩

/-! ## The broadcast-identity invariant -/

theorem BcastInv_congr (d d1 : Driver) (os : OS)
    (h : d1.net_broadcastsocket = d.net_broadcastsocket) (hinv : BcastInv d os) :
    BcastInv d1 os := by
  unfold BcastInv at *
  rw [h]
  exact hinv

theorem BcastInv_close (d : Driver) (os : OS) (s : Int) (hinv : BcastInv d os) :
    BcastInv (UDP_CloseSocket d os s).2.1 (UDP_CloseSocket d os s).2.2 := by
  obtain ⟨h1, h2⟩ := hinv
  by_cases hs : s = d.net_broadcastsocket
  · have hd : (UDP_CloseSocket d os s).2.1.net_broadcastsocket = 0 := by
      simp [UDP_CloseSocket, hs]
    refine ⟨Or.inl hd, ?_⟩
    intro t ht
    exfalso
    by_cases hm : s ∈ os.sockets
    · have hb : (UDP_CloseSocket d os s).2.2.bcast = os.bcast.filter (fun x => x != s) := by
        simp [UDP_CloseSocket, sys_close, hm]
      rw [hb, List.mem_filter] at ht
      have := (h2 t ht.1).1
      have hne : t ≠ s := by simpa using ht.2
      exact hne (this.trans hs.symm)
    · have hb : (UDP_CloseSocket d os s).2.2.bcast = os.bcast := by
        simp [UDP_CloseSocket, sys_close, hm]
      rw [hb] at ht
      obtain ⟨e1, e2, _⟩ := h2 t ht
      exact hm (by rw [hs, ← e1]; exact e2)
  · have hd : (UDP_CloseSocket d os s).2.1.net_broadcastsocket = d.net_broadcastsocket := by
      simp [UDP_CloseSocket, hs]
    by_cases hm : s ∈ os.sockets
    · have hb : (UDP_CloseSocket d os s).2.2.bcast = os.bcast.filter (fun x => x != s) := by
        simp [UDP_CloseSocket, sys_close, hm]
      have hk : (UDP_CloseSocket d os s).2.2.sockets = os.sockets.erase s := by
        simp [UDP_CloseSocket, sys_close, hm]
      rw [BcastInv, hd, hb, hk]
      refine ⟨?_, ?_⟩
      · rcases h1 with h1 | h1
        · exact Or.inl h1
        · exact Or.inr ((List.mem_erase_of_ne (Ne.symm hs)).2 h1)
      · intro t ht
        rw [List.mem_filter] at ht
        obtain ⟨e1, e2, e3⟩ := h2 t ht.1
        have hne : t ≠ s := by simpa using ht.2
        exact ⟨e1, (List.mem_erase_of_ne hne).2 e2, e3⟩
    · have hb : (UDP_CloseSocket d os s).2.2.bcast = os.bcast := by
        simp [UDP_CloseSocket, sys_close, hm]
      have hk : (UDP_CloseSocket d os s).2.2.sockets = os.sockets := by
        simp [UDP_CloseSocket, sys_close, hm]
      rw [BcastInv, hd, hb, hk]
      exact ⟨h1, h2⟩

theorem BcastInv_open (d : Driver) (os : OS) (port : Int) (env : OpenEnv)
    (hinv : BcastInv d os) : BcastInv d (UDP_OpenSocket os port env).2 := by
  obtain ⟨h1, h2⟩ := hinv
  by_cases hok : env.sock ≠ -1 ∧ env.nbio = true ∧ env.bind = true
  · rw [UDP_OpenSocket_success os port env hok.1 hok.2.1 hok.2.2]
    refine ⟨?_, ?_⟩
    · rcases h1 with h1 | h1
      · exact Or.inl h1
      · exact Or.inr (List.mem_cons_of_mem _ h1)
    · intro t ht
      obtain ⟨e1, e2, e3⟩ := h2 t ht
      exact ⟨e1, List.mem_cons_of_mem _ e2, e3⟩
  · obtain ⟨_, hk, hb⟩ := UDP_OpenSocket_fail os port env hok
    unfold BcastInv
    rw [hk]
    exact ⟨h1, fun t ht => h2 t (hb t ht)⟩

theorem BcastInv_listen (hp : Int) (d : Driver) (os : OS) (b : Bool) (env : OpenEnv)
    (d1 : Driver) (os1 : OS) (hinv : BcastInv d os)
    (h : UDP_Listen hp d os b env = Outcome.ret () d1 os1) : BcastInv d1 os1 := by
  by_cases ha : d.net_acceptsocket = -1
  · cases b with
    | false =>
      simp only [UDP_Listen, ha, Bool.false_eq_true, if_false, if_true, Outcome.ret.injEq,
        true_and] at h
      obtain ⟨rfl, rfl⟩ := h
      exact hinv
    | true =>
      by_cases hok : env.sock ≠ -1 ∧ env.nbio = true ∧ env.bind = true
      · have h2 := BcastInv_open d os hp env hinv
        rw [UDP_OpenSocket_success os hp env hok.1 hok.2.1 hok.2.2] at h2
        rw [UDP_Listen_true_eq hp d os env ha hok.1 hok.2.1 hok.2.2] at h
        simp only [Outcome.ret.injEq, true_and] at h
        obtain ⟨rfl, rfl⟩ := h
        exact BcastInv_congr d _ _ rfl h2
      · rw [UDP_Listen_true_fatal hp d os env ha hok] at h
        simp at h
  · cases b with
    | true =>
      simp only [UDP_Listen, if_true, ne_eq, ha, not_false_eq_true, Outcome.ret.injEq,
        true_and] at h
      obtain ⟨rfl, rfl⟩ := h
      exact hinv
    | false =>
      rw [UDP_Listen_false_eq hp d os env ha] at h
      simp only [Outcome.ret.injEq, true_and] at h
      obtain ⟨rfl, rfl⟩ := h
      exact BcastInv_congr _ _ _ rfl (BcastInv_close d os d.net_acceptsocket hinv)

theorem BcastInv_broadcast (d : Driver) (os : OS) (s : Int) (optOk : Bool)
    (send : XferResult) (v : Int) (d1 : Driver) (os1 : OS) (hinv : BcastInv d os)
    (h : UDP_Broadcast d os s optOk send = Outcome.ret v d1 os1) : BcastInv d1 os1 := by
  obtain ⟨h1, h2⟩ := hinv
  by_cases hs : d.net_broadcastsocket = s
  · rw [UDP_Broadcast_holder d os s optOk send hs, UDP_Write_os] at h
    simp only [Outcome.ret.injEq] at h
    obtain ⟨_, rfl, rfl⟩ := h
    exact ⟨h1, h2⟩
  · by_cases h0 : d.net_broadcastsocket = 0
    · have hs0 : s ≠ 0 := fun e => hs (h0.trans e.symm)
      have hnil : os.bcast = [] := by
        cases hb : os.bcast with
        | nil => rfl
        | cons t ts =>
          obtain ⟨e1, _, e3⟩ := h2 t (by rw [hb]; exact List.mem_cons_self _ _)
          exact absurd (e1.trans h0) e3
      by_cases hok : s ∈ os.sockets ∧ optOk = true
      · obtain ⟨hopen, rfl⟩ := hok
        rw [UDP_Broadcast_enable d os s send h0 hs0 hopen, UDP_Write_os] at h
        simp only [Outcome.ret.injEq] at h
        obtain ⟨_, rfl, rfl⟩ := h
        refine ⟨Or.inr hopen, ?_⟩
        intro t ht
        have ht2 : t ∈ s :: os.bcast := ht
        rw [hnil, List.mem_singleton] at ht2
        subst ht2
        exact ⟨rfl, hopen, hs0⟩
      · rw [UDP_Broadcast_enable_fail d os s optOk send h0 hs0 hok] at h
        simp only [Outcome.ret.injEq] at h
        obtain ⟨_, rfl, rfl⟩ := h
        exact ⟨h1, h2⟩
    · have hf : UDP_Broadcast d os s optOk send
          = Outcome.fatal "Attempted to use multiple broadcasts sockets\n" d os := by
        simp [UDP_Broadcast, h0, Ne.symm hs]
      rw [hf] at h
      simp at h

theorem BcastInv_shutdown (hp : Int) (d : Driver) (os : OS) (d1 : Driver) (os1 : OS)
    (hinv : BcastInv d os) (h : UDP_Shutdown hp d os = Outcome.ret () d1 os1) :
    BcastInv d1 os1 := by
  unfold UDP_Shutdown at h
  cases hl : UDP_Listen hp d os false ⟨-1, false, false⟩ with
  | fatal msg d2 os2 =>
    rw [hl] at h
    simp at h
  | ret u d2 os2 =>
    rw [hl] at h
    simp only [Outcome.ret.injEq, true_and] at h
    obtain ⟨rfl, rfl⟩ := h
    exact BcastInv_close d2 os2 _ (BcastInv_listen hp d os false _ d2 os2 hinv hl)

theorem BcastInv_exec (hp : Int) (d : Driver) (os : OS) (e : Event) (d1 : Driver) (os1 : OS)
    (hinv : BcastInv d os) (h : exec hp d os e = some (d1, os1)) : BcastInv d1 os1 := by
  cases e with
  | openSocket port env =>
    simp only [exec, Option.some.injEq, Prod.mk.injEq] at h
    obtain ⟨rfl, rfl⟩ := h
    exact BcastInv_open d os port env hinv
  | closeSocket s =>
    simp only [exec, Option.some.injEq, Prod.mk.injEq] at h
    obtain ⟨rfl, rfl⟩ := h
    exact BcastInv_close d os s hinv
  | listen b env =>
    simp only [exec] at h
    cases hl : UDP_Listen hp d os b env with
    | fatal msg d2 os2 =>
      rw [hl] at h
      simp at h
    | ret u d2 os2 =>
      rw [hl] at h
      simp only [Option.some.injEq, Prod.mk.injEq] at h
      obtain ⟨rfl, rfl⟩ := h
      exact BcastInv_listen hp d os b env d2 os2 hinv hl
  | broadcast s optOk send =>
    simp only [exec] at h
    cases hl : UDP_Broadcast d os s optOk send with
    | fatal msg d2 os2 =>
      rw [hl] at h
      simp at h
    | ret u d2 os2 =>
      rw [hl] at h
      simp only [Option.some.injEq, Prod.mk.injEq] at h
      obtain ⟨rfl, rfl⟩ := h
      exact BcastInv_broadcast d os s optOk send u d2 os2 hinv hl
  | shutdown =>
    simp only [exec] at h
    cases hl : UDP_Shutdown hp d os with
    | fatal msg d2 os2 =>
      rw [hl] at h
      simp at h
    | ret u d2 os2 =>
      rw [hl] at h
      simp only [Option.some.injEq, Prod.mk.injEq] at h
      obtain ⟨rfl, rfl⟩ := h
      exact BcastInv_shutdown hp d os d2 os2 hinv hl

theorem BcastInv_run (hp : Int) (es : List Event) :
    ∀ (d : Driver) (os : OS) (d1 : Driver) (os1 : OS), BcastInv d os →
      run hp d os es = some (d1, os1) → BcastInv d1 os1 := by
  induction es with
  | nil =>
    intro d os d1 os1 hinv h
    simp only [run, Option.some.injEq, Prod.mk.injEq] at h
    obtain ⟨rfl, rfl⟩ := h
    exact hinv
  | cons e es ih =>
    intro d os d1 os1 hinv h
    simp only [run] at h
    cases hx : exec hp d os e with
    | none => rw [hx] at h; simp at h
    | some p =>
      obtain ⟨d2, os2⟩ := p
      rw [hx] at h
      exact ih d2 os2 d1 os1 (BcastInv_exec hp d os e d2 os2 hinv hx) h

/-- C20: in every state reached from a start in which the broadcast identity is
unassigned and no socket is broadcast-enabled (the state at initialisation) by any
sequence of `UDP_OpenSocket`, `UDP_CloseSocket`, `UDP_Listen`, `UDP_Broadcast` and
`UDP_Shutdown` calls, the broadcast identity is 0 or an open socket, every
broadcast-enabled socket is open and holds the identity, and so at most one socket is
broadcast-enabled. -/
theorem broadcast_identity_invariant (hp : Int) (d0 : Driver) (os0 : OS) (es : List Event)
    (d : Driver) (os : OS) (hid : d0.net_broadcastsocket = 0) (hb : os0.bcast = [])
    (hrun : run hp d0 os0 es = some (d, os)) :
    (d.net_broadcastsocket = 0 ∨ d.net_broadcastsocket ∈ os.sockets) ∧
    (∀ s ∈ os.bcast, s ∈ os.sockets ∧ s = d.net_broadcastsocket) ∧
    (∀ s ∈ os.bcast, ∀ t ∈ os.bcast, s = t) := by
  have h0 : BcastInv d0 os0 := by
    refine ⟨Or.inl hid, ?_⟩
    intro s hs
    rw [hb] at hs
    cases hs
  obtain ⟨h1, h2⟩ := BcastInv_run hp es d0 os0 d os h0 hrun
  refine ⟨h1, fun s hs => ⟨(h2 s hs).2.1, (h2 s hs).1⟩, ?_⟩
  intro s hs t ht
  exact (h2 s hs).1.trans (h2 t ht).1.symm

/-- Witness of `broadcast_identity_invariant`: from the initial state, two sockets are
opened, the driver broadcasts on socket 5, listens, closes socket 5 and shuts down; and
the state in the middle of that run, when socket 5 holds the identity. -/
theorem broadcast_identity_invariant_witness :
    run 26000 Driver.initial ⟨[], [], []⟩
        [Event.openSocket 0 ⟨3, true, true⟩, Event.openSocket 0 ⟨5, true, true⟩,
          Event.broadcast 5 true ⟨40, 0⟩, Event.listen true ⟨6, true, true⟩]
      = some ({ Driver.initial with net_broadcastsocket := 5, net_acceptsocket := 6 },
          ⟨[6, 5, 3], [5],
            [SysCall.socket, SysCall.ioctl_FIONBIO 3, SysCall.bind 3 0,
              SysCall.socket, SysCall.ioctl_FIONBIO 5, SysCall.bind 5 0,
              SysCall.setsockopt_SO_BROADCAST 5,
              SysCall.sendto 5 Driver.initial.broadcastaddr,
              SysCall.socket, SysCall.ioctl_FIONBIO 6, SysCall.bind 6 36965]⟩) ∧
    ((5 : Int) = 0 ∨ (5 : Int) ∈ [6, 5, 3]) ∧
    (∀ s ∈ [(5 : Int)], s ∈ [(6 : Int), 5, 3] ∧ s = 5) ∧
    (∀ s ∈ [(5 : Int)], ∀ t ∈ [(5 : Int)], s = t) :=
  have hrun : run 26000 Driver.initial ⟨[], [], []⟩
        [Event.openSocket 0 ⟨3, true, true⟩, Event.openSocket 0 ⟨5, true, true⟩,
          Event.broadcast 5 true ⟨40, 0⟩, Event.listen true ⟨6, true, true⟩]
      = some ({ Driver.initial with net_broadcastsocket := 5, net_acceptsocket := 6 },
          ⟨[6, 5, 3], [5],
            [SysCall.socket, SysCall.ioctl_FIONBIO 3, SysCall.bind 3 0,
              SysCall.socket, SysCall.ioctl_FIONBIO 5, SysCall.bind 5 0,
              SysCall.setsockopt_SO_BROADCAST 5,
              SysCall.sendto 5 Driver.initial.broadcastaddr,
              SysCall.socket, SysCall.ioctl_FIONBIO 6, SysCall.bind 6 36965]⟩) := by
    decide
  ⟨hrun, broadcast_identity_invariant 26000 Driver.initial ⟨[], [], []⟩ _ _ _ rfl rfl hrun⟩

/-! ## Decoding the text of an address -/

theorem digitChar_toNat (d : Nat) (h : d < 10) : (digitChar d).toNat = 48 + d := by
  interval_cases d <;> rfl

theorem isDigitC_digitChar (d : Nat) (h : d < 10) : isDigitC (digitChar d) = true := by
  rw [isDigitC_iff, digitChar_toNat d h]
  omega

theorem digitChar_ne_zero (d : Nat) (h : d < 10) (h1 : 1 ≤ d) : digitChar d ≠ '0' := by
  intro e
  have := digitChar_toNat d h
  rw [e] at this
  have h48 : ('0' : Char).toNat = 48 := rfl
  omega

theorem toDecimal_spec (n : Nat) :
    IsNumeral (toDecimal n) ∧ numeralValue (toDecimal n) = n ∧
      (1 ≤ n → peek (toDecimal n) ≠ '0') := by
  induction n using Nat.strong_induction_on with
  | _ n ih =>
    by_cases hn : n < 10
    · rw [toDecimal_small n hn]
      refine ⟨⟨by simp, ?_, ?_⟩, ?_, ?_⟩
      · intro c hc
        rw [List.mem_singleton] at hc
        rw [hc]
        exact isDigitC_digitChar n hn
      · intro hl
        simp at hl
      · have := digitChar_toNat n hn
        simp only [numeralValue, List.foldl_cons, List.foldl_nil]
        omega
      · intro h1
        rw [peek_cons]
        exact digitChar_ne_zero n hn h1
    · have hlt : n / 10 < n := by omega
      have h1 : 1 ≤ n / 10 := by omega
      have hm : n % 10 < 10 := by omega
      obtain ⟨⟨hne, hd, _⟩, hv, hpk⟩ := ih (n / 10) hlt
      have hpeek : peek (toDecimal (n / 10) ++ [digitChar (n % 10)])
          = peek (toDecimal (n / 10)) := by
        cases hq : toDecimal (n / 10) with
        | nil => exact absurd hq hne
        | cons x xs => rfl
      rw [toDecimal_step n (by omega)]
      refine ⟨⟨by simp, ?_, ?_⟩, ?_, ?_⟩
      · intro c hc
        rw [List.mem_append, List.mem_singleton] at hc
        rcases hc with hc | hc
        · exact hd c hc
        · rw [hc]
          exact isDigitC_digitChar _ hm
      · intro _
        rw [hpeek]
        exact hpk h1
      · rw [numeralValue_snoc, hv, digitChar_toNat _ hm]
        omega
      · intro _
        rw [hpeek]
        exact hpk h1

theorem addr_octets (x : Nat) (h : x < 4294967296) :
    x / 16777216 ≤ 255 ∧ x / 65536 % 256 ≤ 255 ∧ x / 256 % 256 ≤ 255 ∧ x % 256 ≤ 255 ∧
    x = x / 16777216 * 16777216 + x / 65536 % 256 * 65536 + x / 256 % 256 * 256 + x % 256 := by
  refine ⟨by omega, by omega, by omega, by omega, by omega⟩

theorem UDP_AddrToString_canonical (a : qsockaddr) (hh : a.s_addr < 4294967296)
    (hpt : a.sin_port < 65536) :
    ∃ A B C D P : Nat, A ≤ 255 ∧ B ≤ 255 ∧ C ≤ 255 ∧ D ≤ 255 ∧ P ≤ 65535 ∧
      a.s_addr = htonl (A * 16777216 + B * 65536 + C * 256 + D) ∧
      a.sin_port = htons P ∧
      UDP_AddrToString a
        = toDecimal A ++ '.' :: (toDecimal B ++ '.' :: (toDecimal C ++ '.' ::
            (toDecimal D ++ ':' :: toDecimal P))) := by
  have hx := bswap32_lt a.s_addr
  have hy := bswap16_lt a.sin_port
  obtain ⟨hA, hB, hC, hD, hsum⟩ := addr_octets (bswap32 a.s_addr) hx
  have hs : a.s_addr = htonl (bswap32 a.s_addr / 16777216 * 16777216
      + bswap32 a.s_addr / 65536 % 256 * 65536 + bswap32 a.s_addr / 256 % 256 * 256
      + bswap32 a.s_addr % 256) := by
    rw [← hsum]
    exact (bswap32_bswap32 a.s_addr hh).symm
  have hport : a.sin_port = htons (bswap16 a.sin_port) :=
    (bswap16_bswap16 a.sin_port hpt).symm
  have hP : bswap16 a.sin_port ≤ 65535 := by omega
  exact ⟨_, _, _, _, _, hA, hB, hC, hD, hP, hs, hport,
    UDP_AddrToString_octets a _ _ _ _ _ hA hB hC hD hP hs hport⟩

/-- C26: for every INET address `a` (any 32-bit host, any 16-bit port) the text
`UDP_AddrToString a` is canonical (four decimal octets in 0..255 and a decimal port in
0..65535), and `UDP_StringToAddr` applied to it returns 0 and writes an address with the
family, host and port of `a`, which `UDP_AddrCompare` finds equal to `a`; the stale
content of the locals and of the address written to does not matter. -/
theorem UDP_StringToAddr_AddrToString (v : ScanVars) (a addr : qsockaddr)
    (hf : a.sa_family = AF_INET) (hh : a.s_addr < 4294967296) (hpt : a.sin_port < 65536) :
    CanonicalAddr (UDP_AddrToString a) ∧
    (UDP_StringToAddr v (UDP_AddrToString a) addr).1 = 0 ∧
    (UDP_StringToAddr v (UDP_AddrToString a) addr).2.sa_family = a.sa_family ∧
    (UDP_StringToAddr v (UDP_AddrToString a) addr).2.s_addr = a.s_addr ∧
    (UDP_StringToAddr v (UDP_AddrToString a) addr).2.sin_port = a.sin_port ∧
    UDP_AddrCompare (UDP_StringToAddr v (UDP_AddrToString a) addr).2 a = 0 := by
  obtain ⟨A, B, C, D, P, hA, hB, hC, hD, hP, hs, hport, htxt⟩ :=
    UDP_AddrToString_canonical a hh hpt
  obtain ⟨nA, vA, _⟩ := toDecimal_spec A
  obtain ⟨nB, vB, _⟩ := toDecimal_spec B
  obtain ⟨nC, vC, _⟩ := toDecimal_spec C
  obtain ⟨nD, vD, _⟩ := toDecimal_spec D
  obtain ⟨nP, vP, _⟩ := toDecimal_spec P
  have cA : IsNumeral (toDecimal A) ∧ numeralValue (toDecimal A) ≤ 255 := ⟨nA, by rw [vA]; exact hA⟩
  have cB : IsNumeral (toDecimal B) ∧ numeralValue (toDecimal B) ≤ 255 := ⟨nB, by rw [vB]; exact hB⟩
  have cC : IsNumeral (toDecimal C) ∧ numeralValue (toDecimal C) ≤ 255 := ⟨nC, by rw [vC]; exact hC⟩
  have cD : IsNumeral (toDecimal D) ∧ numeralValue (toDecimal D) ≤ 255 := ⟨nD, by rw [vD]; exact hD⟩
  have cP : IsNumeral (toDecimal P) ∧ numeralValue (toDecimal P) ≤ 65535 :=
    ⟨nP, by rw [vP]; exact hP⟩
  have key := UDP_StringToAddr_canonical v addr _ _ _ _ _ cA cB cC cD cP
  rw [vA, vB, vC, vD, vP, ← hs, ← hport, ← htxt] at key
  refine ⟨?_, ?_, ?_, ?_, ?_, ?_⟩
  · rw [htxt]
    exact ⟨_, _, _, _, _, cA, cB, cC, cD, cP, rfl⟩
  · rw [key]
  · rw [key, hf]
  · rw [key]
  · rw [key]
  · rw [key]
    unfold UDP_AddrCompare
    rw [if_neg (by simp [hf]), if_neg (by simp), if_neg (by simp)]

/-- Witness of `UDP_StringToAddr_AddrToString` at `255.255.255.255:26000`, a host with
the top bit set. -/
theorem UDP_StringToAddr_AddrToString_witness :
    CanonicalAddr (UDP_AddrToString ⟨AF_INET, htons 26000, INADDR_BROADCAST, []⟩) ∧
    (UDP_StringToAddr ⟨7, 7, 7, 7, 7⟩
      (UDP_AddrToString ⟨AF_INET, htons 26000, INADDR_BROADCAST, []⟩) ⟨0, 0, 0, []⟩).1 = 0 ∧
    (UDP_StringToAddr ⟨7, 7, 7, 7, 7⟩
      (UDP_AddrToString ⟨AF_INET, htons 26000, INADDR_BROADCAST, []⟩)
      ⟨0, 0, 0, []⟩).2.s_addr = INADDR_BROADCAST ∧
    UDP_AddrCompare (UDP_StringToAddr ⟨7, 7, 7, 7, 7⟩
      (UDP_AddrToString ⟨AF_INET, htons 26000, INADDR_BROADCAST, []⟩) ⟨0, 0, 0, []⟩).2
      ⟨AF_INET, htons 26000, INADDR_BROADCAST, []⟩ = 0 :=
  have h := UDP_StringToAddr_AddrToString ⟨7, 7, 7, 7, 7⟩
    ⟨AF_INET, htons 26000, INADDR_BROADCAST, []⟩ ⟨0, 0, 0, []⟩ rfl (by decide) (by decide)
  ⟨h.1, h.2.1, h.2.2.2.1, h.2.2.2.2.2⟩

/-! ## Shutdown and initialisation -/

/-- C21: the code at the failing input.  With control socket 3 open and the driver not
listening, the first `UDP_Shutdown` closes socket 3; the second one is not a no-op, it
calls `close(3)` again.  When descriptor 3 has been given to a socket opened in
between, the second `UDP_Shutdown` closes that socket. -/
theorem UDP_Shutdown_twice_closes_again :
    UDP_Shutdown 26000 { Driver.initial with net_controlsocket := 3 } ⟨[3], [], []⟩
      = Outcome.ret () { Driver.initial with net_controlsocket := 3 }
          ⟨[], [], [SysCall.close 3]⟩ ∧
    UDP_Shutdown 26000 { Driver.initial with net_controlsocket := 3 }
        ⟨[], [], [SysCall.close 3]⟩
      = Outcome.ret () { Driver.initial with net_controlsocket := 3 }
          ⟨[], [], [SysCall.close 3, SysCall.close 3]⟩ ∧
    run 26000 { Driver.initial with net_controlsocket := 3 } ⟨[3], [], []⟩
        [Event.shutdown, Event.openSocket 27500 ⟨3, true, true⟩, Event.shutdown]
      = some ({ Driver.initial with net_controlsocket := 3 },
          ⟨[], [],
            [SysCall.close 3, SysCall.socket, SysCall.ioctl_FIONBIO 3,
              SysCall.bind 3 (htons 27500), SysCall.close 3]⟩) := by
  decide

/-- C22, as stated, fails: with `-noudp` on the command line `UDP_Init` returns `-1`
without a system call although opening a socket on port 0 would succeed. -/
theorem UDP_Init_noudp_fails :
    UDP_Init 26000 Driver.initial ⟨[], [], []⟩ true "UNNAMED".toList (some "quake".toList)
        sampleResolver ⟨3, true, true⟩ none
      = (-1, Driver.initial, ⟨[], [], []⟩, "UNNAMED".toList) ∧
    (UDP_OpenSocket ⟨[], [], []⟩ 0 ⟨3, true, true⟩).1 = 3 := by
  decide

/-- C22 (amended): with `-noudp` on the command line `UDP_Init` returns `-1` and does
nothing.  Without it, `UDP_Init` fails only if the control socket cannot be opened:
whenever opening a socket on port 0 succeeds it returns the control socket (not `-1`)
and marks the transport available, also when the local host address could not be
resolved, in which case `myAddr` keeps its value (zero at start); and when opening
fails it returns `-1`, leaves `tcpipAvailable` and `net_acceptsocket` as they were and
leaves no socket open. -/
theorem UDP_Init_result (hp : Int) (d : Driver) (os : OS) (hostname : List Char)
    (gethostname : Option (List Char)) (gethostbyname : List Char → Option Nat)
    (env : OpenEnv) (sockname : Option qsockaddr) :
    UDP_Init hp d os true hostname gethostname gethostbyname env sockname
      = (-1, d, os, hostname) ∧
    ((UDP_OpenSocket os 0 env).1 ≠ -1 →
      (UDP_Init hp d os false hostname gethostname gethostbyname env sockname).1
        = (UDP_OpenSocket os 0 env).1 ∧
      (UDP_Init hp d os false hostname gethostname gethostbyname env sockname).1 ≠ -1 ∧
      (UDP_Init hp d os false hostname gethostname gethostbyname env
        sockname).2.1.net_controlsocket = (UDP_OpenSocket os 0 env).1 ∧
      (UDP_Init hp d os false hostname gethostname gethostbyname env
        sockname).2.1.tcpipAvailable = true ∧
      ((GetLocalAddress d hostname gethostname gethostbyname).1 = -1 →
        (UDP_Init hp d os false hostname gethostname gethostbyname env
          sockname).2.1.myAddr = d.myAddr)) ∧
    ((UDP_OpenSocket os 0 env).1 = -1 →
      (UDP_Init hp d os false hostname gethostname gethostbyname env sockname).1 = -1 ∧
      (UDP_Init hp d os false hostname gethostname gethostbyname env
        sockname).2.1.tcpipAvailable = d.tcpipAvailable ∧
      (UDP_Init hp d os false hostname gethostname gethostbyname env
        sockname).2.1.net_acceptsocket = d.net_acceptsocket ∧
      (UDP_Init hp d os false hostname gethostname gethostbyname env
        sockname).2.2.1.sockets = os.sockets) := by
  refine ⟨rfl, ?_, ?_⟩
  · intro hopen
    obtain ⟨he, hs, hn, hb⟩ := UDP_OpenSocket_ok os 0 env hopen
    obtain ⟨r1, r2, r3, _, _, r6, _⟩ := UDP_Init_success hp d os hostname gethostname
      gethostbyname env sockname hs hn hb
    rw [he]
    refine ⟨r1, by rw [r1]; exact hs, r3, r2, ?_⟩
    intro hg
    rw [r6, GetLocalAddress_fail d hostname gethostname gethostbyname hg]
  · intro hfail
    have hf : ¬ (env.sock ≠ -1 ∧ env.nbio = true ∧ env.bind = true) := by
      intro hok
      rw [UDP_OpenSocket_success os 0 env hok.1 hok.2.1 hok.2.2] at hfail
      exact hok.1 hfail
    exact UDP_Init_fail hp d os hostname gethostname gethostbyname env sockname hf

/-- Witness of `UDP_Init_result`: the control socket 3 is opened while the host name
cannot be resolved; and the system refuses to bind. -/
theorem UDP_Init_result_witness :
    ((UDP_Init 26000 Driver.initial ⟨[], [], []⟩ false "UNNAMED".toList
        (some "quake".toList) sampleResolver ⟨3, true, true⟩ none).1
        = (UDP_OpenSocket ⟨[], [], []⟩ 0 ⟨3, true, true⟩).1 ∧
      (UDP_Init 26000 Driver.initial ⟨[], [], []⟩ false "UNNAMED".toList
        (some "quake".toList) sampleResolver ⟨3, true, true⟩ none).1 ≠ -1 ∧
      (UDP_Init 26000 Driver.initial ⟨[], [], []⟩ false "UNNAMED".toList
        (some "quake".toList) sampleResolver ⟨3, true, true⟩ none).2.1.net_controlsocket
        = (UDP_OpenSocket ⟨[], [], []⟩ 0 ⟨3, true, true⟩).1 ∧
      (UDP_Init 26000 Driver.initial ⟨[], [], []⟩ false "UNNAMED".toList
        (some "quake".toList) sampleResolver ⟨3, true, true⟩ none).2.1.tcpipAvailable
        = true ∧
      ((GetLocalAddress Driver.initial "UNNAMED".toList (some "quake".toList)
          sampleResolver).1 = -1 →
        (UDP_Init 26000 Driver.initial ⟨[], [], []⟩ false "UNNAMED".toList
          (some "quake".toList) sampleResolver ⟨3, true, true⟩ none).2.1.myAddr
          = Driver.initial.myAddr)) ∧
    ((UDP_Init 26000 Driver.initial ⟨[], [], []⟩ false "UNNAMED".toList
        (some "quake".toList) sampleResolver ⟨3, true, false⟩ none).1 = -1 ∧
      (UDP_Init 26000 Driver.initial ⟨[], [], []⟩ false "UNNAMED".toList
        (some "quake".toList) sampleResolver ⟨3, true, false⟩ none).2.1.tcpipAvailable
        = Driver.initial.tcpipAvailable ∧
      (UDP_Init 26000 Driver.initial ⟨[], [], []⟩ false "UNNAMED".toList
        (some "quake".toList) sampleResolver ⟨3, true, false⟩ none).2.1.net_acceptsocket
        = Driver.initial.net_acceptsocket ∧
      (UDP_Init 26000 Driver.initial ⟨[], [], []⟩ false "UNNAMED".toList
        (some "quake".toList) sampleResolver ⟨3, true, false⟩ none).2.2.1.sockets
        = ([] : List Int)) :=
  ⟨(UDP_Init_result 26000 Driver.initial ⟨[], [], []⟩ "UNNAMED".toList
      (some "quake".toList) sampleResolver ⟨3, true, true⟩ none).2.1 (by decide),
    (UDP_Init_result 26000 Driver.initial ⟨[], [], []⟩ "UNNAMED".toList
      (some "quake".toList) sampleResolver ⟨3, true, false⟩ none).2.2 (by decide)⟩

/-! ## Names, registry, transient errors, socket address -/

/-- C23: `UDP_GetNameFromAddr` returns 0 for every address and every answer of the
reverse lookup; when the lookup finds a name, that name is written (`Q_strncpy` copies
at most `NET_NAMELEN - 1` characters of it), and otherwise exactly the text
`UDP_AddrToString(addr)` is written, which for an address with a 32-bit host and a
16-bit port is the canonical `H1.H2.H3.H4:PORT`. -/
theorem UDP_GetNameFromAddr_never_fails (NET_NAMELEN : Nat)
    (gethostbyaddr : Nat → Option (List Char)) (addr : qsockaddr) :
    (UDP_GetNameFromAddr NET_NAMELEN gethostbyaddr addr).1 = 0 ∧
    (∀ h_name, gethostbyaddr addr.s_addr = some h_name →
      (UDP_GetNameFromAddr NET_NAMELEN gethostbyaddr addr).2
        = (cstr h_name).take (NET_NAMELEN - 1) ∧
      ((cstr h_name).length < NET_NAMELEN →
        (UDP_GetNameFromAddr NET_NAMELEN gethostbyaddr addr).2 = cstr h_name)) ∧
    (gethostbyaddr addr.s_addr = none →
      (UDP_GetNameFromAddr NET_NAMELEN gethostbyaddr addr).2 = UDP_AddrToString addr ∧
      (addr.s_addr < 4294967296 → addr.sin_port < 65536 →
        CanonicalAddr (UDP_GetNameFromAddr NET_NAMELEN gethostbyaddr addr).2)) := by
  refine ⟨?_, ?_, ?_⟩
  · unfold UDP_GetNameFromAddr
    cases gethostbyaddr addr.s_addr <;> rfl
  · intro h_name hg
    unfold UDP_GetNameFromAddr
    rw [hg]
    refine ⟨rfl, ?_⟩
    intro hlen
    exact List.take_of_length_le (by omega)
  · intro hg
    have e : (UDP_GetNameFromAddr NET_NAMELEN gethostbyaddr addr).2 = UDP_AddrToString addr := by
      unfold UDP_GetNameFromAddr
      rw [hg]
    refine ⟨e, ?_⟩
    intro hh hpt
    rw [e]
    obtain ⟨A, B, C, D, P, hA, hB, hC, hD, hP, _, _, htxt⟩ :=
      UDP_AddrToString_canonical addr hh hpt
    rw [htxt]
    exact ⟨_, _, _, _, _,
      ⟨(toDecimal_spec A).1, by rw [(toDecimal_spec A).2.1]; exact hA⟩,
      ⟨(toDecimal_spec B).1, by rw [(toDecimal_spec B).2.1]; exact hB⟩,
      ⟨(toDecimal_spec C).1, by rw [(toDecimal_spec C).2.1]; exact hC⟩,
      ⟨(toDecimal_spec D).1, by rw [(toDecimal_spec D).2.1]; exact hD⟩,
      ⟨(toDecimal_spec P).1, by rw [(toDecimal_spec P).2.1]; exact hP⟩, rfl⟩

/-- Witness of `UDP_GetNameFromAddr_never_fails`: the address 10.0.0.9:26000 with a
reverse lookup that finds `quake.example`, and with one that finds nothing. -/
theorem UDP_GetNameFromAddr_never_fails_witness :
    (UDP_GetNameFromAddr 64 (fun _ => some "quake.example".toList)
      ⟨AF_INET, htons 26000, 150994954, []⟩).2 = "quake.example".toList ∧
    (UDP_GetNameFromAddr 64 (fun _ => none) ⟨AF_INET, htons 26000, 150994954, []⟩).2
      = UDP_AddrToString ⟨AF_INET, htons 26000, 150994954, []⟩ ∧
    UDP_AddrToString ⟨AF_INET, htons 26000, 150994954, []⟩ = "10.0.0.9:26000".toList :=
  ⟨((UDP_GetNameFromAddr_never_fails 64 (fun _ => some "quake.example".toList)
      ⟨AF_INET, htons 26000, 150994954, []⟩).2.1 "quake.example".toList rfl).2 (by decide),
    ((UDP_GetNameFromAddr_never_fails 64 (fun _ => none)
      ⟨AF_INET, htons 26000, 150994954, []⟩).2.2 rfl).1,
    by decide⟩

/-- C24: `net_drivers` holds exactly `net_numdrivers = 2` descriptors, named
`Loopback` then `Datagram`; `net_landrivers` holds exactly `net_numlandrivers = 1`
descriptor, named `UDP`; the names within each list are pairwise distinct and every
descriptor starts with `initialized` false. -/
theorem net_registry_fixed :
    net_numdrivers = 2 ∧ (net_drivers.length : Int) = net_numdrivers ∧
    net_drivers.map (fun x => x.name) = ["Loopback", "Datagram"] ∧
    net_numlandrivers = 1 ∧ (net_landrivers.length : Int) = net_numlandrivers ∧
    net_landrivers.map (fun x => x.name) = ["UDP"] ∧
    (net_drivers.map (fun x => x.name)).Nodup ∧
    (net_landrivers.map (fun x => x.name)).Nodup ∧
    net_drivers.map (fun x => x.initialized) = [false, false] ∧
    net_landrivers.map (fun x => x.initialized) = [false] := by
  decide

/-- C25, as stated, fails for `UDP_Write`: a `sendto` that fails with `ECONNREFUSED`
makes `UDP_Write`, and `UDP_Broadcast` on the holder of the identity, return `-1`. -/
theorem UDP_Write_connection_refused_surfaced :
    (UDP_Write ⟨[3], [], []⟩ 3 ⟨2, 0, 0, []⟩ ⟨-1, ECONNREFUSED⟩).1 = -1 ∧
    UDP_Broadcast { Driver.initial with net_broadcastsocket := 3 } ⟨[3], [3], []⟩ 3 true
        ⟨-1, ECONNREFUSED⟩
      = Outcome.ret (-1) { Driver.initial with net_broadcastsocket := 3 }
          ⟨[3], [3], [SysCall.sendto 3 Driver.initial.broadcastaddr]⟩ := by
  decide

/-- C25 (amended): a would-block failure is never surfaced as an error: `UDP_Read`,
`UDP_Write` and `UDP_Broadcast` (on the holder of the identity, or after enabling
broadcast on the first socket) return 0 for it.  A connection-refused failure yields 0
for `UDP_Read`; `UDP_Write`, and so `UDP_Broadcast` in the same two situations, returns
`-1` for it. -/
theorem transient_errors (d : Driver) (os : OS) (socket : Int) (addr : qsockaddr)
    (optOk : Bool) (r : XferResult) (hr : r.ret = -1) :
    ((r.errno = EWOULDBLOCK ∨ r.errno = ECONNREFUSED) → (UDP_Read os socket r).1 = 0) ∧
    (r.errno = EWOULDBLOCK → (UDP_Write os socket addr r).1 = 0) ∧
    (r.errno = EWOULDBLOCK →
      d.net_broadcastsocket = socket ∨
        (d.net_broadcastsocket = 0 ∧ socket ∈ os.sockets ∧ optOk = true) →
      ∃ d1 os1, UDP_Broadcast d os socket optOk r = Outcome.ret 0 d1 os1) ∧
    (r.errno = ECONNREFUSED → (UDP_Write os socket addr r).1 = -1) ∧
    (r.errno = ECONNREFUSED →
      d.net_broadcastsocket = socket ∨
        (d.net_broadcastsocket = 0 ∧ socket ∈ os.sockets ∧ optOk = true) →
      ∃ d1 os1, UDP_Broadcast d os socket optOk r = Outcome.ret (-1) d1 os1) := by
  have hw : ∀ (os : OS) (a : qsockaddr), r.errno = EWOULDBLOCK →
      (UDP_Write os socket a r).1 = 0 := by
    intro os a he
    simp [UDP_Write, hr, he]
  have hc : ∀ (os : OS) (a : qsockaddr), r.errno = ECONNREFUSED →
      (UDP_Write os socket a r).1 = -1 := by
    intro os a he
    have : r.errno ≠ EWOULDBLOCK := by
      rw [he]
      decide
    simp [UDP_Write, hr, this]
  refine ⟨?_, hw os addr, ?_, hc os addr, ?_⟩
  · intro he
    simp [UDP_Read, hr, he]
  · intro he hcase
    by_cases hh : d.net_broadcastsocket = socket
    · rw [UDP_Broadcast_holder d os socket optOk r hh, hw _ _ he]
      exact ⟨_, _, rfl⟩
    · rcases hcase with hcase | ⟨h0, hopen, hok⟩
      · exact absurd hcase hh
      · subst hok
        have hs0 : socket ≠ 0 := fun e => hh (h0.trans e.symm)
        rw [UDP_Broadcast_enable d os socket r h0 hs0 hopen, hw _ _ he]
        exact ⟨_, _, rfl⟩
  · intro he hcase
    by_cases hh : d.net_broadcastsocket = socket
    · rw [UDP_Broadcast_holder d os socket optOk r hh, hc _ _ he]
      exact ⟨_, _, rfl⟩
    · rcases hcase with hcase | ⟨h0, hopen, hok⟩
      · exact absurd hcase hh
      · subst hok
        have hs0 : socket ≠ 0 := fun e => hh (h0.trans e.symm)
        rw [UDP_Broadcast_enable d os socket r h0 hs0 hopen, hc _ _ he]
        exact ⟨_, _, rfl⟩

/-- Witness of `transient_errors`: would-block and connection-refused on socket 3. -/
theorem transient_errors_witness :
    (UDP_Read ⟨[3], [], []⟩ 3 ⟨-1, ECONNREFUSED⟩).1 = 0 ∧
    (UDP_Read ⟨[3], [], []⟩ 3 ⟨-1, EWOULDBLOCK⟩).1 = 0 ∧
    (UDP_Write ⟨[3], [], []⟩ 3 ⟨2, 0, 0, []⟩ ⟨-1, EWOULDBLOCK⟩).1 = 0 ∧
    (∃ d1 os1, UDP_Broadcast Driver.initial ⟨[3], [], []⟩ 3 true ⟨-1, EWOULDBLOCK⟩
      = Outcome.ret 0 d1 os1) ∧
    (UDP_Write ⟨[3], [], []⟩ 3 ⟨2, 0, 0, []⟩ ⟨-1, ECONNREFUSED⟩).1 = -1 ∧
    (∃ d1 os1, UDP_Broadcast Driver.initial ⟨[3], [], []⟩ 3 true ⟨-1, ECONNREFUSED⟩
      = Outcome.ret (-1) d1 os1) :=
  ⟨(transient_errors Driver.initial ⟨[3], [], []⟩ 3 ⟨2, 0, 0, []⟩ true ⟨-1, ECONNREFUSED⟩
      rfl).1 (Or.inr rfl),
    (transient_errors Driver.initial ⟨[3], [], []⟩ 3 ⟨2, 0, 0, []⟩ true ⟨-1, EWOULDBLOCK⟩
      rfl).1 (Or.inl rfl),
    (transient_errors Driver.initial ⟨[3], [], []⟩ 3 ⟨2, 0, 0, []⟩ true ⟨-1, EWOULDBLOCK⟩
      rfl).2.1 rfl,
    (transient_errors Driver.initial ⟨[3], [], []⟩ 3 ⟨2, 0, 0, []⟩ true ⟨-1, EWOULDBLOCK⟩
      rfl).2.2.1 rfl (Or.inr ⟨rfl, by decide, rfl⟩),
    (transient_errors Driver.initial ⟨[3], [], []⟩ 3 ⟨2, 0, 0, []⟩ true ⟨-1, ECONNREFUSED⟩
      rfl).2.2.2.1 rfl,
    (transient_errors Driver.initial ⟨[3], [], []⟩ 3 ⟨2, 0, 0, []⟩ true ⟨-1, ECONNREFUSED⟩
      rfl).2.2.2.2 rfl (Or.inr ⟨rfl, by decide, rfl⟩)⟩

/-- C29: `UDP_GetSocketAddr` always returns 0.  The address it reports is the one
`getsockname` stored, except that a host of 0.0.0.0 or 127.0.0.1 is replaced by
`myAddr` (its low 32 bits, which is `myAddr` itself when it is a 32-bit value); every
other host is returned unchanged, and family, port and padding are returned unchanged
in all cases.  When `getsockname` stores nothing the zeroed address is treated the same
way. -/
theorem UDP_GetSocketAddr_result (d : Driver) (os : OS) (socket : Int)
    (sockname : Option qsockaddr) :
    (UDP_GetSocketAddr d os socket sockname).1 = 0 ∧
    (∀ sa, sockname = some sa → sa.s_addr < 4294967296 →
      (UDP_GetSocketAddr d os socket sockname).2.1.sin_port = sa.sin_port ∧
      (UDP_GetSocketAddr d os socket sockname).2.1.sa_family = sa.sa_family ∧
      (UDP_GetSocketAddr d os socket sockname).2.1.sin_zero = sa.sin_zero ∧
      (sa.s_addr = 0 ∨ sa.s_addr = htonl INADDR_LOOPBACK →
        (UDP_GetSocketAddr d os socket sockname).2.1.s_addr = d.myAddr % 4294967296 ∧
        (d.myAddr < 4294967296 →
          (UDP_GetSocketAddr d os socket sockname).2.1.s_addr = d.myAddr)) ∧
      (sa.s_addr ≠ 0 → sa.s_addr ≠ htonl INADDR_LOOPBACK →
        (UDP_GetSocketAddr d os socket sockname).2.1 = sa)) ∧
    (sockname = none →
      (UDP_GetSocketAddr d os socket sockname).2.1
        = ⟨0, 0, d.myAddr % 4294967296, List.replicate 8 0⟩) ∧
    (UDP_GetSocketAddr d os socket sockname).2.2
      = { os with calls := os.calls ++ [SysCall.getsockname socket] } := by
  refine ⟨rfl, ?_, ?_, rfl⟩
  · intro sa hsa hlt
    subst hsa
    have hmod : sa.s_addr % 4294967296 = sa.s_addr := Nat.mod_eq_of_lt hlt
    by_cases hc : sa.s_addr = 0 ∨ sa.s_addr = htonl INADDR_LOOPBACK
    · have e : (UDP_GetSocketAddr d os socket (some sa)).2.1
          = { sa with s_addr := d.myAddr % 4294967296 } := by
        simp only [UDP_GetSocketAddr]
        rw [hmod, if_pos hc]
      rw [e]
      refine ⟨rfl, rfl, rfl, fun _ => ⟨rfl, fun hm => Nat.mod_eq_of_lt hm⟩, ?_⟩
      intro h1 h2
      rcases hc with hc | hc
      · exact absurd hc h1
      · exact absurd hc h2
    · have e : (UDP_GetSocketAddr d os socket (some sa)).2.1 = sa := by
        simp only [UDP_GetSocketAddr]
        rw [hmod, if_neg hc]
      rw [e]
      exact ⟨rfl, rfl, rfl, fun h => absurd h hc, fun _ _ => rfl⟩
  · intro hn
    subst hn
    simp only [UDP_GetSocketAddr]
    rw [if_pos (Or.inl trivial)]

/-- Witness of `UDP_GetSocketAddr_result`: own address 10.0.0.9; a socket bound to
0.0.0.0:26000, one bound to 127.0.0.1:26000 and one bound to 10.0.0.5:26000. -/
theorem UDP_GetSocketAddr_result_witness :
    htonl INADDR_LOOPBACK = 16777343 ∧
    (UDP_GetSocketAddr { Driver.initial with myAddr := 150994954 } ⟨[3], [], []⟩ 3
      (some ⟨AF_INET, htons 26000, 0, []⟩)).2.1.s_addr = 150994954 ∧
    (UDP_GetSocketAddr { Driver.initial with myAddr := 150994954 } ⟨[3], [], []⟩ 3
      (some ⟨AF_INET, htons 26000, 16777343, []⟩)).2.1.s_addr = 150994954 ∧
    (UDP_GetSocketAddr { Driver.initial with myAddr := 150994954 } ⟨[3], [], []⟩ 3
      (some ⟨AF_INET, htons 26000, 83886090, []⟩)).2.1
      = ⟨AF_INET, htons 26000, 83886090, []⟩ :=
  ⟨by decide,
    (((UDP_GetSocketAddr_result { Driver.initial with myAddr := 150994954 } ⟨[3], [], []⟩ 3
      (some ⟨AF_INET, htons 26000, 0, []⟩)).2.1 _ rfl (by decide)).2.2.2.1
        (Or.inl rfl)).2 (by decide),
    (((UDP_GetSocketAddr_result { Driver.initial with myAddr := 150994954 } ⟨[3], [], []⟩ 3
      (some ⟨AF_INET, htons 26000, 16777343, []⟩)).2.1 _ rfl (by decide)).2.2.2.1
        (Or.inr (by decide))).2 (by decide),
    ((UDP_GetSocketAddr_result { Driver.initial with myAddr := 150994954 } ⟨[3], [], []⟩ 3
      (some ⟨AF_INET, htons 26000, 83886090, []⟩)).2.1 _ rfl (by decide)).2.2.2.2
        (by decide) (by decide)⟩

/-! ## Shorthands without explicit octets -/

theorem overlay_general (m : Nat) (rs : List (List Char)) (hne : rs ≠ [])
    (hv : ∀ r ∈ rs, numeralValue r ≤ 255) :
    (octets (((m &&& htonl (toUInt32 (maskFold (-1) rs)))
        ||| htonl (toUInt32 (addrFold 0 rs))) % 4294967296)).drop (4 - rs.length)
      = (rs.map numeralValue).drop (rs.length - 4) := by
  match rs, hne, hv with
  | [r1], _, hv =>
    rw [overlay_1 m r1 (hv r1 (by simp))]
    rfl
  | [r1, r2], _, hv =>
    rw [overlay_2 m r1 r2 (hv r1 (by simp)) (hv r2 (by simp))]
    rfl
  | [r1, r2, r3], _, hv =>
    rw [overlay_3 m r1 r2 r3 (hv r1 (by simp)) (hv r2 (by simp)) (hv r3 (by simp))]
    rfl
  | r1 :: r2 :: r3 :: r4 :: rest, _, hv =>
    rw [overlay_ge4 m (r1 :: r2 :: r3 :: r4 :: rest) (by simp) hv]
    have : 4 - (r1 :: r2 :: r3 :: r4 :: rest).length = 0 := by simp
    rw [this, List.drop_zero]
  | [], hne, _ => exact absurd rfl hne

theorem runsOf_nil : runsOf [] = [[]] := by decide

theorem cstr_colon (P : List Char) : cstr (':' :: P) = ':' :: cstr P := by
  unfold cstr
  rw [List.takeWhile_cons, if_pos (by decide)]

theorem stripDot_colon (X : List Char) : stripDot (':' :: X) = ':' :: X := by
  unfold stripDot
  rw [peek_cons, if_neg (by decide)]

theorem runsOf_colon (P : List Char) : runsOf (':' :: P) = [[]] := by
  unfold runsOf
  rw [cstr_colon, stripDot_colon]
  have : hostPart (':' :: cstr P) = [] := by
    unfold hostPart
    rw [List.takeWhile_cons, if_neg (by decide)]
  rw [this]
  rfl

theorem portPart_colon (X : List Char) : portPart (':' :: X) = ':' :: X := by
  unfold portPart
  rw [List.dropWhile_cons, if_neg (by decide)]

theorem good_empty_run : ∀ r ∈ [([] : List Char)], GoodRun r := by decide

/-- C27: `PartialIPAddress` always takes at least one run and an empty run has the
value 0.  On the empty string and on a bare `:PORT` it returns 0 and writes the own host
address with its last byte (in the order of the dotted notation) replaced by 0, with
the configured port, respectively the port read from `PORT`.  For every accepted input
with `k` runs (`k` is at least 1) the last `min k 4` bytes written are the values of the
last `min k 4` runs, so the own address comes back only when those values equal its
bytes.  The text is assumed to fit the 256-byte scratch buffer. -/
theorem PartialIPAddress_empty_run (Q : List Char → Int) (myAddr : Nat) (hp : Int)
    (hostaddr : qsockaddr) :
    (∃ a, PartialIPAddress Q myAddr hp [] hostaddr = some (0, a) ∧
      a.sa_family = AF_INET ∧ a.sin_port = htons (toUInt16 hp) ∧
      octets a.s_addr = (octets myAddr).take 3 ++ [0]) ∧
    (∀ P : List Char, strlen (':' :: P) ≤ 254 →
      ∃ a, PartialIPAddress Q myAddr hp (':' :: P) hostaddr = some (0, a) ∧
        a.sa_family = AF_INET ∧ a.sin_port = htons (toUInt16 (Q (cstr P))) ∧
        octets a.s_addr = (octets myAddr).take 3 ++ [0]) ∧
    (∀ (inp : List Char) (a : qsockaddr), strlen inp ≤ 254 →
      PartialIPAddress Q myAddr hp inp hostaddr = some (0, a) →
      1 ≤ (runsOf inp).length ∧
      (octets a.s_addr).drop (4 - (runsOf inp).length)
        = ((runsOf inp).map numeralValue).drop ((runsOf inp).length - 4) ∧
      (octets a.s_addr = octets myAddr →
        (octets myAddr).drop (4 - (runsOf inp).length)
          = ((runsOf inp).map numeralValue).drop ((runsOf inp).length - 4))) := by
  refine ⟨?_, ?_, ?_⟩
  · rw [PartialIPAddress_eq Q myAddr hp [] hostaddr (by decide),
      if_pos (by rw [runsOf_nil]; exact good_empty_run)]
    refine ⟨_, rfl, rfl, rfl, ?_⟩
    show octets (((myAddr &&& htonl (toUInt32 (maskFold (-1) (runsOf []))))
      ||| htonl (toUInt32 (addrFold 0 (runsOf [])))) % 4294967296) = _
    rw [runsOf_nil]
    exact overlay_1 myAddr [] (by decide)
  · intro P hfit
    rw [PartialIPAddress_eq Q myAddr hp (':' :: P) hostaddr hfit,
      if_pos (by rw [runsOf_colon]; exact good_empty_run)]
    refine ⟨_, rfl, rfl, ?_, ?_⟩
    · show htons (toUInt16 (if peek (portPart (stripDot (cstr (':' :: P)))) = ':'
        then Q (portPart (stripDot (cstr (':' :: P)))).tail else hp)) = _
      rw [cstr_colon, stripDot_colon, portPart_colon, peek_cons, if_pos rfl, List.tail_cons]
    · show octets (((myAddr &&& htonl (toUInt32 (maskFold (-1) (runsOf (':' :: P)))))
        ||| htonl (toUInt32 (addrFold 0 (runsOf (':' :: P))))) % 4294967296) = _
      rw [runsOf_colon]
      exact overlay_1 myAddr [] (by decide)
  · intro inp a hfit hacc
    have hne : runsOf inp ≠ [] := splitDots_ne_nil _
    have hlen : 1 ≤ (runsOf inp).length := List.length_pos.2 hne
    rw [PartialIPAddress_eq Q myAddr hp inp hostaddr hfit] at hacc
    by_cases hg : ∀ r ∈ runsOf inp, GoodRun r
    · rw [if_pos hg] at hacc
      simp only [Option.some.injEq, Prod.mk.injEq, true_and] at hacc
      subst hacc
      have key := overlay_general myAddr (runsOf inp) hne (fun r hr => (hg r hr).2.2)
      refine ⟨hlen, key, ?_⟩
      intro he
      rw [← he]
      exact key
    · rw [if_neg hg] at hacc
      simp at hacc

/-- Witness of `PartialIPAddress_empty_run`: own address 10.0.0.5 and host port 26000;
the empty string gives 10.0.0.0:26000 and `:27500` gives 10.0.0.0:27500. -/
theorem PartialIPAddress_empty_run_witness :
    PartialIPAddress Q_atoi 83886090 26000 [] ⟨0, 0, 0, []⟩
      = some (0, ⟨AF_INET, htons 26000, 10, []⟩) ∧
    UDP_AddrToString ⟨AF_INET, htons 26000, 10, []⟩ = "10.0.0.0:26000".toList ∧
    (∃ a, PartialIPAddress Q_atoi 83886090 26000 ":27500".toList ⟨0, 0, 0, []⟩ = some (0, a) ∧
      a.sa_family = AF_INET ∧ a.sin_port = htons (toUInt16 (Q_atoi (cstr "27500".toList))) ∧
      octets a.s_addr = (octets 83886090).take 3 ++ [0]) ∧
    (1 ≤ (runsOf []).length ∧
      (octets 10).drop (4 - (runsOf []).length)
        = ((runsOf []).map numeralValue).drop ((runsOf []).length - 4)) :=
  have hacc : PartialIPAddress Q_atoi 83886090 26000 [] ⟨0, 0, 0, []⟩
      = some (0, ⟨AF_INET, htons 26000, 10, []⟩) := by decide
  have h := PartialIPAddress_empty_run Q_atoi 83886090 26000 ⟨0, 0, 0, []⟩
  have h3 := h.2.2 [] ⟨AF_INET, htons 26000, 10, []⟩ (by decide) hacc
  ⟨hacc, by decide, h.2.1 "27500".toList (by decide), h3.1, h3.2.1⟩

/-! ## The audio ring buffer -/

theorem memcpy_src_nat (buf : List Nat) (off n : Int) (o k : Nat) (ho : off = o) (hk : n = k)
    (h : o + k ≤ buf.length) :
    memcpy_src buf off n = some ((buf.drop o).take k) := by
  subst ho hk
  unfold memcpy_src
  rw [if_pos ⟨by omega, by omega, by omega⟩]
  rfl

theorem ring_mod_wrap (a S : Nat) (h1 : S ≤ a) (h2 : a < 2 * S) : a % S = a - S := by
  rw [Nat.mod_eq_sub_mod h1, Nat.mod_eq_of_lt (by omega)]

theorem SNDDMA_AudioCallback_wrap (buf stream : List Nat) (p n : Nat)
    (hp : p < buf.length) (hn : n ≤ buf.length) (hst : n ≤ stream.length)
    (hw : buf.length < p + n) :
    SNDDMA_AudioCallback ⟨true, some buf, buf.length, p⟩ stream n
      = some ((buf.drop p).take (buf.length - p) ++ (buf.drop 0).take (p + n - buf.length)
            ++ stream.drop n,
          ⟨true, some buf, buf.length, ((p + n - buf.length : Nat) : Int)⟩) := by
  have e1 : ((buf.length : Int) - (p : Int)) = ((buf.length - p : Nat) : Int) := by omega
  have e2 : ((n : Int) - ((buf.length : Int) - (p : Int)))
      = ((p + n - buf.length : Nat) : Int) := by omega
  have m1 := memcpy_src_nat buf (p : Int) ((buf.length : Int) - (p : Int)) p (buf.length - p)
    rfl e1 (by omega)
  have m2 := memcpy_src_nat buf 0 ((n : Int) - ((buf.length : Int) - (p : Int))) 0
    (p + n - buf.length) (by simp) e2 (by omega)
  unfold SNDDMA_AudioCallback
  rw [if_neg (by omega)]
  simp only []
  rw [if_pos (by omega), m1, m2]
  simp only [Int.toNat_ofNat, e2]

theorem SNDDMA_AudioCallback_straight (buf stream : List Nat) (p n : Nat)
    (hst : n ≤ stream.length) (hw : p + n ≤ buf.length) :
    SNDDMA_AudioCallback ⟨true, some buf, buf.length, p⟩ stream n
      = some ((buf.drop p).take n ++ stream.drop n,
          ⟨true, some buf, buf.length, (((p + n) % buf.length : Nat) : Int)⟩) := by
  have m1 := memcpy_src_nat buf (p : Int) (n : Int) p n rfl rfl hw
  unfold SNDDMA_AudioCallback
  rw [if_neg (by omega)]
  simp only []
  rw [if_neg (by omega), m1]
  simp only [Int.toNat_ofNat]
  by_cases he : p + n = buf.length
  · rw [if_pos (by omega), he, Nat.mod_self]
    rfl
  · rw [if_neg (by omega), Nat.mod_eq_of_lt (by omega)]
    rfl

theorem SNDDMA_AudioCallback_nat (buf stream : List Nat) (p n : Nat)
    (hp : p < buf.length) (hn : n ≤ buf.length) (hst : n ≤ stream.length) :
    ∃ out, SNDDMA_AudioCallback ⟨true, some buf, buf.length, p⟩ stream n
        = some (out, ⟨true, some buf, buf.length, (((p + n) % buf.length : Nat) : Int)⟩) ∧
      out.length = stream.length ∧
      (∀ i, i < n → out[i]? = buf[(p + i) % buf.length]?) ∧
      (∀ i, n ≤ i → out[i]? = stream[i]?) := by
  by_cases hw : buf.length < p + n
  · refine ⟨(buf.drop p).take (buf.length - p) ++ (buf.drop 0).take (p + n - buf.length)
      ++ stream.drop n, ?_, ?_, ?_, ?_⟩
    · rw [SNDDMA_AudioCallback_wrap buf stream p n hp hn hst hw,
        ring_mod_wrap (p + n) buf.length (by omega) (by omega)]
    · simp only [List.length_append, List.length_take, List.length_drop]
      omega
    · intro i hi
      have hl1 : ((buf.drop p).take (buf.length - p)).length = buf.length - p := by
        simp only [List.length_take, List.length_drop]
        omega
      have hl2 : ((buf.drop 0).take (p + n - buf.length)).length = p + n - buf.length := by
        simp only [List.length_take, List.length_drop]
        omega
      rw [List.append_assoc]
      by_cases hi1 : i < buf.length - p
      · rw [List.getElem?_append_left (by rw [hl1]; exact hi1),
          List.getElem?_take_of_lt hi1, List.getElem?_drop,
          Nat.mod_eq_of_lt (by omega)]
      · rw [List.getElem?_append_right (by rw [hl1]; omega), hl1,
          List.getElem?_append_left (by rw [hl2]; omega),
          List.getElem?_take_of_lt (by omega), List.getElem?_drop,
          ring_mod_wrap (p + i) buf.length (by omega) (by omega)]
        congr 1
        omega
    · intro i hi
      have hl : ((buf.drop p).take (buf.length - p)
          ++ (buf.drop 0).take (p + n - buf.length)).length = n := by
        simp only [List.length_append, List.length_take, List.length_drop]
        omega
      rw [List.getElem?_append_right (by rw [hl]; exact hi), hl, List.getElem?_drop]
      congr 1
      omega
  · refine ⟨_, SNDDMA_AudioCallback_straight buf stream p n hst (by omega), ?_, ?_, ?_⟩
    · simp only [List.length_append, List.length_take, List.length_drop]
      omega
    · intro i hi
      have hl : ((buf.drop p).take n).length = n := by
        simp only [List.length_take, List.length_drop]
        omega
      rw [List.getElem?_append_left (by rw [hl]; exact hi), List.getElem?_take_of_lt hi,
        List.getElem?_drop, Nat.mod_eq_of_lt (by omega)]
    · intro i hi
      have hl : ((buf.drop p).take n).length = n := by
        simp only [List.length_take, List.length_drop]
        omega
      rw [List.getElem?_append_right (by rw [hl]; exact hi), hl, List.getElem?_drop]
      congr 1
      omega

/-- C30: when sound is initialised with a buffer of size `S`, for every read position
`0 ≤ pos < S` and every request length `0 ≤ len ≤ S` (and a `stream` of at least `len`
bytes) `SNDDMA_AudioCallback` returns with every copy inside the buffer, `stream[i]` is
`buffer[(pos + i) mod S]` for every `i < len`, the bytes of `stream` from `len` on are
untouched, and the read position afterwards is `(pos + len) mod S`, which lies in
`0 ≤ dma_pos < S`; nothing else of the state changes. -/
theorem SNDDMA_AudioCallback_ring (s : SndState) (buf stream : List Nat) (len : Int)
    (hi : s.snd_inited = true) (hb : s.dma_buffer = some buf)
    (hS : s.dma_buffer_size = (buf.length : Int))
    (hpos : 0 ≤ s.dma_pos ∧ s.dma_pos < s.dma_buffer_size)
    (hlen : 0 ≤ len ∧ len ≤ s.dma_buffer_size) (hst : len ≤ (stream.length : Int)) :
    ∃ out s1, SNDDMA_AudioCallback s stream len = some (out, s1) ∧
      out.length = stream.length ∧
      (∀ i : Nat, (i : Int) < len →
        ((s.dma_pos + i) % s.dma_buffer_size).toNat < buf.length ∧
        out[i]? = buf[((s.dma_pos + i) % s.dma_buffer_size).toNat]?) ∧
      (∀ i : Nat, len ≤ (i : Int) → out[i]? = stream[i]?) ∧
      s1.dma_pos = (s.dma_pos + len) % s.dma_buffer_size ∧
      0 ≤ s1.dma_pos ∧ s1.dma_pos < s1.dma_buffer_size ∧
      s1.snd_inited = s.snd_inited ∧ s1.dma_buffer = s.dma_buffer ∧
      s1.dma_buffer_size = s.dma_buffer_size := by
  obtain ⟨inited, dbuf, size, pos⟩ := s
  simp only at hi hb hS hpos hlen
  subst hi hb hS
  obtain ⟨p, rfl⟩ := Int.eq_ofNat_of_zero_le hpos.1
  obtain ⟨n, rfl⟩ := Int.eq_ofNat_of_zero_le hlen.1
  have hp : p < buf.length := by omega
  have hn : n ≤ buf.length := by omega
  have hst2 : n ≤ stream.length := by omega
  obtain ⟨out, h1, h2, h3, h4⟩ := SNDDMA_AudioCallback_nat buf stream p n hp hn hst2
  have hmod : ∀ i : Nat, ((p : Int) + (i : Int)) % (buf.length : Int)
      = (((p + i) % buf.length : Nat) : Int) := by
    intro i
    rw [← Int.ofNat_mod_ofNat]
    rfl
  refine ⟨out, _, h1, h2, ?_, ?_, ?_, ?_, ?_, rfl, rfl, rfl⟩
  · intro i hi
    simp only
    rw [hmod i, Int.toNat_ofNat]
    exact ⟨Nat.mod_lt _ (by omega), h3 i (by omega)⟩
  · intro i hi
    exact h4 i (by omega)
  · simp only
    rw [hmod n]
  · simp only
    omega
  · simp only
    have := Nat.mod_lt (p + n) (show 0 < buf.length by omega)
    omega

/-- Witness of `SNDDMA_AudioCallback_ring`: a buffer of 4 bytes read from position 3
for 3 bytes (the copy wraps), and read from position 1 for 3 bytes (it ends at the end of
the buffer and the position goes back to 0). -/
theorem SNDDMA_AudioCallback_ring_witness :
    SNDDMA_AudioCallback ⟨true, some [10, 11, 12, 13], 4, 3⟩ [0, 0, 0, 7] 3
      = some ([13, 10, 11, 7], ⟨true, some [10, 11, 12, 13], 4, 2⟩) ∧
    SNDDMA_AudioCallback ⟨true, some [10, 11, 12, 13], 4, 1⟩ [0, 0, 0, 7] 3
      = some ([11, 12, 13, 7], ⟨true, some [10, 11, 12, 13], 4, 0⟩) ∧
    (∃ out s1, SNDDMA_AudioCallback ⟨true, some [10, 11, 12, 13], 4, 3⟩ [0, 0, 0, 7] 3
        = some (out, s1) ∧
      out.length = [0, 0, 0, 7].length ∧
      (∀ i : Nat, (i : Int) < 3 →
        (((3 : Int) + i) % 4).toNat < [10, 11, 12, 13].length ∧
        out[i]? = [10, 11, 12, 13][(((3 : Int) + i) % 4).toNat]?) ∧
      (∀ i : Nat, (3 : Int) ≤ (i : Int) → out[i]? = [0, 0, 0, 7][i]?) ∧
      s1.dma_pos = ((3 : Int) + 3) % 4 ∧
      0 ≤ s1.dma_pos ∧ s1.dma_pos < s1.dma_buffer_size ∧
      s1.snd_inited = true ∧ s1.dma_buffer = some [10, 11, 12, 13] ∧
      s1.dma_buffer_size = 4) :=
  ⟨by decide, by decide,
    SNDDMA_AudioCallback_ring ⟨true, some [10, 11, 12, 13], 4, 3⟩ [10, 11, 12, 13]
      [0, 0, 0, 7] 3 rfl rfl rfl (by decide) (by decide) (by decide)⟩

/-! ## Texts that do not fit the scratch buffer -/

theorem PartialIPAddress_overflow (Q : List Char → Int) (myAddr : Nat) (hp : Int)
    (inp : List Char) (hostaddr : qsockaddr) (h : 255 ≤ strlen inp) :
    PartialIPAddress Q myAddr hp inp hostaddr = none := by
  unfold PartialIPAddress
  rw [if_pos (by omega)]

theorem cstr_replicate_one (n : Nat) : cstr (List.replicate n '1') = List.replicate n '1' := by
  apply cstr_eq_self
  intro c hc
  rw [List.eq_of_mem_replicate hc]
  decide

theorem runsOf_replicate_one (n : Nat) :
    runsOf (List.replicate (n + 1) '1') = [List.replicate (n + 1) '1'] := by
  have hmem : ∀ (ch : Char), ch ∈ List.replicate (n + 1) '1' → ch = '1' :=
    fun ch hc => List.eq_of_mem_replicate hc
  unfold runsOf
  rw [cstr_replicate_one]
  have hs : stripDot (List.replicate (n + 1) '1') = List.replicate (n + 1) '1' := by
    unfold stripDot
    rw [List.replicate_succ, peek_cons, if_neg (by decide)]
  have hh : hostPart (List.replicate (n + 1) '1') = List.replicate (n + 1) '1' := by
    unfold hostPart
    rw [List.takeWhile_eq_self_iff]
    intro ch hc
    rw [hmem ch hc]
    decide
  rw [hs, hh]
  apply splitDots_nodot
  intro hc
  exact absurd (hmem _ hc) (by decide)

/-- C3: the code at the failing input, a text of 255 digits `1`.  The text is a single
run of more than three digits, for which the claim asks the result `-1` with the address
untouched; but `strcpy(buff + 1, in)` writes 256 bytes from `buff + 1` on, one past
the end of `char buff[256]`, before any run is looked at: an overflow with undefined
behaviour, which the embedding reports as `none`, so no result `-1` is delivered.  With one digit less the text fits, the run
check is reached and the result is `-1` with the address unchanged. -/
theorem PartialIPAddress_long_run_overflows (Q : List Char → Int) (myAddr : Nat) (hp : Int)
    (hostaddr : qsockaddr) :
    strlen (List.replicate 255 '1') = 255 ∧
    runsOf (List.replicate 255 '1') = [List.replicate 255 '1'] ∧
    PartialIPAddress Q myAddr hp (List.replicate 255 '1') hostaddr = none ∧
    PartialIPAddress Q myAddr hp (List.replicate 255 '1') hostaddr ≠ some (-1, hostaddr) ∧
    PartialIPAddress Q myAddr hp (List.replicate 254 '1') hostaddr = some (-1, hostaddr) := by
  have hlen : ∀ n, strlen (List.replicate n '1') = n := by
    intro n
    rw [strlen_eq, cstr_replicate_one, List.length_replicate]
  have hnone := PartialIPAddress_overflow Q myAddr hp (List.replicate 255 '1') hostaddr
    (by rw [hlen])
  refine ⟨hlen 255, runsOf_replicate_one 254, hnone, ?_, ?_⟩
  · rw [hnone]
    exact fun h => nomatch h
  · apply PartialIPAddress_rejects Q myAddr hp _ hostaddr (by rw [hlen])
    refine ⟨List.replicate 254 '1', ?_, Or.inl ?_⟩
    · rw [runsOf_replicate_one 253]
      exact List.mem_singleton.2 rfl
    · rw [List.length_replicate]
      decide

end RQuake
